import Mathlib

/-!
# SheenFigure: the locator and the chained-context applier

A shallow embedding of `SFLocator.c` and `SFGlyphManipulation.c`.

* Machine words (`SFUInteger`) are natural numbers; arithmetic that can wrap is
  reduced modulo `SFUIntegerSize`.
* `SFAssert` is modelled by `Option`: an operation whose assertion fails yields `none`.
* Pointers to the album are split into the address (`SFLocator._album`) and the
  pointee (`SFAlbum`), which every operation receives explicitly.
-/

namespace SheenFigure

/-! ## Machine words and constants -/

/-- Number of values of the unsigned machine word `SFUInteger` (a 64-bit word). -/
def SFUIntegerSize : Nat := 2 ^ 64

/-- The sentinel `SFInvalidIndex`, the largest `SFUInteger` (all bits set). -/
def SFInvalidIndex : Nat := SFUIntegerSize - 1

/-- Modelled from the spec: `SFAlbum.h` is not in the sources; glyph traits are bit flags. -/
def SFGlyphTraitNone : Nat := 0

/-- Modelled from the spec: the `Base` trait bit. -/
def SFGlyphTraitBase : Nat := 1

/-- Modelled from the spec: the `Ligature` trait bit. -/
def SFGlyphTraitLigature : Nat := 2

/-- Modelled from the spec: the `Mark` trait bit. -/
def SFGlyphTraitMark : Nat := 4

/-- Modelled from the spec: the `Removed` trait bit. -/
def SFGlyphTraitRemoved : Nat := 32

/-- OpenType lookup flag bit `IgnoreBaseGlyphs`. -/
def SFLookupFlagIgnoreBaseGlyphs : Nat := 0x0002

/-- OpenType lookup flag bit `IgnoreLigatures`. -/
def SFLookupFlagIgnoreLigatures : Nat := 0x0004

/-- OpenType lookup flag bit `IgnoreMarks`. -/
def SFLookupFlagIgnoreMarks : Nat := 0x0008

/-- OpenType lookup flag field `MarkAttachmentType` (the high byte). -/
def SFLookupFlagMarkAttachmentType : Nat := 0xFF00

/-! ## Data model -/

/-- The union `SFGlyphMask`: one 32-bit word `full` whose two 16-bit halves are the
sections `featureMask` and `glyphTraits`. -/
structure SFGlyphMask where
  full : Nat

/-- The section `featureMask` of the packed word. -/
def SFGlyphMask.featureMask (m : SFGlyphMask) : Nat := m.full % 65536

/-- The section `glyphTraits` of the packed word. -/
def SFGlyphMask.glyphTraits (m : SFGlyphMask) : Nat := m.full / 65536 % 65536

/-- Writing the section `glyphTraits` (a 16-bit store) keeps the other half of the word. -/
def SFGlyphMask.setGlyphTraits (m : SFGlyphMask) (t : Nat) : SFGlyphMask :=
  { full := m.full % 65536 + 65536 * (t % 65536) }

/-- Modelled from the spec: the album (`SFAlbum.c` is not in the sources) is an ordered
sequence of slots with a glyph id and a packed mask each, a slot count and a version.
`glyph i` is `SFAlbumGetGlyph(album, i)`, `glyphMask i` is `_SFAlbumGetGlyphMask(album, i)`. -/
structure SFAlbum where
  glyphCount : Nat
  _version : Nat
  glyph : Nat → Nat
  glyphMask : Nat → SFGlyphMask

/-- Modelled from the spec: a class definition table is represented by the search it
supports, `SFOpenTypeSearchGlyphClass` (not in the sources): `some c` when the glyph is
found with class `c`, `none` when the search reports failure. -/
abbrev SFClassDef := Nat → Option Nat

/-- Modelled from the spec: a coverage table is represented by the search it supports,
`SFOpenTypeSearchCoverageIndex` (not in the sources): the coverage index of the glyph, or
`SFInvalidIndex`. -/
abbrev SFCoverage := Nat → Nat

/-- The GDEF table as far as the locator reads it: version, the mark attachment class
definition and the address of the mark glyph sets definition. -/
structure SFGDEF where
  version : Nat
  markAttachClassDef : SFClassDef
  markGlyphSetsDef : Nat

/-- The struct `SFLocator`. `_album` is the address of the album. -/
structure SFLocator where
  _album : Nat
  _markAttachClassDef : Option SFClassDef
  _markGlyphSetsDef : Option Nat
  _version : Nat
  _startIndex : Nat
  _limitIndex : Nat
  _stateIndex : Nat
  index : Nat
  _ignoreMask : SFGlyphMask
  lookupFlag : Nat

/-! ## SFLocator.c -/

/-- `SFLocatorInitialize`; `albumRef` is the (non-null) address of the album. -/
def SFLocatorInitialize (albumRef : Nat) (gdef : Option SFGDEF) : SFLocator :=
  { _album := albumRef
    _markAttachClassDef := gdef.map (fun g => g.markAttachClassDef)
    _markGlyphSetsDef :=
      gdef.bind (fun g => if g.version = 0x00010002 then some g.markGlyphSetsDef else none)
    _version := SFInvalidIndex
    _startIndex := 0
    _limitIndex := 0
    _stateIndex := 0
    index := SFInvalidIndex
    _ignoreMask := { full := 0 }
    lookupFlag := 0 }

/-- `SFLocatorSetLookupFlag`. -/
def SFLocatorSetLookupFlag (l : SFLocator) (lookupFlag : Nat) : SFLocator :=
  let glyphTraits := SFGlyphTraitNone
  let glyphTraits :=
    if lookupFlag &&& SFLookupFlagIgnoreBaseGlyphs ≠ 0 then glyphTraits ||| SFGlyphTraitBase
    else glyphTraits
  let glyphTraits :=
    if lookupFlag &&& SFLookupFlagIgnoreLigatures ≠ 0 then glyphTraits ||| SFGlyphTraitLigature
    else glyphTraits
  let glyphTraits :=
    if lookupFlag &&& SFLookupFlagIgnoreMarks ≠ 0 then glyphTraits ||| SFGlyphTraitMark
    else glyphTraits
  let glyphTraits := glyphTraits ||| SFGlyphTraitRemoved
  { l with lookupFlag := lookupFlag, _ignoreMask := l._ignoreMask.setGlyphTraits glyphTraits }

/-- `SFLocatorReset`; the sum `index + count` wraps like the machine word. -/
def SFLocatorReset (a : SFAlbum) (l : SFLocator) (index count : Nat) : Option SFLocator :=
  if index ≤ a.glyphCount ∧ index ≤ (index + count) % SFUIntegerSize then
    some { l with
      _version := a._version
      _startIndex := index
      _limitIndex := (index + count) % SFUIntegerSize
      _stateIndex := index
      index := SFInvalidIndex }
  else none

/-- `_SFIsIgnoredGlyph`. -/
def _SFIsIgnoredGlyph (a : SFAlbum) (l : SFLocator) (index : Nat) : Bool :=
  let lookupFlag := l.lookupFlag
  let glyphMask := a.glyphMask index
  if l._ignoreMask.full &&& glyphMask.full ≠ 0 then true
  else if lookupFlag &&& SFLookupFlagMarkAttachmentType ≠ 0 then
    let glyph := a.glyph index
    match l._markAttachClassDef with
    | none => false
    | some classDef =>
      if glyphMask.glyphTraits &&& SFGlyphTraitMark ≠ 0 then
        match classDef glyph with
        | some glyphClass => !(decide (glyphClass = lookupFlag >>> 8))
        | none => true
      else false
  else false

/-- The `while` loop of `SFLocatorMoveNext`; the first argument bounds the number of
iterations and is `_limitIndex - _stateIndex` at the call. -/
def moveNextLoop (a : SFAlbum) : Nat → SFLocator → Bool × SFLocator
  | 0, l => (false, l)
  | n + 1, l =>
    if l._stateIndex < l._limitIndex then
      let index := l._stateIndex
      let l1 := { l with _stateIndex := l._stateIndex + 1 }
      if !(_SFIsIgnoredGlyph a l1 index) then (true, { l1 with index := index })
      else moveNextLoop a n l1
    else (false, l)

/-- `SFLocatorMoveNext`: `none` when an assertion fails, else the returned boolean and the
locator after the call. -/
def SFLocatorMoveNext (a : SFAlbum) (l : SFLocator) : Option (Bool × SFLocator) :=
  if l._stateIndex ≤ l._limitIndex ∧ l._version = a._version then
    some (moveNextLoop a (l._limitIndex - l._stateIndex) l)
  else none

/-- `SFLocatorSkip`: the `for` loop counts `skipper` down from `count`. -/
def SFLocatorSkip (a : SFAlbum) : Nat → SFLocator → Option (Bool × SFLocator)
  | 0, l => some (true, l)
  | skipper + 1, l =>
    match SFLocatorMoveNext a l with
    | none => none
    | some (true, l1) => SFLocatorSkip a skipper l1
    | some (false, l1) => some (false, l1)

/-- `SFLocatorJumpTo`. -/
def SFLocatorJumpTo (a : SFAlbum) (l : SFLocator) (index : Nat) : Option SFLocator :=
  if index ≤ l._limitIndex ∧ l._version = a._version then
    some { l with _stateIndex := index }
  else none

/-- The `for` loop of `SFLocatorGetAfter`, entered with `index` already incremented; the
first argument bounds the number of iterations and is `_limitIndex - index` at the call. -/
def getAfterLoop (a : SFAlbum) (l : SFLocator) : Nat → Nat → Nat
  | 0, _ => SFInvalidIndex
  | n + 1, index =>
    if index < l._limitIndex then
      if !(_SFIsIgnoredGlyph a l index) then index
      else getAfterLoop a l n (index + 1)
    else SFInvalidIndex

/-- `SFLocatorGetAfter`. The increment cannot wrap: `index < _limitIndex`. -/
def SFLocatorGetAfter (a : SFAlbum) (l : SFLocator) (index : Nat) : Option Nat :=
  if index < l._limitIndex ∧ l._version = a._version then
    some (getAfterLoop a l (l._limitIndex - (index + 1)) (index + 1))
  else none

/-- The `while (index-- > start)` loop of `SFLocatorGetBefore`: the comparison uses the
value before the decrement, and the decrement wraps at zero; the first argument bounds the
number of iterations and is `index` at the call. -/
def getBeforeLoop (a : SFAlbum) (l : SFLocator) : Nat → Nat → Nat
  | 0, _ => SFInvalidIndex
  | n + 1, index =>
    let test := decide (index > l._startIndex)
    let index := (index + SFUIntegerSize - 1) % SFUIntegerSize
    if test then
      if !(_SFIsIgnoredGlyph a l index) then index
      else getBeforeLoop a l n index
    else SFInvalidIndex

/-- `SFLocatorGetBefore`. -/
def SFLocatorGetBefore (a : SFAlbum) (l : SFLocator) (index : Nat) : Option Nat :=
  if index < l._limitIndex ∧ l._version = a._version then
    some (getBeforeLoop a l (index + 1) index)
  else none

/-- `SFLocatorTakeState`. -/
def SFLocatorTakeState (l sibling : SFLocator) : Option SFLocator :=
  if l._album = sibling._album ∧ sibling._stateIndex ≤ l._limitIndex then
    some { l with _stateIndex := sibling._stateIndex }
  else none

/-! ## SFGlyphManipulation.c -/

/-- The enum `SFFeatureKind` of the text processor. -/
inductive SFFeatureKind where
  | Substitution
  | Positioning
  deriving DecidableEq

/-- The struct `SFTextProcessor` as far as the chained-context applier uses it: the album
(the pointee of `processor->_album`), the locator and the feature kind. -/
structure SFTextProcessor where
  _album : SFAlbum
  _locator : SFLocator
  _featureKind : SFFeatureKind

/-- One lookup record of a context record: `SFLookupRecord_SequenceIndex` and
`SFLookupRecord_LookupListIndex`. -/
structure SFLookupRecord where
  sequenceIndex : Nat
  lookupListIndex : Nat

/-- Modelled from the spec: the accessor macros of the chained-context subtable
(`SFChainContextF3_BacktrackRecord`, `SFInputRecord_GlyphCount`, `SFInputRecord_Value`, ...)
are not in the sources. The subtable is its parsed view: three ordered coverage sequences
(each count is the length of its list, the k-th value is the k-th element) followed by the
context record, the list of lookup records. -/
structure SFChainContextF3 where
  backtrackRecord : List SFCoverage
  inputRecord : List SFCoverage
  lookaheadRecord : List SFCoverage
  contextRecord : List SFLookupRecord

/-- The body shared by the input loop (`recordIndex` from 1) and the lookahead loop
(`recordIndex` from 0) of `_SFApplyChainContextF3`: step with `SFLocatorGetAfter` and test
the glyph against the next coverage. Outer `none`: an assertion failed; `some none`: the
jump to `NotMatched`; `some (some i)`: all coverages matched, the last index is `i`. -/
def matchAfterLoop (a : SFAlbum) (l : SFLocator) : List SFCoverage → Nat → Option (Option Nat)
  | [], index => some (some index)
  | coverage :: rest, index =>
    match SFLocatorGetAfter a l index with
    | none => none
    | some index1 =>
      if index1 ≠ SFInvalidIndex then
        let inputGlyph := a.glyph index1
        let coverageIndex := coverage inputGlyph
        if coverageIndex = SFInvalidIndex then some none
        else matchAfterLoop a l rest index1
      else some none

/-- The backtrack loop of `_SFApplyChainContextF3`: step with `SFLocatorGetBefore` and test
the glyph against the next backtrack coverage. Results as for `matchAfterLoop`. -/
def matchBeforeLoop (a : SFAlbum) (l : SFLocator) : List SFCoverage → Nat → Option (Option Nat)
  | [], index => some (some index)
  | coverage :: rest, index =>
    match SFLocatorGetBefore a l index with
    | none => none
    | some index1 =>
      if index1 ≠ SFInvalidIndex then
        let inputGlyph := a.glyph index1
        let coverageIndex := coverage inputGlyph
        if coverageIndex = SFInvalidIndex then some none
        else matchBeforeLoop a l rest index1
      else some none

/-- The `for` loop of `_SFApplyContextRecord` over the lookup records. The nested
`_SFApplyLookup` is not in the sources and is the parameter `applyLookup`: it receives the
lookup list index and the processor, and yields the processor it leaves (`none` when an
assertion fails inside). -/
def contextRecordLoop (applyLookup : Nat → SFTextProcessor → Option SFTextProcessor)
    (index count : Nat) : List SFLookupRecord → SFTextProcessor → Option SFTextProcessor
  | [], p => some p
  | lookupRecord :: rest, p =>
    match SFLocatorReset p._album p._locator index count with
    | none => none
    | some l1 =>
      match SFLocatorSkip p._album lookupRecord.sequenceIndex l1 with
      | none => none
      | some (true, l2) =>
        match applyLookup lookupRecord.lookupListIndex { p with _locator := l2 } with
        | none => none
        | some p1 => contextRecordLoop applyLookup index count rest p1
      | some (false, l2) =>
        contextRecordLoop applyLookup index count rest { p with _locator := l2 }

/-- `_SFApplyContextRecord`. -/
def _SFApplyContextRecord (applyLookup : Nat → SFTextProcessor → Option SFTextProcessor)
    (p : SFTextProcessor) (contextRecord : List SFLookupRecord) (index count : Nat) :
    Option SFTextProcessor :=
  let originalLocator := p._locator
  match contextRecordLoop applyLookup index count contextRecord p with
  | none => none
  | some p1 =>
    match SFLocatorTakeState originalLocator p1._locator with
    | none => none
    | some originalLocator1 => some { p1 with _locator := originalLocator1 }

/-- `_SFApplyChainContextF3`: `none` when an assertion fails, else the returned boolean
and the processor after the call. The span length `(inputIndex - index) + 1` does not wrap:
`SFLocatorGetAfter` only yields indices above its argument. -/
def _SFApplyChainContextF3 (applyLookup : Nat → SFTextProcessor → Option SFTextProcessor)
    (p : SFTextProcessor) (chainContext : SFChainContextF3) : Option (Bool × SFTextProcessor) :=
  match chainContext.inputRecord with
  | [] => some (false, p)
  | coverage :: inputRest =>
    let album := p._album
    let locator := p._locator
    let inputGlyph := album.glyph locator.index
    let coverageIndex := coverage inputGlyph
    if coverageIndex ≠ SFInvalidIndex then
      match matchAfterLoop album locator inputRest locator.index with
      | none => none
      | some none => some (false, p)
      | some (some inputIndex) =>
        match matchBeforeLoop album locator chainContext.backtrackRecord locator.index with
        | none => none
        | some none => some (false, p)
        | some (some _) =>
          match matchAfterLoop album locator chainContext.lookaheadRecord inputIndex with
          | none => none
          | some none => some (false, p)
          | some (some _) =>
            match _SFApplyContextRecord applyLookup p chainContext.contextRecord
                locator.index ((inputIndex - locator.index) + 1) with
            | none => none
            | some p1 => some (true, p1)
    else some (false, p)


/-! ## Sample data -/

/-- The album `[A, M, B, C]` of the end-to-end scenario: glyph ids 65, 77, 66, 67, the
slot of `M` carries the `Mark` trait, no feature bits are set. -/
def sampleAlbum : SFAlbum :=
  { glyphCount := 4
    _version := 0
    glyph := fun i => [65, 77, 66, 67].getD i 0
    glyphMask := fun i => if i = 1 then { full := 65536 * SFGlyphTraitMark } else { full := 0 } }

/-- A locator over the whole of `sampleAlbum`, without GDEF, with lookup flag `IgnoreMarks`,
as left by initialize, set-lookup-flag and reset. -/
def sampleLocator : SFLocator :=
  { SFLocatorSetLookupFlag (SFLocatorInitialize 1 none) SFLookupFlagIgnoreMarks with
    _version := 0
    _startIndex := 0
    _limitIndex := 4
    _stateIndex := 0
    index := SFInvalidIndex }


/-- The sample locator after `SFLocatorReset` to the one-slot range `[3, 4)`. -/
def sampleTailLocator : SFLocator :=
  { sampleLocator with _startIndex := 3, _stateIndex := 3 }

/-- The sample locator after its first successful `SFLocatorMoveNext`. -/
def sampleMoved : SFLocator :=
  { sampleLocator with _stateIndex := 1, index := 0 }

/-- The sample locator after its second successful `SFLocatorMoveNext` (the mark in slot 1
is skipped). -/
def sampleMovedTwice : SFLocator :=
  { sampleLocator with _stateIndex := 3, index := 2 }

/-- A locator over the whole of `sampleAlbum`, initialised without GDEF, whose lookup flag
selects mark attachment class 1 and ignores nothing else. -/
def sampleClassLocator : SFLocator :=
  { SFLocatorSetLookupFlag (SFLocatorInitialize 1 none) 0x0100 with
    _version := 0
    _startIndex := 0
    _limitIndex := 4
    _stateIndex := 0
    index := SFInvalidIndex }

/-- The coverage table that covers exactly the glyph `g` (with coverage index 0). -/
def coverageOf (g : Nat) : SFCoverage :=
  fun glyph => if glyph = g then 0 else SFInvalidIndex

/-- The subtable of the end-to-end scenario: backtrack `[cov(A)]`, input
`[cov(B), cov(C)]`, no lookahead, context record `(sequence_index = 0, lookup 0)`. -/
def sampleChain : SFChainContextF3 :=
  { backtrackRecord := [coverageOf 65]
    inputRecord := [coverageOf 66, coverageOf 67]
    lookaheadRecord := []
    contextRecord := [{ sequenceIndex := 0, lookupListIndex := 0 }] }

/-- The processor of the scenario while the outer traversal visits `B`: the locator has
yielded index 2 and its state is 3. -/
def sampleProcessor : SFTextProcessor :=
  { _album := sampleAlbum
    _locator := sampleMovedTwice
    _featureKind := SFFeatureKind.Substitution }

/-- The nested lookup `k` of the end-to-end scenario: it moves the cursor to the next
glyph of its range and, when that glyph is `B` (66), substitutes `B′` (166) for it. -/
def substituteLookup : Nat → SFTextProcessor → Option SFTextProcessor :=
  fun _ q =>
    match SFLocatorMoveNext q._album q._locator with
    | none => none
    | some (false, l1) => some { q with _locator := l1 }
    | some (true, l1) =>
      some { q with
        _album := { q._album with
          glyph := fun i =>
            if i = l1.index ∧ q._album.glyph i = 66 then 166 else q._album.glyph i }
        _locator := l1 }

/-- The sample processor after the end-to-end scenario: `B` in slot 2 is rewritten to
`B′`, and the outer locator has the state 3 of the span locator. -/
def sampleAfterSubstitute : SFTextProcessor :=
  { sampleProcessor with
    _album := { sampleAlbum with
      glyph := fun i => if i = 2 ∧ sampleAlbum.glyph i = 66 then 166 else sampleAlbum.glyph i }
    _locator := { sampleMovedTwice with _stateIndex := 3 } }

/-- A nested lookup that runs the cursor to the end of its range. -/
def drainLookup : Nat → SFTextProcessor → Option SFTextProcessor :=
  fun _ q =>
    match SFLocatorJumpTo q._album q._locator q._locator._limitIndex with
    | none => none
    | some l => some { q with _locator := l }

/-- The sample processor with the outer locator's state taken from a drained span
locator. -/
def sampleAfterDrain : SFTextProcessor :=
  { sampleProcessor with _locator := { sampleMovedTwice with _stateIndex := 4 } }

/-- The locator `sampleTailLocator` (range `[3, 4)`) after `SFLocatorJumpTo(0)`. -/
def sampleJumped : SFLocator :=
  { sampleTailLocator with _stateIndex := 0 }

/-- The sample locator with a cached version that differs from the album's version. -/
def sampleStale : SFLocator :=
  { sampleLocator with _version := 7 }

/-! ## Sequences of traversal calls -/

/-- A traversal call on a locator: `SFLocatorMoveNext` or `SFLocatorSkip` with its count. -/
inductive SFLocatorCall where
  | moveNext
  | skip (count : Nat)

/-- `SFLocatorSkip` together with the indices its inner `SFLocatorMoveNext` calls yield, in
order (`skipTrace_eq_skip` shows that it returns what `SFLocatorSkip` returns). -/
def skipTrace (a : SFAlbum) : Nat → SFLocator → Option (Bool × SFLocator × List Nat)
  | 0, l => some (true, l, [])
  | skipper + 1, l =>
    match SFLocatorMoveNext a l with
    | none => none
    | some (true, l1) =>
      match skipTrace a skipper l1 with
      | none => none
      | some (b, l2, t) => some (b, l2, l1.index :: t)
    | some (false, l1) => some (false, l1, [])

/-- Runs a sequence of traversal calls and collects every index yielded by a successful
`SFLocatorMoveNext`, directly or inside `SFLocatorSkip`; `none` when an assertion fails. -/
def runCalls (a : SFAlbum) : List SFLocatorCall → SFLocator → Option (List Nat × SFLocator)
  | [], l => some ([], l)
  | SFLocatorCall.moveNext :: calls, l =>
    match SFLocatorMoveNext a l with
    | none => none
    | some (b, l1) =>
      match runCalls a calls l1 with
      | none => none
      | some (ys, l2) => some ((if b then [l1.index] else []) ++ ys, l2)
  | SFLocatorCall.skip count :: calls, l =>
    match skipTrace a count l with
    | none => none
    | some (_, l1, t) =>
      match runCalls a calls l1 with
      | none => none
      | some (ys, l2) => some (t ++ ys, l2)

/-- The traversal invariant after a reset to `[s, e)`: fresh, range `[s, e)`, state inside
`[s, e]`. -/
def InRange (a : SFAlbum) (s e : Nat) (l : SFLocator) : Prop :=
  l._version = a._version ∧ l._startIndex = s ∧ l._limitIndex = e ∧
    s ≤ l._stateIndex ∧ l._stateIndex ≤ e

/-! ## Specification-side definitions -/

/-- Specification side: `class_of` on the locator's optional class definition: the class the table
gives the glyph, if any. -/
def class_of (classDef : Option SFClassDef) (glyph : Nat) : Option Nat :=
  classDef.bind (fun table => table glyph)


/-- Specification side: `js` are the indices obtained by iterating `SFLocatorGetAfter`
from `cur`, one step per coverage, every step yielding a real index whose glyph the step's
coverage covers. -/
def StepsAfter (a : SFAlbum) (l : SFLocator) : List SFCoverage → Nat → List Nat → Prop
  | [], _, js => js = []
  | coverage :: rest, cur, js =>
    ∃ j tail, js = j :: tail ∧ SFLocatorGetAfter a l cur = some j ∧ j ≠ SFInvalidIndex ∧
      coverage (a.glyph j) ≠ SFInvalidIndex ∧ StepsAfter a l rest j tail

/-- Specification side: `js` are the indices obtained by iterating `SFLocatorGetBefore`
from `cur`, the k-th step covered by the k-th coverage (reverse text order). -/
def StepsBefore (a : SFAlbum) (l : SFLocator) : List SFCoverage → Nat → List Nat → Prop
  | [], _, js => js = []
  | coverage :: rest, cur, js =>
    ∃ j tail, js = j :: tail ∧ SFLocatorGetBefore a l cur = some j ∧ j ≠ SFInvalidIndex ∧
      coverage (a.glyph j) ≠ SFInvalidIndex ∧ StepsBefore a l rest j tail

/-- Specification side: the chained-context subtable matches at `p` with last input index
`last`: there is a first input coverage and it covers the glyph at `p`; the remaining
input coverages are matched by the indices `ins` after `p`, ending at `last`; the
backtrack coverages by the indices before `p`; the lookahead coverages by the indices
after `last`. -/
def ChainMatchesAt (a : SFAlbum) (l : SFLocator) (cc : SFChainContextF3) (p last : Nat) :
    Prop :=
  ∃ coverage rest, cc.inputRecord = coverage :: rest ∧
    coverage (a.glyph p) ≠ SFInvalidIndex ∧
    ∃ ins backs aheads, StepsAfter a l rest p ins ∧ ins.getLastD p = last ∧
      StepsBefore a l cc.backtrackRecord p backs ∧
      StepsAfter a l cc.lookaheadRecord last aheads

/-- Specification side: the chained-context subtable matches at `p`. -/
def ChainMatches (a : SFAlbum) (l : SFLocator) (cc : SFChainContextF3) (p : Nat) : Prop :=
  ∃ last, ChainMatchesAt a l cc p last

/-- Specification side: `r` is the locator reached from `l` by `k` successive calls of
`SFLocatorMoveNext` that all return true. -/
def MoveNextChain (a : SFAlbum) : Nat → SFLocator → SFLocator → Prop
  | 0, l, r => r = l
  | k + 1, l, r => ∃ m, SFLocatorMoveNext a l = some (true, m) ∧ MoveNextChain a k m r

/-! ## Remaining locator operations -/

/-- Writing the section `featureMask` (a 16-bit store) keeps the other half of the word. -/
def SFGlyphMask.setFeatureMask (m : SFGlyphMask) (v : Nat) : SFGlyphMask :=
  { full := v % 65536 + 65536 * (m.full / 65536 % 65536) }

/-- Modelled from the spec: `_SFAlbumGetAntiFeatureMask` is not in the sources; `anti(mask)`
is taken as the 16-bit complement of the feature mask. -/
def _SFAlbumGetAntiFeatureMask (featureMask : Nat) : Nat :=
  65535 - featureMask % 65536

/-- Modelled from the spec: `SFAlbumReserveGlyphs` is not in the sources. The album inserts
`count` empty slots at `index`: the slot count grows by `count`, the slots below `index`
stay, the slots from `index` on move up by `count`, and the version is bumped. -/
def SFAlbumReserveGlyphs (a : SFAlbum) (index count : Nat) : SFAlbum :=
  { glyphCount := a.glyphCount + count
    _version := a._version + 1
    glyph := fun i =>
      if i < index then a.glyph i else if i < index + count then 0 else a.glyph (i - count)
    glyphMask := fun i =>
      if i < index then a.glyphMask i
      else if i < index + count then { full := 0 } else a.glyphMask (i - count) }

/-- `SFLocatorReserveGlyphs`: yields the album and the locator after the call; the sum
`_limitIndex + glyphCount` wraps like the machine word. -/
def SFLocatorReserveGlyphs (a : SFAlbum) (l : SFLocator) (glyphCount : Nat) :
    Option (SFAlbum × SFLocator) :=
  if l._version = a._version then
    let a1 := SFAlbumReserveGlyphs a l._stateIndex glyphCount
    some (a1, { l with
      _version := a1._version
      _limitIndex := (l._limitIndex + glyphCount) % SFUIntegerSize })
  else none

/-- `SFLocatorSetFeatureMask`. -/
def SFLocatorSetFeatureMask (l : SFLocator) (featureMask : Nat) : SFLocator :=
  { l with _ignoreMask := l._ignoreMask.setFeatureMask (_SFAlbumGetAntiFeatureMask featureMask) }

/-- A call of one of the locator operations that the cursor invariant is claimed for. -/
inductive SFLocatorOp where
  | moveNext
  | skip (count : Nat)
  | jumpTo (index : Nat)
  | takeState (sibling : SFLocator)
  | reserveGlyphs (glyphCount : Nat)
  | setFeatureMask (featureMask : Nat)
  | setLookupFlag (lookupFlag : Nat)

/-- Runs one locator operation: `none` when an assertion of the operation fails, else the
album and the locator after the call. -/
def SFLocatorOp.run (a : SFAlbum) (l : SFLocator) : SFLocatorOp → Option (SFAlbum × SFLocator)
  | SFLocatorOp.moveNext => (SFLocatorMoveNext a l).map (fun r => (a, r.2))
  | SFLocatorOp.skip count => (SFLocatorSkip a count l).map (fun r => (a, r.2))
  | SFLocatorOp.jumpTo index => (SFLocatorJumpTo a l index).map (fun r => (a, r))
  | SFLocatorOp.takeState sibling => (SFLocatorTakeState l sibling).map (fun r => (a, r))
  | SFLocatorOp.reserveGlyphs glyphCount => SFLocatorReserveGlyphs a l glyphCount
  | SFLocatorOp.setFeatureMask featureMask => some (a, SFLocatorSetFeatureMask l featureMask)
  | SFLocatorOp.setLookupFlag lookupFlag => some (a, SFLocatorSetLookupFlag l lookupFlag)

/-- The cursor invariant of the specification: `start ≤ state ≤ limit`. -/
def StateInRange (l : SFLocator) : Prop :=
  l._startIndex ≤ l._stateIndex ∧ l._stateIndex ≤ l._limitIndex

/-- The side condition under which an operation keeps `start ≤ state ≤ limit`: a jump
target or a sibling state is not below the start, and reserving glyphs does not wrap the
limit; the other operations need none. -/
def SFLocatorOp.KeepsRange (l : SFLocator) : SFLocatorOp → Prop
  | SFLocatorOp.jumpTo index => l._startIndex ≤ index
  | SFLocatorOp.takeState sibling => l._startIndex ≤ sibling._stateIndex
  | SFLocatorOp.reserveGlyphs glyphCount => l._limitIndex + glyphCount < SFUIntegerSize
  | _ => True

/-! ## Extension subtable -/

/-- Modelled from the spec: the accessor macros `SFExtension_Format`,
`SFExtensionF1_LookupType` and `SFExtensionF1_ExtensionOffset` are not in the sources. An
extension subtable is its address together with the three fields the macros read. -/
structure SFExtension where
  address : Nat
  format : Nat
  lookupType : Nat
  extensionOffset : Nat

/-- `SFData_Subdata`: the view that starts `offset` bytes into `data`. -/
def SFData_Subdata (data offset : Nat) : Nat := data + offset

/-- `_SFApplyExtensionSubtable`. The appliers `_SFApplySubstitutionSubtable` and
`_SFApplyPositioningSubtable` are not in the sources and are parameters: they receive the
processor, the lookup type and the inner subtable. The enum `SFFeatureKind` has the two
kinds of the `switch`; after the `switch` the function returns false. -/
def _SFApplyExtensionSubtable
    (applySubstitution applyPositioning :
      SFTextProcessor → Nat → Nat → Option (Bool × SFTextProcessor))
    (p : SFTextProcessor) (extensionSubtable : SFExtension) :
    Option (Bool × SFTextProcessor) :=
  let format := extensionSubtable.format
  if format = 1 then
    let lookupType := extensionSubtable.lookupType
    let offset := extensionSubtable.extensionOffset
    let innerSubtable := SFData_Subdata extensionSubtable.address offset
    match p._featureKind with
    | SFFeatureKind.Substitution => applySubstitution p lookupType innerSubtable
    | SFFeatureKind.Positioning => applyPositioning p lookupType innerSubtable
  else some (false, p)

/-! ## Further sample data -/

/-- A nested lookup that visits the next glyph of its range and inserts one slot behind it
through `SFLocatorReserveGlyphs`, as a substitution of one glyph by two does. -/
def reserveLookup : Nat → SFTextProcessor → Option SFTextProcessor :=
  fun _ q =>
    match SFLocatorMoveNext q._album q._locator with
    | none => none
    | some (_, l1) =>
      match SFLocatorReserveGlyphs q._album l1 1 with
      | none => none
      | some (a1, l2) => some { q with _album := a1, _locator := l2 }

/-- The processor of the scenario while the outer traversal visits `A`: the locator has
yielded index 0 and its state is 1. -/
def sampleProcessorAtA : SFTextProcessor :=
  { sampleProcessor with _locator := sampleMoved }

/-! ## Pattern and pattern builder

The pattern builder (`SFPatternBuilder.c`) is not in the sources; only its tests in
`PatternTester.cpp` are. This section models it from the specification. -/

/-- `SFTagMake`: the four characters of a tag packed into one 32-bit word. -/
def SFTagMake (a b c d : Char) : Nat :=
  ((a.toNat * 256 + b.toNat) * 256 + c.toNat) * 256 + d.toNat

/-- The enum `SFTextDirection` as used by the tests. -/
inductive SFTextDirection where
  | LeftToRight
  | RightToLeft
  deriving DecidableEq

/-- The struct `SFRange` of a covered range: start and count. -/
structure SFRange where
  start : Nat
  count : Nat
  deriving DecidableEq

/-- The struct `SFFeatureUnit`, with the fields the tests compare. -/
structure SFFeatureUnit where
  lookupIndexes : List Nat
  coveredRange : SFRange
  featureMask : Nat
  deriving DecidableEq

/-- The struct `SFPattern`, with the fields the tests compare; `font` is the address of the
font (0 for `NULL`), `gsub` and `gpos` are the unit counts of `featureUnits`. -/
structure SFPattern where
  font : Nat
  featureTags : List Nat
  featureUnits : List SFFeatureUnit
  gsub : Nat
  gpos : Nat
  scriptTag : Nat
  languageTag : Nat
  defaultDirection : SFTextDirection
  deriving DecidableEq

/-- `SFPatternCreate` as the tests observe it: the empty pattern. -/
def SFPatternCreate : SFPattern :=
  { font := 0
    featureTags := []
    featureUnits := []
    gsub := 0
    gpos := 0
    scriptTag := 0
    languageTag := 0
    defaultDirection := SFTextDirection.LeftToRight }

/-- Modelled from the spec: one entry of the builder's accumulator, a (tag, mask,
lookup-index-list) triple of the unit that is not yet completed. -/
structure SFBuilderFeature where
  tag : Nat
  mask : Nat
  lookups : List Nat
  deriving DecidableEq

/-- Modelled from the spec: the state of the pattern builder: the pattern in progress, the
current feature kind, the accumulator of the open unit, and the unit counts per kind. -/
structure SFPatternBuilder where
  _pattern : SFPattern
  _featureKind : Option SFFeatureKind
  _features : List SFBuilderFeature
  _gsubCount : Nat
  _gposCount : Nat
  deriving DecidableEq

/-- Modelled from the spec: `init(pattern)` binds the builder to a pattern. -/
def SFPatternBuilderInitialize (pattern : SFPattern) : SFPatternBuilder :=
  { _pattern := pattern
    _featureKind := none
    _features := []
    _gsubCount := 0
    _gposCount := 0 }

/-- Modelled from the spec: `set_font`, a simple field setter. -/
def SFPatternBuilderSetFont (b : SFPatternBuilder) (font : Nat) : SFPatternBuilder :=
  { b with _pattern := { b._pattern with font := font } }

/-- Modelled from the spec: `set_script(tag, direction)`, a simple field setter. -/
def SFPatternBuilderSetScript (b : SFPatternBuilder) (scriptTag : Nat)
    (direction : SFTextDirection) : SFPatternBuilder :=
  { b with _pattern := { b._pattern with scriptTag := scriptTag, defaultDirection := direction } }

/-- Modelled from the spec: `set_language(tag)`, a simple field setter. -/
def SFPatternBuilderSetLanguage (b : SFPatternBuilder) (languageTag : Nat) :
    SFPatternBuilder :=
  { b with _pattern := { b._pattern with languageTag := languageTag } }

/-- Modelled from the spec: `begin_features(kind)`; its precondition is that no unit is
open with a different kind (`none` when it is violated). -/
def SFPatternBuilderBeginFeatures (b : SFPatternBuilder) (kind : SFFeatureKind) :
    Option SFPatternBuilder :=
  if b._features ≠ [] ∧ b._featureKind ≠ some kind then none
  else some { b with _featureKind := some kind }

/-- Modelled from the spec: `add_feature(tag, mask)` appends `(tag, mask)` to the
accumulator; if the tag already occurs in the open unit, the mask bits are OR-ed into the
existing entry and no duplicate tag is emitted. -/
def SFPatternBuilderAddFeature (b : SFPatternBuilder) (tag mask : Nat) : SFPatternBuilder :=
  if b._features.any (fun e => decide (e.tag = tag)) then
    { b with _features :=
        b._features.map (fun e => if e.tag = tag then { e with mask := e.mask ||| mask } else e) }
  else
    { b with _features := b._features ++ [{ tag := tag, mask := mask, lookups := [] }] }

/-- Modelled from the spec: insertion of a lookup index into a list that is kept sorted
ascending and deduplicated (insertion sort). -/
def insertLookup (v : Nat) : List Nat → List Nat
  | [] => [v]
  | x :: xs =>
    if v < x then v :: x :: xs
    else if v = x then x :: xs
    else x :: insertLookup v xs

/-- Applies `f` to the last element of a list (the most recently added feature). -/
def updateLast (f : SFBuilderFeature → SFBuilderFeature) :
    List SFBuilderFeature → List SFBuilderFeature
  | [] => []
  | [x] => [f x]
  | x :: y :: rest => x :: updateLast f (y :: rest)

/-- Modelled from the spec: `add_lookup(lli)` inserts `lli` into the lookup list of the
most recently added feature. -/
def SFPatternBuilderAddLookup (b : SFPatternBuilder) (lookupIndex : Nat) : SFPatternBuilder :=
  { b with _features :=
      updateLast (fun e => { e with lookups := insertLookup lookupIndex e.lookups }) b._features }

/-- The lookup indexes of all features of the accumulator, one list after the other. -/
def allLookups : List SFBuilderFeature → List Nat
  | [] => []
  | e :: rest => e.lookups ++ allLookups rest

/-- Inserts every element of a list into a sorted, deduplicated list. -/
def insertAll : List Nat → List Nat → List Nat
  | [], acc => acc
  | v :: rest, acc => insertAll rest (insertLookup v acc)

/-- Modelled from the spec: the union of the lookup lists across the features of a unit,
sorted and deduplicated. -/
def unionLookups (features : List SFBuilderFeature) : List Nat :=
  insertAll (allLookups features) []

/-- The OR of the masks of the features of a unit. -/
def unionMask : List SFBuilderFeature → Nat
  | [] => 0
  | e :: rest => e.mask ||| unionMask rest

/-- Modelled from the spec: `make_feature_unit()` seals the open unit: the union of the
lookup lists, the OR of the member masks, the covered range
`{ start = prev_tag_count, count = new_tags_added }` of the tags it appends to
`feature_tags`; the unit is appended to the unit list, counted under the current kind, and
the accumulator is cleared. A unit without lookups is still emitted. -/
def SFPatternBuilderMakeFeatureUnit (b : SFPatternBuilder) : SFPatternBuilder :=
  let featureUnit : SFFeatureUnit :=
    { lookupIndexes := unionLookups b._features
      coveredRange := { start := b._pattern.featureTags.length, count := b._features.length }
      featureMask := unionMask b._features }
  { b with
    _pattern := { b._pattern with
      featureTags := b._pattern.featureTags ++ b._features.map (fun e => e.tag)
      featureUnits := b._pattern.featureUnits ++ [featureUnit] }
    _features := []
    _gsubCount :=
      if b._featureKind = some SFFeatureKind.Substitution then b._gsubCount + 1
      else b._gsubCount
    _gposCount :=
      if b._featureKind = some SFFeatureKind.Positioning then b._gposCount + 1
      else b._gposCount }

/-- Modelled from the spec: `end_features()` commits any pending unit and closes the
kind. -/
def SFPatternBuilderEndFeatures (b : SFPatternBuilder) : SFPatternBuilder :=
  if b._features = [] then { b with _featureKind := none }
  else { SFPatternBuilderMakeFeatureUnit b with _featureKind := none }

/-- Modelled from the spec: `build()` finalizes the counts of the pattern. -/
def SFPatternBuilderBuild (b : SFPatternBuilder) : SFPatternBuilder :=
  { b with _pattern := { b._pattern with gsub := b._gsubCount, gpos := b._gposCount } }

/-- A call that adds to the open unit: `add_feature` or `add_lookup`. -/
inductive SFFeatureCall where
  | addFeature (tag mask : Nat)
  | addLookup (lookupIndex : Nat)

/-- A call of the pattern builder. -/
inductive SFBuilderCall where
  | setFont (font : Nat)
  | setScript (scriptTag : Nat) (direction : SFTextDirection)
  | setLanguage (languageTag : Nat)
  | beginFeatures (kind : SFFeatureKind)
  | feature (call : SFFeatureCall)
  | makeFeatureUnit
  | endFeatures
  | build

/-- Runs one call that adds to the open unit. -/
def SFFeatureCall.run (b : SFPatternBuilder) : SFFeatureCall → SFPatternBuilder
  | SFFeatureCall.addFeature tag mask => SFPatternBuilderAddFeature b tag mask
  | SFFeatureCall.addLookup lookupIndex => SFPatternBuilderAddLookup b lookupIndex

/-- Runs a sequence of calls that add to the open unit. -/
def runFeatureCalls : List SFFeatureCall → SFPatternBuilder → SFPatternBuilder
  | [], b => b
  | call :: rest, b => runFeatureCalls rest (call.run b)

/-- Runs one builder call; `none` when a precondition is violated. -/
def SFBuilderCall.run (b : SFPatternBuilder) : SFBuilderCall → Option SFPatternBuilder
  | SFBuilderCall.setFont font => some (SFPatternBuilderSetFont b font)
  | SFBuilderCall.setScript scriptTag direction =>
    some (SFPatternBuilderSetScript b scriptTag direction)
  | SFBuilderCall.setLanguage languageTag => some (SFPatternBuilderSetLanguage b languageTag)
  | SFBuilderCall.beginFeatures kind => SFPatternBuilderBeginFeatures b kind
  | SFBuilderCall.feature call => some (call.run b)
  | SFBuilderCall.makeFeatureUnit => some (SFPatternBuilderMakeFeatureUnit b)
  | SFBuilderCall.endFeatures => some (SFPatternBuilderEndFeatures b)
  | SFBuilderCall.build => some (SFPatternBuilderBuild b)

/-- Runs a sequence of builder calls; `none` when a precondition is violated. -/
def runBuilder : List SFBuilderCall → SFPatternBuilder → Option SFPatternBuilder
  | [], b => some b
  | call :: rest, b =>
    match call.run b with
    | none => none
    | some b1 => runBuilder rest b1

/-! ## Specification-side definitions for the pattern builder -/

/-- Specification side: the lookup indexes added for the features of the open unit by a
sequence of calls; the flag tells whether the unit already has a feature that a lookup
can be added to. -/
def addedLookups : Bool → List SFFeatureCall → List Nat
  | _, [] => []
  | _, SFFeatureCall.addFeature _ _ :: rest => addedLookups true rest
  | true, SFFeatureCall.addLookup v :: rest => v :: addedLookups true rest
  | false, SFFeatureCall.addLookup _ :: rest => addedLookups false rest

/-- Specification side: the units sealed by a sequence of builder calls, in order, each
with the kind it was sealed under and the feature tags added since the previous seal
(`kind` is the current kind and `open` the tags of the open unit at the start). -/
def sealedUnits : List SFBuilderCall → Option SFFeatureKind → List Nat →
    List (Option SFFeatureKind × List Nat)
  | [], _, _ => []
  | SFBuilderCall.beginFeatures kind :: rest, _, opened => sealedUnits rest (some kind) opened
  | SFBuilderCall.feature (SFFeatureCall.addFeature tag _) :: rest, kind, opened =>
    sealedUnits rest kind (if tag ∈ opened then opened else opened ++ [tag])
  | SFBuilderCall.feature (SFFeatureCall.addLookup _) :: rest, kind, opened =>
    sealedUnits rest kind opened
  | SFBuilderCall.makeFeatureUnit :: rest, kind, opened =>
    (kind, opened) :: sealedUnits rest kind []
  | SFBuilderCall.endFeatures :: rest, kind, opened =>
    if opened = [] then sealedUnits rest none []
    else (kind, opened) :: sealedUnits rest none []
  | SFBuilderCall.setFont _ :: rest, kind, opened => sealedUnits rest kind opened
  | SFBuilderCall.setScript _ _ :: rest, kind, opened => sealedUnits rest kind opened
  | SFBuilderCall.setLanguage _ :: rest, kind, opened => sealedUnits rest kind opened
  | SFBuilderCall.build :: rest, kind, opened => sealedUnits rest kind opened

/-- Specification side: the tags of a list of sealed units, one unit after the other. -/
def sealedTags : List (Option SFFeatureKind × List Nat) → List Nat
  | [] => []
  | u :: rest => u.2 ++ sealedTags rest

/-- Specification side: the number of sealed units of a kind. -/
def sealedCount (kind : SFFeatureKind) : List (Option SFFeatureKind × List Nat) → Nat
  | [] => 0
  | u :: rest => (if u.1 = some kind then 1 else 0) + sealedCount kind rest

/-- Specification side: the covered ranges of the units, in order, are adjacent and
non-overlapping, start at `s` and end at `n`. -/
def RangesCover : Nat → List SFFeatureUnit → Nat → Prop
  | s, [], n => s = n
  | s, u :: rest, n => u.coveredRange.start = s ∧ RangesCover (s + u.coveredRange.count) rest n

/-- Specification side: the kinds under which the units were sealed are in the order of
the pattern: every unit was sealed under a kind, and no unit was sealed under Substitution
after a unit sealed under Positioning (`positioning` tells whether a positioning unit came
before). -/
def kindsInOrder : Bool → List (Option SFFeatureKind) → Bool
  | _, [] => true
  | positioning, some SFFeatureKind.Substitution :: rest =>
    !positioning && kindsInOrder false rest
  | _, some SFFeatureKind.Positioning :: rest => kindsInOrder true rest
  | _, none :: _ => false

/-- Specification side: the slices `feature_tags[u.covered_range]` of a list of units, one
after the other. -/
def coveredTags (tags : List Nat) : List SFFeatureUnit → List Nat
  | [] => []
  | u :: rest =>
    (tags.drop u.coveredRange.start).take u.coveredRange.count ++ coveredTags tags rest

/-! ## Sample builder runs (the tests of `PatternTester.cpp`) -/

/-- The calls of `testNoFeatures` (the font is at address 1). -/
def callsNoFeatures : List SFBuilderCall :=
  [ SFBuilderCall.setFont 1,
    SFBuilderCall.setScript (SFTagMake 'a' 'r' 'a' 'b') SFTextDirection.RightToLeft,
    SFBuilderCall.setLanguage (SFTagMake 'U' 'R' 'D' 'U'),
    SFBuilderCall.build ]

/-- The calls of `testSimultaneousFeatures`. -/
def callsSimultaneousFeatures : List SFBuilderCall :=
  [ SFBuilderCall.beginFeatures SFFeatureKind.Substitution,
    SFBuilderCall.feature (SFFeatureCall.addFeature (SFTagMake 'c' 'c' 'm' 'p') 0x01),
    SFBuilderCall.feature (SFFeatureCall.addFeature (SFTagMake 'l' 'i' 'g' 'a') 0x02),
    SFBuilderCall.feature (SFFeatureCall.addFeature (SFTagMake 'c' 'l' 'i' 'g') 0x04),
    SFBuilderCall.makeFeatureUnit,
    SFBuilderCall.endFeatures,
    SFBuilderCall.beginFeatures SFFeatureKind.Positioning,
    SFBuilderCall.feature (SFFeatureCall.addFeature (SFTagMake 'd' 'i' 's' 't') 0x01),
    SFBuilderCall.feature (SFFeatureCall.addFeature (SFTagMake 'k' 'e' 'r' 'n') 0x02),
    SFBuilderCall.feature (SFFeatureCall.addFeature (SFTagMake 'm' 'a' 'r' 'k') 0x04),
    SFBuilderCall.makeFeatureUnit,
    SFBuilderCall.endFeatures ]

/-- A run that seals a positioning unit before a substitution unit. -/
def callsPositioningFirst : List SFBuilderCall :=
  [ SFBuilderCall.beginFeatures SFFeatureKind.Positioning,
    SFBuilderCall.feature (SFFeatureCall.addFeature (SFTagMake 'd' 'i' 's' 't') 0x01),
    SFBuilderCall.makeFeatureUnit,
    SFBuilderCall.endFeatures,
    SFBuilderCall.beginFeatures SFFeatureKind.Substitution,
    SFBuilderCall.feature (SFFeatureCall.addFeature (SFTagMake 'c' 'c' 'm' 'p') 0x01),
    SFBuilderCall.makeFeatureUnit,
    SFBuilderCall.endFeatures,
    SFBuilderCall.build ]

/-- A run that seals a unit without `begin_features`. -/
def callsWithoutKind : List SFBuilderCall :=
  [ SFBuilderCall.feature (SFFeatureCall.addFeature (SFTagMake 'c' 'c' 'm' 'p') 0x01),
    SFBuilderCall.makeFeatureUnit,
    SFBuilderCall.build ]

/-- The feature calls of the second part of `testLookupIndexSorting` (index collision in
the feature unit): `ccmp` with lookups 7, 3, 5, 1, 0 and `liga` with 2, 1, 4, 7, 6. -/
def callsLookupCollision : List SFFeatureCall :=
  [ SFFeatureCall.addFeature (SFTagMake 'c' 'c' 'm' 'p') 0,
    SFFeatureCall.addLookup 7, SFFeatureCall.addLookup 3, SFFeatureCall.addLookup 5,
    SFFeatureCall.addLookup 1, SFFeatureCall.addLookup 0,
    SFFeatureCall.addFeature (SFTagMake 'l' 'i' 'g' 'a') 0,
    SFFeatureCall.addLookup 2, SFFeatureCall.addLookup 1, SFFeatureCall.addLookup 4,
    SFFeatureCall.addLookup 7, SFFeatureCall.addLookup 6 ]

/-- The builder of the tests after `SFPatternBuilderInitialize` and
`begin_features(Substitution)`. -/
def sampleBuilder : SFPatternBuilder :=
  { SFPatternBuilderInitialize SFPatternCreate with
    _featureKind := some SFFeatureKind.Substitution }

/-- The builder state after the calls of `testSimultaneousFeatures` (before `build`). -/
def sampleBuilt : SFPatternBuilder :=
  (runBuilder callsSimultaneousFeatures (SFPatternBuilderInitialize SFPatternCreate)).getD
    (SFPatternBuilderInitialize SFPatternCreate)

/-! ## The queries with the state passed along

`SFLocatorGetAfter` and `SFLocatorGetBefore` receive the locator through a pointer, and
reach the album through it. The definitions of this section pass the pair of album and
locator through every step and return it next to the result, so that an effect of the
queries on them can be stated. -/

/-- OpenType lookup flag bit `UseMarkFilteringSet`. -/
def SFLookupFlagUseMarkFilteringSet : Nat := 0x0010

/-- `_SFIsIgnoredGlyph` with the state passed along. -/
def _SFIsIgnoredGlyphState (s : SFAlbum × SFLocator) (index : Nat) :
    Bool × (SFAlbum × SFLocator) :=
  (_SFIsIgnoredGlyph s.1 s.2 index, s)

/-- The loop of `SFLocatorGetAfter` with the state passed along. -/
def getAfterLoopState : Nat → SFAlbum × SFLocator → Nat → Nat × (SFAlbum × SFLocator)
  | 0, s, _ => (SFInvalidIndex, s)
  | n + 1, s, index =>
    if index < s.2._limitIndex then
      match _SFIsIgnoredGlyphState s index with
      | (false, s1) => (index, s1)
      | (true, s1) => getAfterLoopState n s1 (index + 1)
    else (SFInvalidIndex, s)

/-- `SFLocatorGetAfter` with the state passed along. -/
def SFLocatorGetAfterState (s : SFAlbum × SFLocator) (index : Nat) :
    Option (Nat × (SFAlbum × SFLocator)) :=
  if index < s.2._limitIndex ∧ s.2._version = s.1._version then
    some (getAfterLoopState (s.2._limitIndex - (index + 1)) s (index + 1))
  else none

/-- The loop of `SFLocatorGetBefore` with the state passed along. -/
def getBeforeLoopState : Nat → SFAlbum × SFLocator → Nat → Nat × (SFAlbum × SFLocator)
  | 0, s, _ => (SFInvalidIndex, s)
  | n + 1, s, index =>
    let test := decide (index > s.2._startIndex)
    let index := (index + SFUIntegerSize - 1) % SFUIntegerSize
    if test then
      match _SFIsIgnoredGlyphState s index with
      | (false, s1) => (index, s1)
      | (true, s1) => getBeforeLoopState n s1 index
    else (SFInvalidIndex, s)

/-- `SFLocatorGetBefore` with the state passed along. -/
def SFLocatorGetBeforeState (s : SFAlbum × SFLocator) (index : Nat) :
    Option (Nat × (SFAlbum × SFLocator)) :=
  if index < s.2._limitIndex ∧ s.2._version = s.1._version then
    some (getBeforeLoopState (index + 1) s index)
  else none

/-- A GDEF table of version 1.2 whose mark glyph sets definition is at address 200 and
whose mark attachment class definition lists no glyph. -/
def sampleGDEF : SFGDEF :=
  { version := 0x00010002
    markAttachClassDef := fun _ => none
    markGlyphSetsDef := 200 }

/-- A locator over the whole of `sampleAlbum`, initialised with `sampleGDEF`, whose lookup
flag is `UseMarkFilteringSet`. -/
def sampleSetLocator : SFLocator :=
  { SFLocatorSetLookupFlag (SFLocatorInitialize 1 (some sampleGDEF))
      SFLookupFlagUseMarkFilteringSet with
    _version := 0
    _startIndex := 0
    _limitIndex := 4
    _stateIndex := 1
    index := 0 }

/-- A subtable with input `[cov(A), cov(B), cov(C)]`, neither backtrack nor lookahead, and
the lookup records `(0, 0)` and `(2, 1)`. -/
def sampleChain3 : SFChainContextF3 :=
  { backtrackRecord := []
    inputRecord := [coverageOf 65, coverageOf 66, coverageOf 67]
    lookaheadRecord := []
    contextRecord :=
      [{ sequenceIndex := 0, lookupListIndex := 0 }, { sequenceIndex := 2, lookupListIndex := 1 }] }

/-- A nested lookup with lookup flag 0 (nothing but removed glyphs is ignored): it sets its
lookup flag on the locator, as `apply_lookup` of the specification does, and moves the
cursor to the next glyph of its range. -/
def zeroFlagLookup : Nat → SFTextProcessor → Option SFTextProcessor :=
  fun _ q =>
    match SFLocatorMoveNext q._album (SFLocatorSetLookupFlag q._locator 0) with
    | none => none
    | some (_, l1) => some { q with _locator := l1 }

/-- A nested lookup that fails as soon as it is invoked; it makes an invocation
observable in the result of the record loop. -/
def abortLookup : Nat → SFTextProcessor → Option SFTextProcessor :=
  fun _ _ => none

/-- The span locator `[2, 4)` of the scenario, as `SFLocatorReset` leaves it. -/
def sampleSpan : SFLocator :=
  { sampleMovedTwice with _startIndex := 2, _stateIndex := 2, index := SFInvalidIndex }


/-! ## Lemmas on the locator -/

/-- The ignore predicate reads only the ignore mask, the lookup flag and the class
definition of the locator. -/
theorem isIgnored_congr (a : SFAlbum) (l1 l2 : SFLocator) (i : Nat)
    (h1 : l1._ignoreMask = l2._ignoreMask) (h2 : l1.lookupFlag = l2.lookupFlag)
    (h3 : l1._markAttachClassDef = l2._markAttachClassDef) :
    _SFIsIgnoredGlyph a l1 i = _SFIsIgnoredGlyph a l2 i := by
  unfold _SFIsIgnoredGlyph
  rw [h1, h2, h3]

/-- What the loop of `SFLocatorMoveNext` computes when started with enough iterations. -/
theorem moveNextLoop_spec (a : SFAlbum) :
    ∀ (n : Nat) (l : SFLocator), l._stateIndex ≤ l._limitIndex →
      l._limitIndex - l._stateIndex ≤ n →
      ((moveNextLoop a n l).1 = true ∧
        l._stateIndex ≤ (moveNextLoop a n l).2.index ∧
        (moveNextLoop a n l).2.index < l._limitIndex ∧
        _SFIsIgnoredGlyph a l (moveNextLoop a n l).2.index = false ∧
        (∀ j, l._stateIndex ≤ j → j < (moveNextLoop a n l).2.index →
          _SFIsIgnoredGlyph a l j = true) ∧
        (moveNextLoop a n l).2 =
          { l with _stateIndex := (moveNextLoop a n l).2.index + 1
                   index := (moveNextLoop a n l).2.index }) ∨
      ((moveNextLoop a n l).1 = false ∧
        (∀ j, l._stateIndex ≤ j → j < l._limitIndex → _SFIsIgnoredGlyph a l j = true) ∧
        (moveNextLoop a n l).2 = { l with _stateIndex := l._limitIndex }) := by
  intro n
  induction n with
  | zero =>
    intro l hle hn
    have heq : l._stateIndex = l._limitIndex := by omega
    right
    refine ⟨rfl, ?_, ?_⟩
    · intro j h1 h2; omega
    · cases l
      simp only at heq
      subst heq
      rfl
  | succ n ih =>
    intro l hle hn
    by_cases hlt : l._stateIndex < l._limitIndex
    · by_cases hig : _SFIsIgnoredGlyph a l l._stateIndex = true
      · have hstep : moveNextLoop a (n + 1) l
            = moveNextLoop a n { l with _stateIndex := l._stateIndex + 1 } := by
          have hig1 : _SFIsIgnoredGlyph a { l with _stateIndex := l._stateIndex + 1 }
              l._stateIndex = true := hig
          simp [moveNextLoop, hlt, hig1]
        rw [hstep]
        have hle1 : ({ l with _stateIndex := l._stateIndex + 1 } : SFLocator)._stateIndex
            ≤ ({ l with _stateIndex := l._stateIndex + 1 } : SFLocator)._limitIndex := by
          show l._stateIndex + 1 ≤ l._limitIndex
          omega
        have hn1 : ({ l with _stateIndex := l._stateIndex + 1 } : SFLocator)._limitIndex
            - ({ l with _stateIndex := l._stateIndex + 1 } : SFLocator)._stateIndex ≤ n := by
          show l._limitIndex - (l._stateIndex + 1) ≤ n
          omega
        have hcongr : ∀ j, _SFIsIgnoredGlyph a { l with _stateIndex := l._stateIndex + 1 } j
            = _SFIsIgnoredGlyph a l j := fun j => rfl
        rcases ih _ hle1 hn1 with ⟨hb, h1, h2, h3, h4, h5⟩ | ⟨hb, h1, h2⟩
        · left
          refine ⟨hb, ?_, h2, ?_, ?_, ?_⟩
          · have : l._stateIndex + 1 ≤ _ := h1
            omega
          · rw [← hcongr]; exact h3
          · intro j hj1 hj2
            by_cases hj : j = l._stateIndex
            · rw [hj]; exact hig
            · rw [← hcongr]
              apply h4 j _ hj2
              show l._stateIndex + 1 ≤ j
              omega
          · rw [h5]
        · right
          refine ⟨hb, ?_, ?_⟩
          · intro j hj1 hj2
            by_cases hj : j = l._stateIndex
            · rw [hj]; exact hig
            · rw [← hcongr]
              apply h1 j _ hj2
              show l._stateIndex + 1 ≤ j
              omega
          · rw [h2]
      · have hig0 : _SFIsIgnoredGlyph a l l._stateIndex = false := by
          cases h : _SFIsIgnoredGlyph a l l._stateIndex
          · rfl
          · exact absurd h hig
        have hstep : moveNextLoop a (n + 1) l
            = (true, { l with _stateIndex := l._stateIndex + 1, index := l._stateIndex }) := by
          have hig1 : _SFIsIgnoredGlyph a { l with _stateIndex := l._stateIndex + 1 }
              l._stateIndex = false := hig0
          simp [moveNextLoop, hlt, hig1]
        rw [hstep]
        left
        refine ⟨rfl, le_refl _, hlt, hig0, ?_, rfl⟩
        intro j hj1 hj2
        exact absurd hj2 (by show ¬ j < l._stateIndex; omega)
    · have heq : l._stateIndex = l._limitIndex := by omega
      right
      refine ⟨by simp [moveNextLoop, hlt], ?_, ?_⟩
      · intro j h1 h2; omega
      · simp only [moveNextLoop, hlt, if_false]
        cases l
        simp only at heq
        subst heq
        rfl



/-- What the loop of `SFLocatorGetAfter` computes when started with enough iterations:
the first index from `idx` on that is below the limit and not ignored, else the sentinel. -/
theorem getAfterLoop_spec (a : SFAlbum) (l : SFLocator) :
    ∀ (n idx : Nat), l._limitIndex - idx ≤ n →
      (idx ≤ getAfterLoop a l n idx ∧ getAfterLoop a l n idx < l._limitIndex ∧
        _SFIsIgnoredGlyph a l (getAfterLoop a l n idx) = false ∧
        (∀ k, idx ≤ k → k < getAfterLoop a l n idx → _SFIsIgnoredGlyph a l k = true)) ∨
      (getAfterLoop a l n idx = SFInvalidIndex ∧
        (∀ k, idx ≤ k → k < l._limitIndex → _SFIsIgnoredGlyph a l k = true)) := by
  intro n
  induction n with
  | zero =>
    intro idx hn
    right
    exact ⟨rfl, fun k h1 h2 => by omega⟩
  | succ n ih =>
    intro idx hn
    by_cases hlt : idx < l._limitIndex
    · cases hig : _SFIsIgnoredGlyph a l idx
      · left
        have hstep : getAfterLoop a l (n + 1) idx = idx := by
          simp [getAfterLoop, hlt, hig]
        rw [hstep]
        exact ⟨le_refl _, hlt, hig, fun k h1 h2 => by omega⟩
      · have hstep : getAfterLoop a l (n + 1) idx = getAfterLoop a l n (idx + 1) := by
          simp [getAfterLoop, hlt, hig]
        rw [hstep]
        rcases ih (idx + 1) (by omega) with ⟨h1, h2, h3, h4⟩ | ⟨h1, h2⟩
        · left
          refine ⟨by omega, h2, h3, ?_⟩
          intro k hk1 hk2
          by_cases hk : k = idx
          · rw [hk]; exact hig
          · exact h4 k (by omega) hk2
        · right
          refine ⟨h1, ?_⟩
          intro k hk1 hk2
          by_cases hk : k = idx
          · rw [hk]; exact hig
          · exact h2 k (by omega) hk2
    · right
      exact ⟨by simp [getAfterLoop, hlt], fun k h1 h2 => by omega⟩

/-- What the loop of `SFLocatorGetBefore` computes when started with enough iterations:
the last index before `idx` that is at or above the start and not ignored, else the
sentinel. -/
theorem getBeforeLoop_spec (a : SFAlbum) (l : SFLocator) :
    ∀ (n idx : Nat), idx < SFUIntegerSize → idx - l._startIndex < n →
      (l._startIndex ≤ getBeforeLoop a l n idx ∧ getBeforeLoop a l n idx < idx ∧
        _SFIsIgnoredGlyph a l (getBeforeLoop a l n idx) = false ∧
        (∀ k, getBeforeLoop a l n idx < k → k < idx → _SFIsIgnoredGlyph a l k = true)) ∨
      (getBeforeLoop a l n idx = SFInvalidIndex ∧
        (∀ k, l._startIndex ≤ k → k < idx → _SFIsIgnoredGlyph a l k = true)) := by
  intro n
  induction n with
  | zero =>
    intro idx _ hn
    omega
  | succ n ih =>
    intro idx hw hn
    by_cases hgt : idx > l._startIndex
    · have hdec : (idx + SFUIntegerSize - 1) % SFUIntegerSize = idx - 1 := by
        have h1 : idx + SFUIntegerSize - 1 = idx - 1 + SFUIntegerSize := by omega
        rw [h1, Nat.add_mod_right]
        exact Nat.mod_eq_of_lt (by omega)
      cases hig : _SFIsIgnoredGlyph a l (idx - 1)
      · left
        have hstep : getBeforeLoop a l (n + 1) idx = idx - 1 := by
          simp [getBeforeLoop, hgt, hdec, hig]
        rw [hstep]
        exact ⟨by omega, by omega, hig, fun k h1 h2 => by omega⟩
      · have hstep : getBeforeLoop a l (n + 1) idx = getBeforeLoop a l n (idx - 1) := by
          simp [getBeforeLoop, hgt, hdec, hig]
        rw [hstep]
        rcases ih (idx - 1) (by omega) (by omega) with ⟨h1, h2, h3, h4⟩ | ⟨h1, h2⟩
        · left
          refine ⟨h1, by omega, h3, ?_⟩
          intro k hk1 hk2
          by_cases hk : k = idx - 1
          · rw [hk]; exact hig
          · exact h4 k hk1 (by omega)
        · right
          refine ⟨h1, ?_⟩
          intro k hk1 hk2
          by_cases hk : k = idx - 1
          · rw [hk]; exact hig
          · exact h2 k hk1 (by omega)
    · right
      exact ⟨by simp [getBeforeLoop, hgt], fun k h1 h2 => by omega⟩


/-- Every result of `SFLocatorMoveNext`: the assertions held, and the call either yielded
the first non-ignored index from the state on, or found none and parked the state at the
limit. -/
theorem SFLocatorMoveNext_some (a : SFAlbum) (l r : SFLocator) (b : Bool)
    (h : SFLocatorMoveNext a l = some (b, r)) :
    l._stateIndex ≤ l._limitIndex ∧ l._version = a._version ∧
    ((b = true ∧ l._stateIndex ≤ r.index ∧ r.index < l._limitIndex ∧
        _SFIsIgnoredGlyph a l r.index = false ∧
        (∀ j, l._stateIndex ≤ j → j < r.index → _SFIsIgnoredGlyph a l j = true) ∧
        r = { l with _stateIndex := r.index + 1, index := r.index }) ∨
      (b = false ∧
        (∀ j, l._stateIndex ≤ j → j < l._limitIndex → _SFIsIgnoredGlyph a l j = true) ∧
        r = { l with _stateIndex := l._limitIndex })) := by
  unfold SFLocatorMoveNext at h
  split at h
  · rename_i hc
    have hr : moveNextLoop a (l._limitIndex - l._stateIndex) l = (b, r) := by
      simpa using h
    have hspec := moveNextLoop_spec a _ l hc.1 (le_refl _)
    rw [hr] at hspec
    exact ⟨hc.1, hc.2, hspec⟩
  · exact absurd h (by simp)

/-- On a fresh locator with state at most limit `SFLocatorMoveNext` returns. -/
theorem SFLocatorMoveNext_returns (a : SFAlbum) (l : SFLocator)
    (hv : l._version = a._version) (hs : l._stateIndex ≤ l._limitIndex) :
    ∃ b r, SFLocatorMoveNext a l = some (b, r) :=
  ⟨(moveNextLoop a (l._limitIndex - l._stateIndex) l).1,
    (moveNextLoop a (l._limitIndex - l._stateIndex) l).2,
    by simp [SFLocatorMoveNext, hs, hv]⟩

/-- The traced skip returns what `SFLocatorSkip` returns. -/
theorem skipTrace_eq_skip (a : SFAlbum) :
    ∀ (n : Nat) (l : SFLocator),
      (skipTrace a n l).map (fun r => (r.1, r.2.1)) = SFLocatorSkip a n l := by
  intro n
  induction n with
  | zero => intro l; rfl
  | succ n ih =>
    intro l
    simp only [skipTrace, SFLocatorSkip]
    cases hm : SFLocatorMoveNext a l with
    | none => rfl
    | some br =>
      obtain ⟨b, l1⟩ := br
      cases b
      · rfl
      · simp only
        rw [← ih l1]
        cases skipTrace a n l1 with
        | none => rfl
        | some t => rfl

/-- A move-next keeps the traversal invariant and yields inside the range. -/
theorem SFLocatorMoveNext_inRange (a : SFAlbum) (s e : Nat) (l : SFLocator)
    (hin : InRange a s e l) :
    ∃ b r, SFLocatorMoveNext a l = some (b, r) ∧ InRange a s e r ∧
      (b = true → s ≤ r.index ∧ r.index < e) := by
  obtain ⟨hv, hs, he, h1, h2⟩ := hin
  obtain ⟨b, r, hm⟩ := SFLocatorMoveNext_returns a l hv (by omega)
  refine ⟨b, r, hm, ?_⟩
  rcases (SFLocatorMoveNext_some a l r b hm).2.2 with ⟨hb, k1, k2, _, _, k5⟩ | ⟨hb, _, k5⟩
  · refine ⟨?_, fun _ => ⟨by omega, by omega⟩⟩
    rw [k5]
    exact ⟨hv, hs, he, by show s ≤ r.index + 1; omega, by show r.index + 1 ≤ e; omega⟩
  · refine ⟨?_, fun hb2 => by rw [hb] at hb2; exact absurd hb2 (by decide)⟩
    rw [k5]
    exact ⟨hv, hs, he, by show s ≤ l._limitIndex; omega, by show l._limitIndex ≤ e; omega⟩

/-- A skip keeps the traversal invariant and yields only inside the range. -/
theorem skipTrace_inRange (a : SFAlbum) (s e : Nat) :
    ∀ (n : Nat) (l : SFLocator), InRange a s e l →
      ∃ b r t, skipTrace a n l = some (b, r, t) ∧ InRange a s e r ∧
        ∀ i ∈ t, s ≤ i ∧ i < e := by
  intro n
  induction n with
  | zero =>
    intro l hin
    exact ⟨true, l, [], rfl, hin, fun i hi => by simp at hi⟩
  | succ n ih =>
    intro l hin
    obtain ⟨b, l1, hm, hin1, hy⟩ := SFLocatorMoveNext_inRange a s e l hin
    cases b
    · exact ⟨false, l1, [], by simp [skipTrace, hm], hin1, fun i hi => by simp at hi⟩
    · obtain ⟨b2, l2, t, hs, hin2, ht⟩ := ih l1 hin1
      refine ⟨b2, l2, l1.index :: t, by simp [skipTrace, hm, hs], hin2, ?_⟩
      intro i hi
      rcases List.mem_cons.mp hi with h | h
      · rw [h]; exact hy rfl
      · exact ht i h

/-- A sequence of traversal calls keeps the invariant and yields only inside the range. -/
theorem runCalls_inRange (a : SFAlbum) (s e : Nat) :
    ∀ (calls : List SFLocatorCall) (l : SFLocator), InRange a s e l →
      ∃ ys r, runCalls a calls l = some (ys, r) ∧ InRange a s e r ∧
        ∀ i ∈ ys, s ≤ i ∧ i < e := by
  intro calls
  induction calls with
  | nil =>
    intro l hin
    exact ⟨[], l, rfl, hin, fun i hi => by simp at hi⟩
  | cons c calls ih =>
    intro l hin
    cases c with
    | moveNext =>
      obtain ⟨b, l1, hm, hin1, hy⟩ := SFLocatorMoveNext_inRange a s e l hin
      obtain ⟨ys, r, hr, hin2, hys⟩ := ih l1 hin1
      refine ⟨(if b then [l1.index] else []) ++ ys, r, by simp [runCalls, hm, hr], hin2, ?_⟩
      intro i hi
      rcases List.mem_append.mp hi with h | h
      · cases b
        · simp at h
        · have : i = l1.index := by simpa using h
          rw [this]; exact hy rfl
      · exact hys i h
    | skip n =>
      obtain ⟨b, l1, t, hs, hin1, ht⟩ := skipTrace_inRange a s e n l hin
      obtain ⟨ys, r, hr, hin2, hys⟩ := ih l1 hin1
      refine ⟨t ++ ys, r, by simp [runCalls, hs, hr], hin2, ?_⟩
      intro i hi
      rcases List.mem_append.mp hi with h | h
      · exact ht i h
      · exact hys i h

/-- For a 16-bit lookup flag the test against the `MarkAttachmentType` mask is the test
that the high byte is non-zero. -/
theorem markAttachmentType_ne_zero_iff (flag : Nat) (h : flag < 65536) :
    flag &&& SFLookupFlagMarkAttachmentType ≠ 0 ↔ flag >>> 8 ≠ 0 := by
  have hmask : ∀ i, Nat.testBit SFLookupFlagMarkAttachmentType i = decide (8 ≤ i ∧ i < 16) := by
    intro i
    by_cases hi : i < 16
    · unfold SFLookupFlagMarkAttachmentType
      interval_cases i <;> decide
    · have h1 : SFLookupFlagMarkAttachmentType < 2 ^ i :=
        lt_of_lt_of_le (by unfold SFLookupFlagMarkAttachmentType; norm_num)
          (Nat.pow_le_pow_right (by norm_num) (by omega : 16 ≤ i))
      rw [Nat.testBit_lt_two_pow h1]
      simp [hi]
  constructor
  · intro hne hz
    apply hne
    apply Nat.eq_of_testBit_eq
    intro i
    rw [Nat.testBit_and, hmask, Nat.zero_testBit]
    by_cases hi : 8 ≤ i
    · have hlt : flag < 2 ^ 8 := by
        have := Nat.shiftRight_eq_div_pow flag 8
        rw [hz] at this
        have h2 : flag / 2 ^ 8 = 0 := this.symm
        rcases (Nat.div_eq_zero_iff (by norm_num : 0 < 2 ^ 8)).mp h2 with h3
        exact h3
      have : flag < 2 ^ i := lt_of_lt_of_le hlt (Nat.pow_le_pow_right (by norm_num) hi)
      rw [Nat.testBit_lt_two_pow this]
      rfl
    · simp [hi]
  · intro hne hz
    apply hne
    apply Nat.eq_of_testBit_eq
    intro i
    rw [Nat.testBit_shiftRight, Nat.zero_testBit]
    by_cases hi : i < 8
    · have := congrArg (fun x => Nat.testBit x (8 + i)) hz
      simp only [Nat.testBit_and, hmask, Nat.zero_testBit] at this
      have hd : decide (8 ≤ 8 + i ∧ 8 + i < 16) = true := by
        simp; omega
      rw [hd, Bool.and_true] at this
      exact this
    · have : flag < 2 ^ (8 + i) :=
        lt_of_lt_of_le h (by
          have : (65536 : Nat) = 2 ^ 16 := by norm_num
          rw [this]
          exact Nat.pow_le_pow_right (by norm_num) (by omega))
      exact Nat.testBit_lt_two_pow this

/-- The last element of a non-empty list does not depend on the fallback. -/
theorem getLastD_cons_eq (j cur : Nat) (tail : List Nat) :
    (j :: tail).getLastD cur = tail.getLastD j := by
  cases tail with
  | nil => rfl
  | cons t ts => rfl

/-- Every result of `SFLocatorGetAfter`: the assertions held and the result is an index
strictly between the argument and the limit, or the sentinel. -/
theorem SFLocatorGetAfter_some (a : SFAlbum) (l : SFLocator) (i j : Nat)
    (h : SFLocatorGetAfter a l i = some j) :
    i < l._limitIndex ∧ l._version = a._version ∧
      ((i < j ∧ j < l._limitIndex) ∨ j = SFInvalidIndex) := by
  unfold SFLocatorGetAfter at h
  split at h
  · rename_i hc
    have hj : getAfterLoop a l (l._limitIndex - (i + 1)) (i + 1) = j := by simpa using h
    refine ⟨hc.1, hc.2, ?_⟩
    rcases getAfterLoop_spec a l _ (i + 1) (le_refl _) with ⟨h1, h2, _, _⟩ | ⟨h1, _⟩
    · rw [hj] at h1 h2
      left; omega
    · rw [hj] at h1
      right; exact h1
  · exact absurd h (by simp)

/-- Every result of `SFLocatorGetBefore` on a machine-word limit: the assertions held and
the result is an index from the start on and below the argument, or the sentinel. -/
theorem SFLocatorGetBefore_some (a : SFAlbum) (l : SFLocator) (i j : Nat)
    (hw : l._limitIndex < SFUIntegerSize) (h : SFLocatorGetBefore a l i = some j) :
    i < l._limitIndex ∧ l._version = a._version ∧
      ((l._startIndex ≤ j ∧ j < i) ∨ j = SFInvalidIndex) := by
  unfold SFLocatorGetBefore at h
  split at h
  · rename_i hc
    have hj : getBeforeLoop a l (i + 1) i = j := by simpa using h
    refine ⟨hc.1, hc.2, ?_⟩
    rcases getBeforeLoop_spec a l (i + 1) i (by omega) (by omega) with
      ⟨h1, h2, _, _⟩ | ⟨h1, _⟩
    · rw [hj] at h1 h2
      left; exact ⟨h1, h2⟩
    · rw [hj] at h1
      right; exact h1
  · exact absurd h (by simp)

/-- Indices that satisfy the specification's forward steps make the forward loop succeed
at the last of them. -/
theorem matchAfterLoop_of_steps (a : SFAlbum) (l : SFLocator) :
    ∀ (cs : List SFCoverage) (cur : Nat) (js : List Nat), StepsAfter a l cs cur js →
      matchAfterLoop a l cs cur = some (some (js.getLastD cur)) := by
  intro cs
  induction cs with
  | nil =>
    intro cur js h
    have : js = [] := h
    subst this
    rfl
  | cons c cs ih =>
    intro cur js h
    obtain ⟨j, tail, hjs, hg, hj, hc, hrest⟩ := h
    subst hjs
    have := ih j tail hrest
    rw [getLastD_cons_eq]
    simp [matchAfterLoop, hg, hj, hc, this]

/-- A successful forward loop produces indices that satisfy the specification's forward
steps. -/
theorem steps_of_matchAfterLoop (a : SFAlbum) (l : SFLocator) :
    ∀ (cs : List SFCoverage) (cur q : Nat), matchAfterLoop a l cs cur = some (some q) →
      ∃ js, StepsAfter a l cs cur js ∧ js.getLastD cur = q := by
  intro cs
  induction cs with
  | nil =>
    intro cur q h
    have hq : cur = q := by simpa [matchAfterLoop] using h
    exact ⟨[], rfl, hq⟩
  | cons c cs ih =>
    intro cur q h
    simp only [matchAfterLoop] at h
    cases hg : SFLocatorGetAfter a l cur with
    | none => rw [hg] at h; exact absurd h (by simp)
    | some j =>
      rw [hg] at h
      simp only at h
      by_cases hj : j = SFInvalidIndex
      · simp [hj] at h
      · by_cases hc : c (a.glyph j) = SFInvalidIndex
        · simp [hj, hc] at h
        · simp only [ne_eq, hj, not_false_eq_true, if_true, hc, if_false] at h
          obtain ⟨js, hs, hl⟩ := ih j q h
          exact ⟨j :: js, ⟨j, js, rfl, hg, hj, hc, hs⟩, by rw [getLastD_cons_eq]; exact hl⟩

/-- The forward loop never fails an assertion when started on a fresh locator below the
limit, and its result stays below the limit. -/
theorem matchAfterLoop_returns (a : SFAlbum) (l : SFLocator)
    (hv : l._version = a._version) :
    ∀ (cs : List SFCoverage) (cur : Nat), cur < l._limitIndex →
      ∃ res, matchAfterLoop a l cs cur = some res ∧
        ∀ q, res = some q → cur ≤ q ∧ q < l._limitIndex := by
  intro cs
  induction cs with
  | nil =>
    intro cur hcur
    refine ⟨some cur, rfl, ?_⟩
    intro q hq
    have : cur = q := by simpa using hq
    omega
  | cons c cs ih =>
    intro cur hcur
    have hg : SFLocatorGetAfter a l cur
        = some (getAfterLoop a l (l._limitIndex - (cur + 1)) (cur + 1)) := by
      simp [SFLocatorGetAfter, hcur, hv]
    generalize hjdef : getAfterLoop a l (l._limitIndex - (cur + 1)) (cur + 1) = j at hg
    by_cases hj : j = SFInvalidIndex
    · exact ⟨none, by simp [matchAfterLoop, hg, hj], fun q hq => absurd hq (by simp)⟩
    · by_cases hc : c (a.glyph j) = SFInvalidIndex
      · exact ⟨none, by simp [matchAfterLoop, hg, hj, hc], fun q hq => absurd hq (by simp)⟩
      · have hjl : cur < j ∧ j < l._limitIndex := by
          rcases (SFLocatorGetAfter_some a l cur j hg).2.2 with h | h
          · exact h
          · exact absurd h hj
        obtain ⟨res, hres, hq⟩ := ih j hjl.2
        refine ⟨res, by simp [matchAfterLoop, hg, hj, hc, hres], ?_⟩
        intro q hqq
        have := hq q hqq
        omega

/-- Indices that satisfy the specification's backward steps make the backward loop
succeed. -/
theorem matchBeforeLoop_of_steps (a : SFAlbum) (l : SFLocator) :
    ∀ (cs : List SFCoverage) (cur : Nat) (js : List Nat), StepsBefore a l cs cur js →
      matchBeforeLoop a l cs cur = some (some (js.getLastD cur)) := by
  intro cs
  induction cs with
  | nil =>
    intro cur js h
    have : js = [] := h
    subst this
    rfl
  | cons c cs ih =>
    intro cur js h
    obtain ⟨j, tail, hjs, hg, hj, hc, hrest⟩ := h
    subst hjs
    have := ih j tail hrest
    rw [getLastD_cons_eq]
    simp [matchBeforeLoop, hg, hj, hc, this]

/-- A successful backward loop produces indices that satisfy the specification's backward
steps. -/
theorem steps_of_matchBeforeLoop (a : SFAlbum) (l : SFLocator) :
    ∀ (cs : List SFCoverage) (cur q : Nat), matchBeforeLoop a l cs cur = some (some q) →
      ∃ js, StepsBefore a l cs cur js := by
  intro cs
  induction cs with
  | nil =>
    intro cur q _
    exact ⟨[], rfl⟩
  | cons c cs ih =>
    intro cur q h
    simp only [matchBeforeLoop] at h
    cases hg : SFLocatorGetBefore a l cur with
    | none => rw [hg] at h; exact absurd h (by simp)
    | some j =>
      rw [hg] at h
      simp only at h
      by_cases hj : j = SFInvalidIndex
      · simp [hj] at h
      · by_cases hc : c (a.glyph j) = SFInvalidIndex
        · simp [hj, hc] at h
        · simp only [ne_eq, hj, not_false_eq_true, if_true, hc, if_false] at h
          obtain ⟨js, hs⟩ := ih j q h
          exact ⟨j :: js, ⟨j, js, rfl, hg, hj, hc, hs⟩⟩

/-- The backward loop never fails an assertion when started on a fresh locator below a
machine-word limit. -/
theorem matchBeforeLoop_returns (a : SFAlbum) (l : SFLocator)
    (hv : l._version = a._version) (hw : l._limitIndex < SFUIntegerSize) :
    ∀ (cs : List SFCoverage) (cur : Nat), cur < l._limitIndex →
      ∃ res, matchBeforeLoop a l cs cur = some res := by
  intro cs
  induction cs with
  | nil =>
    intro cur _
    exact ⟨some cur, rfl⟩
  | cons c cs ih =>
    intro cur hcur
    have hg : SFLocatorGetBefore a l cur = some (getBeforeLoop a l (cur + 1) cur) := by
      simp [SFLocatorGetBefore, hcur, hv]
    generalize hjdef : getBeforeLoop a l (cur + 1) cur = j at hg
    by_cases hj : j = SFInvalidIndex
    · exact ⟨none, by simp [matchBeforeLoop, hg, hj]⟩
    · by_cases hc : c (a.glyph j) = SFInvalidIndex
      · exact ⟨none, by simp [matchBeforeLoop, hg, hj, hc]⟩
      · have hjl : j < cur := by
          rcases (SFLocatorGetBefore_some a l cur j hw hg).2.2 with h | h
          · exact h.2
          · exact absurd h hj
        obtain ⟨res, hres⟩ := ih j (by omega)
        exact ⟨res, by simp [matchBeforeLoop, hg, hj, hc, hres]⟩

/-- Every result of `SFLocatorSkip`: the range is kept, the state does not move back, and
after a failure the state is the limit. -/
theorem SFLocatorSkip_some (a : SFAlbum) :
    ∀ (n : Nat) (l r : SFLocator) (b : Bool), SFLocatorSkip a n l = some (b, r) →
      r._startIndex = l._startIndex ∧ r._limitIndex = l._limitIndex ∧
      l._stateIndex ≤ r._stateIndex ∧ (b = false → r._stateIndex = l._limitIndex) := by
  intro n
  induction n with
  | zero =>
    intro l r b h
    simp only [SFLocatorSkip, Option.some.injEq, Prod.mk.injEq] at h
    obtain ⟨hb, hr⟩ := h
    subst hr
    exact ⟨rfl, rfl, le_refl _, fun hf => by rw [← hb] at hf; exact absurd hf (by decide)⟩
  | succ n ih =>
    intro l r b h
    simp only [SFLocatorSkip] at h
    cases hm : SFLocatorMoveNext a l with
    | none => rw [hm] at h; exact absurd h (by simp)
    | some br =>
      obtain ⟨b1, l1⟩ := br
      rw [hm] at h
      have hmv := SFLocatorMoveNext_some a l l1 b1 hm
      cases b1
      · simp only [Option.some.injEq, Prod.mk.injEq] at h
        obtain ⟨_, hr⟩ := h
        subst hr
        rcases hmv.2.2 with ⟨hb, _⟩ | ⟨_, _, h5⟩
        · exact absurd hb (by decide)
        · rw [h5]
          exact ⟨rfl, rfl, hmv.1, fun _ => rfl⟩
      · simp only at h
        obtain ⟨k1, k2, k3, k4⟩ := ih l1 r b h
        rcases hmv.2.2 with ⟨_, m1, _, _, _, h5⟩ | ⟨hb, _⟩
        · have e1 : l1._startIndex = l._startIndex := by rw [h5]
          have e2 : l1._limitIndex = l._limitIndex := by rw [h5]
          have e3 : l1._stateIndex = l1.index + 1 := by rw [h5]
          refine ⟨by rw [k1, e1], by rw [k2, e2], by omega, ?_⟩
          intro hb
          rw [k4 hb, e2]
        · exact absurd hb (by decide)

/-- After a non-empty context record, the span locator's state lies beyond the span start
`index`, provided the span is non-empty and does not wrap and every nested lookup that is
run on a span locator whose state is not before `index` leaves the state beyond `index`. -/
theorem contextRecordLoop_state
    (applyLookup : Nat → SFTextProcessor → Option SFTextProcessor) (index count : Nat)
    (hspan : index < (index + count) % SFUIntegerSize)
    (hadv : ∀ k q r, q._locator._startIndex = index → index ≤ q._locator._stateIndex →
      index < q._locator._limitIndex →
      applyLookup k q = some r → index < r._locator._stateIndex) :
    ∀ (records : List SFLookupRecord) (p q : SFTextProcessor), records ≠ [] →
      contextRecordLoop applyLookup index count records p = some q →
      index < q._locator._stateIndex := by
  intro records
  induction records with
  | nil => intro p q hne _; exact absurd rfl hne
  | cons record rest ih =>
    intro p q _ h
    simp only [contextRecordLoop] at h
    cases hr : SFLocatorReset p._album p._locator index count with
    | none => rw [hr] at h; exact absurd h (by simp)
    | some l1 =>
      rw [hr] at h
      simp only at h
      have hl1 : l1._startIndex = index ∧ l1._limitIndex = (index + count) % SFUIntegerSize
          ∧ l1._stateIndex = index := by
        unfold SFLocatorReset at hr
        split at hr
        · have := Option.some.inj hr
          rw [← this]
          exact ⟨rfl, rfl, rfl⟩
        · exact absurd hr (by simp)
      cases hs : SFLocatorSkip p._album record.sequenceIndex l1 with
      | none => rw [hs] at h; exact absurd h (by simp)
      | some bl =>
        obtain ⟨b, l2⟩ := bl
        rw [hs] at h
        obtain ⟨s1, s2, s3, s4⟩ := SFLocatorSkip_some p._album _ l1 l2 b hs
        have key : ∀ p1 : SFTextProcessor, index < p1._locator._stateIndex →
            contextRecordLoop applyLookup index count rest p1 = some q →
            index < q._locator._stateIndex := by
          intro p1 hp1 hloop
          cases rest with
          | nil =>
            simp only [contextRecordLoop, Option.some.injEq] at hloop
            rw [← hloop]; exact hp1
          | cons r2 rest2 => exact ih p1 q (by simp) hloop
        cases b
        · simp only at h
          apply key _ _ h
          show index < l2._stateIndex
          rw [s4 rfl, hl1.2.1]
          exact hspan
        · simp only at h
          cases ha : applyLookup record.lookupListIndex { p with _locator := l2 } with
          | none => rw [ha] at h; exact absurd h (by simp)
          | some p1 =>
            rw [ha] at h
            simp only at h
            apply key p1 _ h
            apply hadv _ _ _ _ _ _ ha
            · show l2._startIndex = index
              rw [s1, hl1.1]
            · show index ≤ l2._stateIndex
              rw [← hl1.2.2]
              exact s3
            · show index < l2._limitIndex
              rw [s2, hl1.2.1]
              exact hspan

/-- Every result of `_SFApplyContextRecord`: the loop returned, the sibling assertions of
`SFLocatorTakeState` held, and the processor carries the saved locator with the state of
the span locator. -/
theorem applyContextRecord_some
    (applyLookup : Nat → SFTextProcessor → Option SFTextProcessor)
    (p r : SFTextProcessor) (records : List SFLookupRecord) (index count : Nat)
    (h : _SFApplyContextRecord applyLookup p records index count = some r) :
    ∃ q, contextRecordLoop applyLookup index count records p = some q ∧
      p._locator._album = q._locator._album ∧
      q._locator._stateIndex ≤ p._locator._limitIndex ∧
      r = { q with _locator := { p._locator with _stateIndex := q._locator._stateIndex } } := by
  unfold _SFApplyContextRecord at h
  cases hl : contextRecordLoop applyLookup index count records p with
  | none => rw [hl] at h; exact absurd h (by simp)
  | some q =>
    rw [hl] at h
    by_cases hc : p._locator._album = q._locator._album ∧
        q._locator._stateIndex ≤ p._locator._limitIndex
    · have ht : SFLocatorTakeState p._locator q._locator
          = some { p._locator with _stateIndex := q._locator._stateIndex } := by
        unfold SFLocatorTakeState
        rw [if_pos hc]
      simp only [ht, Option.some.injEq] at h
      exact ⟨q, rfl, hc.1, hc.2, h.symm⟩
    · simp [SFLocatorTakeState, hc] at h

/-- Reading back the `glyphTraits` section after a 16-bit store. -/
theorem glyphTraits_setGlyphTraits (m : SFGlyphMask) (t : Nat) (ht : t < 65536) :
    (m.setGlyphTraits t).glyphTraits = t := by
  unfold SFGlyphMask.setGlyphTraits SFGlyphMask.glyphTraits
  simp only
  omega

/-- Storing the `glyphTraits` section keeps the `featureMask` section. -/
theorem featureMask_setGlyphTraits (m : SFGlyphMask) (t : Nat) :
    (m.setGlyphTraits t).featureMask = m.featureMask := by
  unfold SFGlyphMask.setGlyphTraits SFGlyphMask.featureMask
  simp only
  omega

/-- A skip that starts with the state at or below the limit ends so. -/
theorem SFLocatorSkip_state_le (a : SFAlbum) :
    ∀ (n : Nat) (l r : SFLocator) (b : Bool), SFLocatorSkip a n l = some (b, r) →
      l._stateIndex ≤ l._limitIndex → r._stateIndex ≤ r._limitIndex := by
  intro n
  induction n with
  | zero =>
    intro l r b h hle
    simp only [SFLocatorSkip, Option.some.injEq, Prod.mk.injEq] at h
    rw [← h.2]; exact hle
  | succ n ih =>
    intro l r b h _
    simp only [SFLocatorSkip] at h
    cases hm : SFLocatorMoveNext a l with
    | none => rw [hm] at h; exact absurd h (by simp)
    | some br =>
      obtain ⟨b1, l1⟩ := br
      rw [hm] at h
      have hmv := SFLocatorMoveNext_some a l l1 b1 hm
      have hl1 : l1._stateIndex ≤ l1._limitIndex := by
        rcases hmv.2.2 with ⟨_, _, m2, _, _, h5⟩ | ⟨_, _, h5⟩
        · have e2 : l1._limitIndex = l._limitIndex := by rw [h5]
          have e3 : l1._stateIndex = l1.index + 1 := by rw [h5]
          omega
        · rw [h5]
      cases b1
      · simp only [Option.some.injEq, Prod.mk.injEq] at h
        rw [← h.2]; exact hl1
      · exact ih l1 r b h hl1

/-- The wrapped sum of two machine words is at least the first iff the sum does not
overflow. -/
theorem le_add_mod_iff (x y : Nat) (hx : x < SFUIntegerSize) (hy : y < SFUIntegerSize) :
    x ≤ (x + y) % SFUIntegerSize ↔ x + y < SFUIntegerSize := by
  constructor
  · intro h
    by_contra hge
    have h1 : (x + y) % SFUIntegerSize = x + y - SFUIntegerSize := by
      rw [Nat.mod_eq_sub_mod (by omega)]
      exact Nat.mod_eq_of_lt (by omega)
    omega
  · intro h
    rw [Nat.mod_eq_of_lt h]
    omega

/-- The three outcomes of `SFLocatorSkip` in terms of iterated `SFLocatorMoveNext`. -/
theorem SFLocatorSkip_outcomes (a : SFAlbum) :
    ∀ (n : Nat) (l : SFLocator),
      (∀ r, SFLocatorSkip a n l = some (true, r) ↔ MoveNextChain a n l r) ∧
      (∀ r, SFLocatorSkip a n l = some (false, r) ↔
        ∃ k m, k < n ∧ MoveNextChain a k l m ∧ SFLocatorMoveNext a m = some (false, r)) ∧
      (SFLocatorSkip a n l = none ↔
        ∃ k m, k < n ∧ MoveNextChain a k l m ∧ SFLocatorMoveNext a m = none) := by
  intro n
  induction n with
  | zero =>
    intro l
    refine ⟨?_, ?_, ?_⟩
    · intro r
      simp only [SFLocatorSkip, MoveNextChain, Option.some.injEq, Prod.mk.injEq, true_and]
      exact eq_comm
    · intro r
      simp [SFLocatorSkip]
    · simp [SFLocatorSkip]
  | succ n ih =>
    intro l
    cases hm : SFLocatorMoveNext a l with
    | none =>
      have hs : SFLocatorSkip a (n + 1) l = none := by simp [SFLocatorSkip, hm]
      refine ⟨?_, ?_, ?_⟩
      · intro r
        rw [hs]
        constructor
        · intro h; exact absurd h (by simp)
        · rintro ⟨m, h1, _⟩
          rw [hm] at h1; exact absurd h1 (by simp)
      · intro r
        rw [hs]
        constructor
        · intro h; exact absurd h (by simp)
        · rintro ⟨k, m, _, hc, hf⟩
          cases k with
          | zero =>
            have : m = l := hc
            subst this
            rw [hm] at hf; exact absurd hf (by simp)
          | succ k =>
            obtain ⟨m1, h1, _⟩ := hc
            rw [hm] at h1; exact absurd h1 (by simp)
      · rw [hs]
        exact ⟨fun _ => ⟨0, l, by omega, rfl, hm⟩, fun _ => rfl⟩
    | some br =>
      obtain ⟨b, l1⟩ := br
      cases b
      · have hs : SFLocatorSkip a (n + 1) l = some (false, l1) := by
          simp [SFLocatorSkip, hm]
        refine ⟨?_, ?_, ?_⟩
        · intro r
          rw [hs]
          constructor
          · intro h; simp at h
          · rintro ⟨m, h1, _⟩
            rw [hm] at h1; simp at h1
        · intro r
          rw [hs]
          constructor
          · intro h
            have hr : l1 = r := by simpa using h
            subst hr
            exact ⟨0, l, by omega, rfl, hm⟩
          · rintro ⟨k, m, _, hc, hf⟩
            cases k with
            | zero =>
              have : m = l := hc
              subst this
              rw [hm] at hf
              exact hf
            | succ k =>
              obtain ⟨m1, h1, _⟩ := hc
              rw [hm] at h1; simp at h1
        · rw [hs]
          constructor
          · intro h; exact absurd h (by simp)
          · rintro ⟨k, m, _, hc, hf⟩
            cases k with
            | zero =>
              have : m = l := hc
              subst this
              rw [hm] at hf; exact absurd hf (by simp)
            | succ k =>
              obtain ⟨m1, h1, _⟩ := hc
              rw [hm] at h1; simp at h1
      · have hs : SFLocatorSkip a (n + 1) l = SFLocatorSkip a n l1 := by
          simp [SFLocatorSkip, hm]
        obtain ⟨ih1, ih2, ih3⟩ := ih l1
        have hchain : ∀ k r, MoveNextChain a (k + 1) l r ↔ MoveNextChain a k l1 r := by
          intro k r
          constructor
          · rintro ⟨m, h1, h2⟩
            rw [hm] at h1
            have : l1 = m := by simpa using h1
            subst this
            exact h2
          · intro h
            exact ⟨l1, hm, h⟩
        refine ⟨?_, ?_, ?_⟩
        · intro r
          rw [hs, ih1 r]
          exact (hchain n r).symm
        · intro r
          rw [hs, ih2 r]
          constructor
          · rintro ⟨k, m, hk, hc, hp⟩
            exact ⟨k + 1, m, by omega, (hchain k m).mpr hc, hp⟩
          · rintro ⟨k, m, hk, hc, hp⟩
            cases k with
            | zero =>
              have : m = l := hc
              subst this
              rw [hm] at hp; simp at hp
            | succ k => exact ⟨k, m, by omega, (hchain k m).mp hc, hp⟩
        · rw [hs, ih3]
          constructor
          · rintro ⟨k, m, hk, hc, hp⟩
            exact ⟨k + 1, m, by omega, (hchain k m).mpr hc, hp⟩
          · rintro ⟨k, m, hk, hc, hp⟩
            cases k with
            | zero =>
              have : m = l := hc
              subst this
              rw [hm] at hp; simp at hp
            | succ k => exact ⟨k, m, by omega, (hchain k m).mp hc, hp⟩

/-- Membership after an insertion into a lookup list. -/
theorem mem_insertLookup (v x : Nat) :
    ∀ xs : List Nat, x ∈ insertLookup v xs ↔ x = v ∨ x ∈ xs := by
  intro xs
  induction xs with
  | nil => simp [insertLookup]
  | cons y ys ih =>
    simp only [insertLookup]
    by_cases h1 : v < y
    · simp [h1]
    · by_cases h2 : v = y
      · rw [if_neg h1, if_pos h2, List.mem_cons, h2]
        constructor
        · intro h; exact Or.inr h
        · rintro (h | h)
          · exact Or.inl h
          · exact h
      · rw [if_neg h1, if_neg h2]
        simp only [List.mem_cons, ih]
        constructor
        · rintro (h | h | h)
          · exact Or.inr (Or.inl h)
          · exact Or.inl h
          · exact Or.inr (Or.inr h)
        · rintro (h | h | h)
          · exact Or.inr (Or.inl h)
          · exact Or.inl h
          · exact Or.inr (Or.inr h)

/-- An insertion keeps a lookup list strictly ascending. -/
theorem pairwise_insertLookup (v : Nat) :
    ∀ xs : List Nat, xs.Pairwise (fun x y => x < y) →
      (insertLookup v xs).Pairwise (fun x y => x < y) := by
  intro xs
  induction xs with
  | nil => intro _; simp [insertLookup]
  | cons y ys ih =>
    intro h
    have hy := List.pairwise_cons.mp h
    simp only [insertLookup]
    by_cases h1 : v < y
    · simp only [h1, if_true]
      refine List.pairwise_cons.mpr ⟨?_, h⟩
      intro z hz
      rcases List.mem_cons.mp hz with hz1 | hz1
      · rw [hz1]; exact h1
      · exact lt_trans h1 (hy.1 z hz1)
    · by_cases h2 : v = y
      · rw [if_neg h1, if_pos h2]
        exact h
      · rw [if_neg h1, if_neg h2]
        refine List.pairwise_cons.mpr ⟨?_, ih hy.2⟩
        intro z hz
        rcases (mem_insertLookup v z ys).mp hz with hz1 | hz1
        · rw [hz1]; omega
        · exact hy.1 z hz1

/-- Inserting a list of lookup indexes keeps the result strictly ascending and adds
exactly the inserted values. -/
theorem insertAll_spec :
    ∀ (vs acc : List Nat), acc.Pairwise (fun x y => x < y) →
      (insertAll vs acc).Pairwise (fun x y => x < y) ∧
      ∀ x, x ∈ insertAll vs acc ↔ x ∈ vs ∨ x ∈ acc := by
  intro vs
  induction vs with
  | nil =>
    intro acc h
    exact ⟨h, fun x => by simp [insertAll]⟩
  | cons v rest ih =>
    intro acc h
    obtain ⟨h1, h2⟩ := ih (insertLookup v acc) (pairwise_insertLookup v acc h)
    refine ⟨h1, ?_⟩
    intro x
    simp only [insertAll]
    rw [h2 x, mem_insertLookup, List.mem_cons]
    constructor
    · rintro (h | h | h)
      · exact Or.inl (Or.inr h)
      · exact Or.inl (Or.inl h)
      · exact Or.inr h
    · rintro ((h | h) | h)
      · exact Or.inr (Or.inl h)
      · exact Or.inl h
      · exact Or.inr (Or.inr h)

/-- The lookup indexes of an accumulator extended at the end. -/
theorem allLookups_append (fs gs : List SFBuilderFeature) :
    allLookups (fs ++ gs) = allLookups fs ++ allLookups gs := by
  induction fs with
  | nil => rfl
  | cons e rest ih => simp [allLookups, ih]

/-- Changing only masks does not change the lookup indexes of the accumulator. -/
theorem allLookups_map_mask (g : SFBuilderFeature → SFBuilderFeature)
    (hg : ∀ e, (g e).lookups = e.lookups) :
    ∀ fs : List SFBuilderFeature, allLookups (fs.map g) = allLookups fs := by
  intro fs
  induction fs with
  | nil => rfl
  | cons e rest ih => simp [allLookups, ih, hg]

/-- Adding a feature does not change the lookup indexes of the accumulator and leaves it
non-empty. -/
theorem addFeature_spec (b : SFPatternBuilder) (tag mask : Nat) :
    allLookups (SFPatternBuilderAddFeature b tag mask)._features = allLookups b._features ∧
    (SFPatternBuilderAddFeature b tag mask)._features ≠ [] ∧
    (SFPatternBuilderAddFeature b tag mask)._pattern = b._pattern := by
  unfold SFPatternBuilderAddFeature
  by_cases h : b._features.any (fun e => decide (e.tag = tag)) = true
  · rw [if_pos h]
    refine ⟨allLookups_map_mask _ ?_ _, ?_, rfl⟩
    · intro e
      by_cases he : e.tag = tag <;> simp [he]
    · intro hnil
      have hnil2 : b._features = [] := List.map_eq_nil_iff.mp hnil
      rw [hnil2] at h
      simp at h
  · rw [if_neg h]
    refine ⟨?_, by simp, rfl⟩
    show allLookups (b._features ++ [{ tag := tag, mask := mask, lookups := [] }]) = _
    rw [allLookups_append]
    simp [allLookups]

/-- Inserting a lookup index into the last feature of the accumulator adds exactly that
index, when there is a feature. -/
theorem mem_allLookups_updateLast (v x : Nat) :
    ∀ fs : List SFBuilderFeature,
      x ∈ allLookups
          (updateLast (fun e => { e with lookups := insertLookup v e.lookups }) fs) ↔
        (fs ≠ [] ∧ x = v) ∨ x ∈ allLookups fs := by
  intro fs
  induction fs with
  | nil => simp [updateLast, allLookups]
  | cons e rest ih =>
    cases rest with
    | nil =>
      simp only [updateLast, allLookups, List.append_nil, mem_insertLookup, ne_eq,
        List.cons_ne_nil, not_false_eq_true, true_and, reduceCtorEq]
    | cons e2 rest2 =>
      simp only [updateLast, allLookups, List.mem_append, ne_eq, List.cons_ne_nil,
        not_false_eq_true, true_and, reduceCtorEq] at ih ⊢
      rw [ih]
      constructor
      · rintro (h | h | h)
        · exact Or.inr (Or.inl h)
        · exact Or.inl h
        · exact Or.inr (Or.inr h)
      · rintro (h | h | h)
        · exact Or.inr (Or.inl h)
        · exact Or.inl h
        · exact Or.inr (Or.inr h)

/-- Updating the last feature keeps the accumulator empty or non-empty. -/
theorem updateLast_eq_nil (f : SFBuilderFeature → SFBuilderFeature) :
    ∀ fs : List SFBuilderFeature, updateLast f fs = [] ↔ fs = [] := by
  intro fs
  cases fs with
  | nil => simp [updateLast]
  | cons e rest =>
    cases rest with
    | nil => simp [updateLast]
    | cons e2 rest2 => simp [updateLast]

/-- The lookup indexes in the accumulator after a sequence of feature calls are those
that were there before and those the calls added; the pattern is not touched. -/
theorem runFeatureCalls_spec :
    ∀ (calls : List SFFeatureCall) (b : SFPatternBuilder) (has : Bool),
      (has = true ↔ b._features ≠ []) →
      (runFeatureCalls calls b)._pattern = b._pattern ∧
      (runFeatureCalls calls b)._featureKind = b._featureKind ∧
      ∀ x, x ∈ allLookups (runFeatureCalls calls b)._features ↔
        x ∈ allLookups b._features ∨ x ∈ addedLookups has calls := by
  intro calls
  induction calls with
  | nil =>
    intro b has _
    exact ⟨rfl, rfl, fun x => by cases has <;> simp [runFeatureCalls, addedLookups]⟩
  | cons c rest ih =>
    intro b has hhas
    cases c with
    | addFeature tag mask =>
      obtain ⟨a1, a2, a3⟩ := addFeature_spec b tag mask
      obtain ⟨i1, i2, i3⟩ := ih (SFPatternBuilderAddFeature b tag mask) true
        ⟨fun _ => a2, fun _ => rfl⟩
      refine ⟨by simpa [runFeatureCalls, SFFeatureCall.run, a3] using i1, ?_, ?_⟩
      · simpa [runFeatureCalls, SFFeatureCall.run, SFPatternBuilderAddFeature] using
          (by
            rw [i2]
            unfold SFPatternBuilderAddFeature
            split <;> rfl :
            (runFeatureCalls rest (SFPatternBuilderAddFeature b tag mask))._featureKind
              = b._featureKind)
      · intro x
        have := i3 x
        rw [a1] at this
        cases has <;> simpa [runFeatureCalls, SFFeatureCall.run, addedLookups] using this
    | addLookup v =>
      have hnil : (SFPatternBuilderAddLookup b v)._features ≠ [] ↔ b._features ≠ [] := by
        unfold SFPatternBuilderAddLookup
        simp only [ne_eq]
        rw [updateLast_eq_nil]
      obtain ⟨i1, i2, i3⟩ := ih (SFPatternBuilderAddLookup b v) has
        ⟨fun h => hnil.mpr (hhas.mp h), fun h => hhas.mpr (hnil.mp h)⟩
      refine ⟨by simpa [runFeatureCalls, SFFeatureCall.run] using i1,
        by simpa [runFeatureCalls, SFFeatureCall.run] using i2, ?_⟩
      intro x
      have h3 := i3 x
      have hmem : x ∈ allLookups (SFPatternBuilderAddLookup b v)._features ↔
          (b._features ≠ [] ∧ x = v) ∨ x ∈ allLookups b._features :=
        mem_allLookups_updateLast v x b._features
      rw [hmem] at h3
      cases has with
      | true =>
        have hne : b._features ≠ [] := hhas.mp rfl
        simp only [runFeatureCalls, SFFeatureCall.run, addedLookups, List.mem_cons]
        rw [h3]
        constructor
        · rintro ((⟨_, h⟩ | h) | h)
          · exact Or.inr (Or.inl h)
          · exact Or.inl h
          · exact Or.inr (Or.inr h)
        · rintro (h | h | h)
          · exact Or.inl (Or.inr h)
          · exact Or.inl (Or.inl ⟨hne, h⟩)
          · exact Or.inr h
      | false =>
        have hemp : ¬ b._features ≠ [] := fun h => by
          have := hhas.mpr h
          exact absurd this (by decide)
        simp only [runFeatureCalls, SFFeatureCall.run, addedLookups]
        rw [h3]
        constructor
        · rintro ((⟨h, _⟩ | h) | h)
          · exact absurd h hemp
          · exact Or.inl h
          · exact Or.inr h
        · rintro (h | h)
          · exact Or.inl (Or.inr h)
          · exact Or.inr h

/-- The tags in the accumulator after `add_feature`: the tag is appended unless it is
already there. -/
theorem addFeature_tags (b : SFPatternBuilder) (tag mask : Nat) :
    (SFPatternBuilderAddFeature b tag mask)._features.map (fun e => e.tag) =
      (if tag ∈ b._features.map (fun e => e.tag) then b._features.map (fun e => e.tag)
       else b._features.map (fun e => e.tag) ++ [tag]) := by
  have hany : b._features.any (fun e => decide (e.tag = tag)) = true ↔
      tag ∈ b._features.map (fun e => e.tag) := by
    simp only [List.any_eq_true, decide_eq_true_eq, List.mem_map]
  unfold SFPatternBuilderAddFeature
  by_cases h : b._features.any (fun e => decide (e.tag = tag)) = true
  · rw [if_pos h, if_pos (hany.mp h)]
    show (b._features.map _).map _ = _
    rw [List.map_map]
    apply List.map_congr_left
    intro e _
    by_cases he : e.tag = tag <;> simp [he]
  · rw [if_neg h, if_neg (fun hm => h (hany.mpr hm))]
    show (b._features ++ [_]).map _ = _
    simp

/-- Updating the last feature without touching its tag keeps the tags of the
accumulator. -/
theorem updateLast_tags (f : SFBuilderFeature → SFBuilderFeature)
    (hf : ∀ e, (f e).tag = e.tag) :
    ∀ fs : List SFBuilderFeature,
      (updateLast f fs).map (fun e => e.tag) = fs.map (fun e => e.tag) := by
  intro fs
  induction fs with
  | nil => rfl
  | cons e rest ih =>
    cases rest with
    | nil => simp [updateLast, hf]
    | cons e2 rest2 =>
      simp only [updateLast, List.map_cons] at ih ⊢
      rw [ih]

/-- The units, tags and counts a sequence of builder calls adds to the pattern are those
of the units the calls seal. -/
theorem runBuilder_units :
    ∀ (calls : List SFBuilderCall) (b0 b : SFPatternBuilder),
      runBuilder calls b0 = some b →
      ∃ units,
        b._pattern.featureUnits = b0._pattern.featureUnits ++ units ∧
        b._pattern.featureTags = b0._pattern.featureTags ++
          sealedTags (sealedUnits calls b0._featureKind (b0._features.map (fun e => e.tag))) ∧
        units.map (fun u => u.coveredRange.count) =
          (sealedUnits calls b0._featureKind (b0._features.map (fun e => e.tag))).map
            (fun s => s.2.length) ∧
        RangesCover b0._pattern.featureTags.length units b._pattern.featureTags.length ∧
        b._gsubCount = b0._gsubCount + sealedCount SFFeatureKind.Substitution
          (sealedUnits calls b0._featureKind (b0._features.map (fun e => e.tag))) ∧
        b._gposCount = b0._gposCount + sealedCount SFFeatureKind.Positioning
          (sealedUnits calls b0._featureKind (b0._features.map (fun e => e.tag))) := by
  intro calls
  induction calls with
  | nil =>
    intro b0 b h
    simp only [runBuilder, Option.some.injEq] at h
    subst h
    exact ⟨[], by simp, by simp [sealedUnits, sealedTags], by simp [sealedUnits],
      by simp [RangesCover], by simp [sealedUnits, sealedCount],
      by simp [sealedUnits, sealedCount]⟩
  | cons c rest ih =>
    intro b0 b h
    -- a call that seals nothing: the rest of the run decides
    have hkeep : ∀ b1 : SFPatternBuilder, runBuilder rest b1 = some b →
        b1._pattern.featureUnits = b0._pattern.featureUnits →
        b1._pattern.featureTags = b0._pattern.featureTags →
        b1._gsubCount = b0._gsubCount → b1._gposCount = b0._gposCount →
        sealedUnits (c :: rest) b0._featureKind (b0._features.map (fun e => e.tag)) =
          sealedUnits rest b1._featureKind (b1._features.map (fun e => e.tag)) →
        ∃ units,
          b._pattern.featureUnits = b0._pattern.featureUnits ++ units ∧
          b._pattern.featureTags = b0._pattern.featureTags ++
            sealedTags (sealedUnits (c :: rest) b0._featureKind
              (b0._features.map (fun e => e.tag))) ∧
          units.map (fun u => u.coveredRange.count) =
            (sealedUnits (c :: rest) b0._featureKind
              (b0._features.map (fun e => e.tag))).map (fun s => s.2.length) ∧
          RangesCover b0._pattern.featureTags.length units b._pattern.featureTags.length ∧
          b._gsubCount = b0._gsubCount + sealedCount SFFeatureKind.Substitution
            (sealedUnits (c :: rest) b0._featureKind (b0._features.map (fun e => e.tag))) ∧
          b._gposCount = b0._gposCount + sealedCount SFFeatureKind.Positioning
            (sealedUnits (c :: rest) b0._featureKind
              (b0._features.map (fun e => e.tag))) := by
      intro b1 hrun e1 e2 e3 e4 e5
      obtain ⟨units, k1, k2, k3, k4, k5, k6⟩ := ih b1 b hrun
      rw [e5]
      rw [e1] at k1
      rw [e2] at k2 k4
      rw [e3] at k5
      rw [e4] at k6
      exact ⟨units, k1, k2, k3, k4, k5, k6⟩
    -- a call that seals the open unit under the kind of `b0` and goes on with kind `k1`
    have hseal : ∀ k1 : Option SFFeatureKind,
        runBuilder rest { SFPatternBuilderMakeFeatureUnit b0 with _featureKind := k1 }
          = some b →
        sealedUnits (c :: rest) b0._featureKind (b0._features.map (fun e => e.tag)) =
          (b0._featureKind, b0._features.map (fun e => e.tag)) :: sealedUnits rest k1 [] →
        ∃ units,
          b._pattern.featureUnits = b0._pattern.featureUnits ++ units ∧
          b._pattern.featureTags = b0._pattern.featureTags ++
            sealedTags (sealedUnits (c :: rest) b0._featureKind
              (b0._features.map (fun e => e.tag))) ∧
          units.map (fun u => u.coveredRange.count) =
            (sealedUnits (c :: rest) b0._featureKind
              (b0._features.map (fun e => e.tag))).map (fun s => s.2.length) ∧
          RangesCover b0._pattern.featureTags.length units b._pattern.featureTags.length ∧
          b._gsubCount = b0._gsubCount + sealedCount SFFeatureKind.Substitution
            (sealedUnits (c :: rest) b0._featureKind (b0._features.map (fun e => e.tag))) ∧
          b._gposCount = b0._gposCount + sealedCount SFFeatureKind.Positioning
            (sealedUnits (c :: rest) b0._featureKind
              (b0._features.map (fun e => e.tag))) := by
      intro k1 hrun e5
      obtain ⟨units, j1, j2, j3, j4, j5, j6⟩ := ih _ b hrun
      rw [e5]
      simp only [SFPatternBuilderMakeFeatureUnit, List.map_nil, List.length_append,
        List.length_map] at j1 j2 j3 j4 j5 j6
      refine ⟨({ lookupIndexes := unionLookups b0._features,
                 coveredRange :=
                   { start := b0._pattern.featureTags.length,
                     count := b0._features.length },
                 featureMask := unionMask b0._features } : SFFeatureUnit) :: units,
        ?_, ?_, ?_, ?_, ?_, ?_⟩
      · rw [j1]; simp
      · rw [j2]; simp [sealedTags]
      · simp only [List.map_cons, List.length_map]
        rw [j3]
      · exact ⟨rfl, j4⟩
      · rw [j5]
        simp only [sealedCount]
        split_ifs <;> omega
      · rw [j6]
        simp only [sealedCount]
        split_ifs <;> omega
    cases c with
    | setFont f =>
      exact hkeep _ h rfl rfl rfl rfl rfl
    | setScript t d =>
      exact hkeep _ h rfl rfl rfl rfl rfl
    | setLanguage t =>
      exact hkeep _ h rfl rfl rfl rfl rfl
    | build =>
      exact hkeep _ h rfl rfl rfl rfl rfl
    | beginFeatures k =>
      simp only [runBuilder, SFBuilderCall.run, SFPatternBuilderBeginFeatures] at h
      by_cases hpre : b0._features ≠ [] ∧ b0._featureKind ≠ some k
      · rw [if_pos hpre] at h
        exact absurd h (by simp)
      · rw [if_neg hpre] at h
        exact hkeep _ h rfl rfl rfl rfl rfl
    | feature fc =>
      cases fc with
      | addFeature tag mask =>
        have ht := addFeature_tags b0 tag mask
        have hp := (addFeature_spec b0 tag mask).2.2
        have hk : (SFPatternBuilderAddFeature b0 tag mask)._featureKind = b0._featureKind := by
          unfold SFPatternBuilderAddFeature; split <;> rfl
        have hg : (SFPatternBuilderAddFeature b0 tag mask)._gsubCount = b0._gsubCount := by
          unfold SFPatternBuilderAddFeature; split <;> rfl
        have hq : (SFPatternBuilderAddFeature b0 tag mask)._gposCount = b0._gposCount := by
          unfold SFPatternBuilderAddFeature; split <;> rfl
        refine hkeep (SFPatternBuilderAddFeature b0 tag mask) h (by rw [hp]) (by rw [hp])
          hg hq ?_
        rw [hk, ht]
        rfl
      | addLookup v =>
        have ht : (SFPatternBuilderAddLookup b0 v)._features.map (fun e => e.tag)
            = b0._features.map (fun e => e.tag) :=
          updateLast_tags (fun e => { e with lookups := insertLookup v e.lookups })
            (fun _ => rfl) b0._features
        refine hkeep (SFPatternBuilderAddLookup b0 v) h rfl rfl rfl rfl ?_
        rw [ht]
        rfl
    | makeFeatureUnit =>
      exact hseal b0._featureKind h rfl
    | endFeatures =>
      simp only [runBuilder, SFBuilderCall.run, SFPatternBuilderEndFeatures] at h
      by_cases hemp : b0._features = []
      · rw [if_pos hemp] at h
        refine hkeep _ h rfl rfl rfl rfl ?_
        simp [sealedUnits, hemp]
      · rw [if_neg hemp] at h
        refine hseal none h ?_
        have : b0._features.map (fun e => e.tag) ≠ [] := by
          intro hm
          exact hemp (List.map_eq_nil_iff.mp hm)
        simp [sealedUnits, this]

/-- A real index returned by `SFLocatorGetAfter` is the first non-ignored index above the
argument and below the limit. -/
theorem SFLocatorGetAfter_real (a : SFAlbum) (l : SFLocator) (i j : Nat)
    (h : SFLocatorGetAfter a l i = some j) (hj : j ≠ SFInvalidIndex) :
    i < j ∧ j < l._limitIndex ∧ _SFIsIgnoredGlyph a l j = false ∧
      ∀ k, i < k → k < j → _SFIsIgnoredGlyph a l k = true := by
  unfold SFLocatorGetAfter at h
  split at h
  · have hr : getAfterLoop a l (l._limitIndex - (i + 1)) (i + 1) = j := by simpa using h
    rcases getAfterLoop_spec a l _ (i + 1) (le_refl _) with ⟨h1, h2, h3, h4⟩ | ⟨h1, _⟩
    · rw [hr] at h1 h2 h3 h4
      exact ⟨by omega, h2, h3, fun k hk1 hk2 => h4 k (by omega) hk2⟩
    · rw [hr] at h1
      exact absurd h1 hj
  · exact absurd h (by simp)

/-- When `SFLocatorGetAfter` returns the sentinel on a machine-word limit, every index
above the argument and below the limit is ignored. -/
theorem SFLocatorGetAfter_sentinel (a : SFAlbum) (l : SFLocator) (i : Nat)
    (hw : l._limitIndex < SFUIntegerSize)
    (h : SFLocatorGetAfter a l i = some SFInvalidIndex) :
    ∀ k, i < k → k < l._limitIndex → _SFIsIgnoredGlyph a l k = true := by
  unfold SFLocatorGetAfter at h
  split at h
  · have hr : getAfterLoop a l (l._limitIndex - (i + 1)) (i + 1) = SFInvalidIndex := by
      simpa using h
    rcases getAfterLoop_spec a l _ (i + 1) (le_refl _) with ⟨_, h2, _, _⟩ | ⟨_, h2⟩
    · rw [hr] at h2
      unfold SFInvalidIndex at h2
      omega
    · intro k hk1 hk2
      exact h2 k (by omega) hk2
  · exact absurd h (by simp)

/-- A real index returned by `SFLocatorGetBefore` on a machine-word limit is the last
non-ignored index below the argument and not below the start. -/
theorem SFLocatorGetBefore_real (a : SFAlbum) (l : SFLocator) (i j : Nat)
    (hw : l._limitIndex < SFUIntegerSize)
    (h : SFLocatorGetBefore a l i = some j) (hj : j ≠ SFInvalidIndex) :
    l._startIndex ≤ j ∧ j < i ∧ _SFIsIgnoredGlyph a l j = false ∧
      ∀ k, j < k → k < i → _SFIsIgnoredGlyph a l k = true := by
  unfold SFLocatorGetBefore at h
  split at h
  · rename_i hc
    have hr : getBeforeLoop a l (i + 1) i = j := by simpa using h
    rcases getBeforeLoop_spec a l (i + 1) i (by omega) (by omega) with
      ⟨h1, h2, h3, h4⟩ | ⟨h1, _⟩
    · rw [hr] at h1 h2 h3 h4
      exact ⟨h1, h2, h3, h4⟩
    · rw [hr] at h1
      exact absurd h1 hj
  · exact absurd h (by simp)

/-- On a fresh locator `SFLocatorGetAfter` returns for every index below the limit. -/
theorem SFLocatorGetAfter_returns (a : SFAlbum) (l : SFLocator) (i : Nat)
    (hv : l._version = a._version) (hi : i < l._limitIndex) :
    ∃ j, SFLocatorGetAfter a l i = some j :=
  ⟨getAfterLoop a l (l._limitIndex - (i + 1)) (i + 1), by simp [SFLocatorGetAfter, hi, hv]⟩

/-- On a fresh locator `SFLocatorGetBefore` returns for every index below the limit. -/
theorem SFLocatorGetBefore_returns (a : SFAlbum) (l : SFLocator) (i : Nat)
    (hv : l._version = a._version) (hi : i < l._limitIndex) :
    ∃ j, SFLocatorGetBefore a l i = some j :=
  ⟨getBeforeLoop a l (i + 1) i, by simp [SFLocatorGetBefore, hi, hv]⟩

/-- The index a successful `SFLocatorMoveNext` yields is the first non-ignored index from
the state on: any non-ignored index of the range with only ignored indices before it. -/
theorem SFLocatorMoveNext_yields (a : SFAlbum) (l : SFLocator) (j : Nat)
    (hv : l._version = a._version) (hs : l._stateIndex ≤ j) (hj : j < l._limitIndex)
    (hign : _SFIsIgnoredGlyph a l j = false)
    (hbefore : ∀ k, l._stateIndex ≤ k → k < j → _SFIsIgnoredGlyph a l k = true) :
    SFLocatorMoveNext a l = some (true, { l with _stateIndex := j + 1, index := j }) := by
  obtain ⟨b, r, hm⟩ := SFLocatorMoveNext_returns a l hv (by omega)
  rcases (SFLocatorMoveNext_some a l r b hm).2.2 with
    ⟨hb, m1, m2, m3, m4, m5⟩ | ⟨_, m1, _⟩
  · have hidx : r.index = j := by
      by_contra hne
      rcases Nat.lt_or_gt_of_ne hne with hlt | hgt
      · have := hbefore r.index m1 hlt
        rw [this] at m3
        exact absurd m3 (by decide)
      · have := m4 j hs hgt
        rw [this] at hign
        exact absurd hign (by decide)
    rw [hm, hb, m5, hidx]
  · have := m1 j hs hj
    rw [this] at hign
    exact absurd hign (by decide)

/-- When every index from the state to the limit is ignored, `SFLocatorMoveNext` returns
false and parks the state at the limit. -/
theorem SFLocatorMoveNext_exhausted (a : SFAlbum) (l : SFLocator)
    (hv : l._version = a._version) (hs : l._stateIndex ≤ l._limitIndex)
    (hall : ∀ k, l._stateIndex ≤ k → k < l._limitIndex → _SFIsIgnoredGlyph a l k = true) :
    SFLocatorMoveNext a l = some (false, { l with _stateIndex := l._limitIndex }) := by
  obtain ⟨b, r, hm⟩ := SFLocatorMoveNext_returns a l hv hs
  rcases (SFLocatorMoveNext_some a l r b hm).2.2 with
    ⟨_, m1, m2, m3, _, _⟩ | ⟨hb, _, m5⟩
  · have := hall r.index m1 m2
    rw [this] at m3
    exact absurd m3 (by decide)
  · rw [hm, hb, m5]

/-- The state-passing loop of `SFLocatorGetAfter` returns the result of the loop and the
state it was given. -/
theorem getAfterLoopState_eq :
    ∀ (n : Nat) (s : SFAlbum × SFLocator) (index : Nat),
      getAfterLoopState n s index = (getAfterLoop s.1 s.2 n index, s) := by
  intro n
  induction n with
  | zero => intro s index; rfl
  | succ n ih =>
    intro s index
    simp only [getAfterLoopState, getAfterLoop, _SFIsIgnoredGlyphState]
    by_cases hlt : index < s.2._limitIndex
    · cases hig : _SFIsIgnoredGlyph s.1 s.2 index
      · simp [hlt]
      · simp [hlt, ih]
    · simp [hlt]

/-- The state-passing loop of `SFLocatorGetBefore` returns the result of the loop and the
state it was given. -/
theorem getBeforeLoopState_eq :
    ∀ (n : Nat) (s : SFAlbum × SFLocator) (index : Nat),
      getBeforeLoopState n s index = (getBeforeLoop s.1 s.2 n index, s) := by
  intro n
  induction n with
  | zero => intro s index; rfl
  | succ n ih =>
    intro s index
    simp only [getBeforeLoopState, getBeforeLoop, _SFIsIgnoredGlyphState]
    by_cases hgt : index > s.2._startIndex
    · cases hig : _SFIsIgnoredGlyph s.1 s.2
          ((index + SFUIntegerSize - 1) % SFUIntegerSize)
      · simp [hgt]
      · simp [hgt, ih]
    · simp [hgt]

/-- Setting the bit `UseMarkFilteringSet` of a lookup flag changes none of the bits the
locator reads. -/
theorem useMarkFilteringSet_bits (f : Nat) :
    (f ||| SFLookupFlagUseMarkFilteringSet) &&& SFLookupFlagIgnoreBaseGlyphs
      = f &&& SFLookupFlagIgnoreBaseGlyphs ∧
    (f ||| SFLookupFlagUseMarkFilteringSet) &&& SFLookupFlagIgnoreLigatures
      = f &&& SFLookupFlagIgnoreLigatures ∧
    (f ||| SFLookupFlagUseMarkFilteringSet) &&& SFLookupFlagIgnoreMarks
      = f &&& SFLookupFlagIgnoreMarks ∧
    (f ||| SFLookupFlagUseMarkFilteringSet) &&& SFLookupFlagMarkAttachmentType
      = f &&& SFLookupFlagMarkAttachmentType ∧
    (f ||| SFLookupFlagUseMarkFilteringSet) >>> 8 = f >>> 8 := by
  refine ⟨?_, ?_, ?_, ?_, ?_⟩
  · rw [Nat.and_distrib_right]
    have : SFLookupFlagUseMarkFilteringSet &&& SFLookupFlagIgnoreBaseGlyphs = 0 := by decide
    rw [this, Nat.or_zero]
  · rw [Nat.and_distrib_right]
    have : SFLookupFlagUseMarkFilteringSet &&& SFLookupFlagIgnoreLigatures = 0 := by decide
    rw [this, Nat.or_zero]
  · rw [Nat.and_distrib_right]
    have : SFLookupFlagUseMarkFilteringSet &&& SFLookupFlagIgnoreMarks = 0 := by decide
    rw [this, Nat.or_zero]
  · rw [Nat.and_distrib_right]
    have : SFLookupFlagUseMarkFilteringSet &&& SFLookupFlagMarkAttachmentType = 0 := by
      decide
    rw [this, Nat.or_zero]
  · apply Nat.eq_of_testBit_eq
    intro j
    rw [Nat.testBit_shiftRight, Nat.testBit_shiftRight, Nat.testBit_or]
    have h16 : SFLookupFlagUseMarkFilteringSet = 2 ^ 4 := by decide
    rw [h16, Nat.testBit_two_pow]
    have : decide (4 = 8 + j) = false := by
      simp
      omega
    rw [this, Bool.or_false]

/-- A chain of successful move-next calls extended by one more at its end. -/
theorem MoveNextChain_snoc (a : SFAlbum) :
    ∀ (k : Nat) (l m r : SFLocator), MoveNextChain a k l m →
      SFLocatorMoveNext a m = some (true, r) → MoveNextChain a (k + 1) l r := by
  intro k
  induction k with
  | zero =>
    intro l m r hc hm
    have : m = l := hc
    subst this
    exact ⟨r, hm, rfl⟩
  | succ k ih =>
    intro l m r hc hm
    obtain ⟨m1, h1, h2⟩ := hc
    exact ⟨m1, h1, ih m1 m r h2 hm⟩

/-- The indices of forward steps end at or after their starting point. -/
theorem steps_last_ge (a : SFAlbum) (l : SFLocator) :
    ∀ (cs : List SFCoverage) (cur : Nat) (js : List Nat), StepsAfter a l cs cur js →
      cur ≤ js.getLastD cur := by
  intro cs
  induction cs with
  | nil =>
    intro cur js h
    have : js = [] := h
    subst this
    exact le_refl _
  | cons c cs ih =>
    intro cur js h
    obtain ⟨j, tail, hjs, hg, hj, _, hrest⟩ := h
    subst hjs
    rw [getLastD_cons_eq]
    have h1 := (SFLocatorGetAfter_real a l cur j hg hj).1
    have h2 := ih j tail hrest
    omega

/-- Traversal of the matched span: when `js` are the input positions found by look-ahead
from `cur` under the filter of `l` on album `a`, a locator `m` with the same filter on an
album `a2`, fresh there, with state `cur + 1` and the limit just behind the last position,
yields exactly these positions by successive move-next calls and then returns false. -/
theorem span_chain (a : SFAlbum) (l : SFLocator) (a2 : SFAlbum) :
    ∀ (cs : List SFCoverage) (cur : Nat) (js : List Nat), StepsAfter a l cs cur js →
      ∀ m : SFLocator, m._version = a2._version → m._stateIndex = cur + 1 →
        m._limitIndex = js.getLastD cur + 1 →
        (∀ k, _SFIsIgnoredGlyph a2 m k = _SFIsIgnoredGlyph a l k) →
        (∀ k, k < js.length → ∃ mk, MoveNextChain a2 k m mk ∧
          SFLocatorMoveNext a2 mk
            = some (true, { mk with _stateIndex := js.getD k 0 + 1, index := js.getD k 0 })) ∧
        (∃ mk, MoveNextChain a2 js.length m mk ∧
          SFLocatorMoveNext a2 mk = some (false, { mk with _stateIndex := mk._limitIndex })) := by
  intro cs
  induction cs with
  | nil =>
    intro cur js h m hv hs hl _
    have : js = [] := h
    subst this
    refine ⟨fun k hk => absurd hk (by simp), m, rfl, ?_⟩
    apply SFLocatorMoveNext_exhausted a2 m hv
    · rw [hs, hl]; exact le_refl _
    · intro k hk1 hk2
      rw [hs] at hk1
      rw [hl] at hk2
      have : ([] : List Nat).getLastD cur = cur := rfl
      omega
  | cons c cs ih =>
    intro cur js h m hv hs hl hq
    obtain ⟨j, tail, hjs, hg, hj, _, hrest⟩ := h
    subst hjs
    obtain ⟨g1, g2, g3, g4⟩ := SFLocatorGetAfter_real a l cur j hg hj
    have hlast := steps_last_ge a l cs j tail hrest
    rw [getLastD_cons_eq] at hl
    have hm : SFLocatorMoveNext a2 m
        = some (true, { m with _stateIndex := j + 1, index := j }) := by
      apply SFLocatorMoveNext_yields a2 m j hv
      · rw [hs]; omega
      · rw [hl]; omega
      · rw [hq]; exact g3
      · intro k hk1 hk2
        rw [hq]
        exact g4 k (by omega) hk2
    obtain ⟨ih1, mk2, ih2, ih3⟩ := ih j tail hrest { m with _stateIndex := j + 1, index := j }
      hv rfl hl (fun k => hq k)
    constructor
    · intro k hk
      cases k with
      | zero => exact ⟨m, rfl, hm⟩
      | succ k =>
        obtain ⟨mk, c1, c2⟩ := ih1 k (by simpa using hk)
        exact ⟨mk, ⟨_, hm, c1⟩, by simpa using c2⟩
    · exact ⟨mk2, ⟨_, hm, ih2⟩, ih3⟩

/-- A chain of successful move-next calls keeps the range of the locator. -/
theorem MoveNextChain_range (a : SFAlbum) :
    ∀ (k : Nat) (l m : SFLocator), MoveNextChain a k l m →
      m._startIndex = l._startIndex ∧ m._limitIndex = l._limitIndex := by
  intro k l m h
  have hs := ((SFLocatorSkip_outcomes a k l).1 m).mpr h
  obtain ⟨s1, s2, _, _⟩ := SFLocatorSkip_some a k l m true hs
  exact ⟨s1, s2⟩

/-- The indices of forward steps on a fresh locator stay below its limit. -/
theorem steps_last_lt (a : SFAlbum) (l : SFLocator) (hv : l._version = a._version)
    (cs : List SFCoverage) (cur : Nat) (js : List Nat) (h : StepsAfter a l cs cur js)
    (hcur : cur < l._limitIndex) : js.getLastD cur < l._limitIndex := by
  obtain ⟨res, hres, hq⟩ := matchAfterLoop_returns a l hv cs cur hcur
  rw [matchAfterLoop_of_steps a l cs cur js h] at hres
  have : res = some (js.getLastD cur) := (Option.some.inj hres).symm
  exact (hq _ this).2

/-- Traversal of the span from its start: a locator `l0` at the start of the span
`[p, last + 1)` of the input positions `p :: ins`, with the filter under which they were
found, skips over `s` positions iff `s` is at most their number; after the skip the next
move-next yields position `s` when there is one, and returns false when `s` is their
number. -/
theorem span_skip_from (a : SFAlbum) (l : SFLocator) (a2 : SFAlbum) (l0 : SFLocator)
    (cs : List SFCoverage) (ins : List Nat)
    (hign : _SFIsIgnoredGlyph a l l.index = false)
    (hsteps : StepsAfter a l cs l.index ins)
    (v0 : l0._version = a2._version) (s0 : l0._stateIndex = l.index)
    (b0 : l0._startIndex = l.index) (e0 : l0._limitIndex = ins.getLastD l.index + 1)
    (q0 : ∀ k, _SFIsIgnoredGlyph a2 l0 k = _SFIsIgnoredGlyph a l k) :
    (∀ s, s < (l.index :: ins).length → ∃ ls, SFLocatorSkip a2 s l0 = some (true, ls) ∧
      ls._startIndex = l.index ∧ ls._limitIndex = ins.getLastD l.index + 1 ∧
      SFLocatorMoveNext a2 ls = some (true,
        { ls with _stateIndex := (l.index :: ins).getD s 0 + 1
                  index := (l.index :: ins).getD s 0 })) ∧
    (∃ ls, SFLocatorSkip a2 (l.index :: ins).length l0 = some (true, ls) ∧
      ls._startIndex = l.index ∧ ls._limitIndex = ins.getLastD l.index + 1 ∧
      SFLocatorMoveNext a2 ls = some (false, { ls with _stateIndex := ls._limitIndex })) ∧
    (∀ s, (l.index :: ins).length < s → ∃ ls, SFLocatorSkip a2 s l0 = some (false, ls)) := by
  have hge := steps_last_ge a l cs l.index ins hsteps
  have hm0 : SFLocatorMoveNext a2 l0
      = some (true, { l0 with _stateIndex := l.index + 1, index := l.index }) := by
    apply SFLocatorMoveNext_yields a2 l0 l.index v0
    · rw [s0]
    · rw [e0]; omega
    · rw [q0]; exact hign
    · intro k hk1 hk2
      rw [s0] at hk1
      omega
  obtain ⟨c1, mlast, c2, c3⟩ := span_chain a l a2 cs l.index ins hsteps
    { l0 with _stateIndex := l.index + 1, index := l.index } v0 rfl e0 (fun k => q0 k)
  have hrange : ∀ k ls, MoveNextChain a2 k l0 ls →
      ls._startIndex = l.index ∧ ls._limitIndex = ins.getLastD l.index + 1 := by
    intro k ls hc
    obtain ⟨r1, r2⟩ := MoveNextChain_range a2 k l0 ls hc
    exact ⟨by rw [r1, b0], by rw [r2, e0]⟩
  have hlastChain : MoveNextChain a2 (l.index :: ins).length l0 mlast := ⟨_, hm0, c2⟩
  refine ⟨?_, ?_, ?_⟩
  · intro s hs
    cases s with
    | zero =>
      refine ⟨l0, rfl, b0, e0, ?_⟩
      simpa using hm0
    | succ k =>
      obtain ⟨mk, d1, d2⟩ := c1 k (by simpa using hs)
      have hchain : MoveNextChain a2 (k + 1) l0 mk := ⟨_, hm0, d1⟩
      obtain ⟨r1, r2⟩ := hrange _ _ hchain
      exact ⟨mk, ((SFLocatorSkip_outcomes a2 (k + 1) l0).1 mk).mpr hchain, r1, r2,
        by simpa using d2⟩
  · obtain ⟨r1, r2⟩ := hrange _ _ hlastChain
    exact ⟨mlast, ((SFLocatorSkip_outcomes a2 _ l0).1 mlast).mpr hlastChain, r1, r2, c3⟩
  · intro s hs
    exact ⟨_, ((SFLocatorSkip_outcomes a2 s l0).2.1 _).mpr
      ⟨(l.index :: ins).length, mlast, hs, hlastChain, c3⟩⟩

/-- The reset to the span of the matched input positions is accepted and gives the range
`[p, last + 1)`. -/
theorem span_reset (a : SFAlbum) (l : SFLocator) (a2 : SFAlbum) (l2 : SFLocator)
    (cs : List SFCoverage) (ins : List Nat)
    (hv : l._version = a._version) (hw : l._limitIndex < SFUIntegerSize)
    (hi : l.index < l._limitIndex)
    (hsteps : StepsAfter a l cs l.index ins)
    (hcount : l.index ≤ a2.glyphCount) :
    ∃ l0, SFLocatorReset a2 l2 l.index ((ins.getLastD l.index - l.index) + 1) = some l0 ∧
      l0._version = a2._version ∧ l0._stateIndex = l.index ∧ l0._startIndex = l.index ∧
      l0._limitIndex = ins.getLastD l.index + 1 ∧
      (∀ k, _SFIsIgnoredGlyph a2 l0 k = _SFIsIgnoredGlyph a2 l2 k) := by
  have hge := steps_last_ge a l cs l.index ins hsteps
  have hlt := steps_last_lt a l hv cs l.index ins hsteps hi
  have hsum : l.index + ((ins.getLastD l.index - l.index) + 1) = ins.getLastD l.index + 1 := by
    omega
  have hmod : (l.index + ((ins.getLastD l.index - l.index) + 1)) % SFUIntegerSize
      = ins.getLastD l.index + 1 := by
    rw [hsum]
    exact Nat.mod_eq_of_lt (by omega)
  have hc : l.index ≤ a2.glyphCount ∧
      l.index ≤ (l.index + ((ins.getLastD l.index - l.index) + 1)) % SFUIntegerSize := by
    rw [hmod]
    exact ⟨hcount, by omega⟩
  unfold SFLocatorReset
  rw [if_pos hc]
  exact ⟨_, rfl, rfl, rfl, rfl, hmod, fun _ => rfl⟩

/-- A match in the words of the specification makes `_SFApplyChainContextF3` hand over to
`_SFApplyContextRecord` on the span of the input and return true. -/
theorem applyChainContextF3_of_matches
    (applyLookup : Nat → SFTextProcessor → Option SFTextProcessor)
    (p : SFTextProcessor) (cc : SFChainContextF3) (last : Nat)
    (h : ChainMatchesAt p._album p._locator cc p._locator.index last) :
    _SFApplyChainContextF3 applyLookup p cc =
      (_SFApplyContextRecord applyLookup p cc.contextRecord p._locator.index
        ((last - p._locator.index) + 1)).map (fun r => (true, r)) := by
  obtain ⟨c0, rest, hin, hc0, ins, backs, aheads, hins, hlast, hbacks, haheads⟩ := h
  have h1 := matchAfterLoop_of_steps p._album p._locator rest _ ins hins
  rw [hlast] at h1
  have h2 := matchBeforeLoop_of_steps p._album p._locator _ _ backs hbacks
  have h3 := matchAfterLoop_of_steps p._album p._locator _ _ aheads haheads
  unfold _SFApplyChainContextF3
  rw [hin]
  simp only [ne_eq, hc0, not_false_eq_true, if_true, h1, h2, h3]
  cases _SFApplyContextRecord applyLookup p cc.contextRecord p._locator.index
    ((last - p._locator.index) + 1) with
  | none => rfl
  | some r => rfl

/-- Without a match, on a fresh locator positioned below its machine-word limit,
`_SFApplyChainContextF3` returns false and leaves the processor as it was. -/
theorem applyChainContextF3_of_not_matches
    (applyLookup : Nat → SFTextProcessor → Option SFTextProcessor)
    (p : SFTextProcessor) (cc : SFChainContextF3)
    (hv : p._locator._version = p._album._version)
    (hw : p._locator._limitIndex < SFUIntegerSize)
    (hi : p._locator.index < p._locator._limitIndex)
    (hno : ¬ ChainMatches p._album p._locator cc p._locator.index) :
    _SFApplyChainContextF3 applyLookup p cc = some (false, p) := by
  unfold _SFApplyChainContextF3
  cases hin : cc.inputRecord with
  | nil => rfl
  | cons c0 rest =>
    simp only
    by_cases hc0 : c0 (p._album.glyph p._locator.index) = SFInvalidIndex
    · simp [hc0]
    · simp only [ne_eq, hc0, not_false_eq_true, if_true]
      obtain ⟨res1, hres1, hq1⟩ := matchAfterLoop_returns p._album p._locator hv rest _ hi
      rw [hres1]
      cases res1 with
      | none => rfl
      | some q =>
        simp only
        obtain ⟨res2, hres2⟩ :=
          matchBeforeLoop_returns p._album p._locator hv hw cc.backtrackRecord _ hi
        rw [hres2]
        cases res2 with
        | none => rfl
        | some q2 =>
          simp only
          obtain ⟨res3, hres3, _⟩ :=
            matchAfterLoop_returns p._album p._locator hv cc.lookaheadRecord q (hq1 q rfl).2
          rw [hres3]
          cases res3 with
          | none => rfl
          | some q3 =>
            exfalso
            apply hno
            obtain ⟨ins, hins, hlast⟩ :=
              steps_of_matchAfterLoop p._album p._locator rest _ q hres1
            obtain ⟨backs, hbacks⟩ :=
              steps_of_matchBeforeLoop p._album p._locator _ _ q2 hres2
            obtain ⟨aheads, haheads, _⟩ :=
              steps_of_matchAfterLoop p._album p._locator _ _ q3 hres3
            exact ⟨q, c0, rest, hin, hc0, ins, backs, aheads, hins, hlast, hbacks, haheads⟩

/-! ## Lemmas on the order of the units -/

/-- Kinds in pattern order are the substitution kinds followed by the positioning kinds,
as many of each as units were sealed under it. -/
theorem kinds_of_kindsInOrder :
    ∀ (seals : List (Option SFFeatureKind × List Nat)) (positioning : Bool),
      kindsInOrder positioning (seals.map Prod.fst) = true →
      seals.map Prod.fst =
        List.replicate (sealedCount SFFeatureKind.Substitution seals)
          (some SFFeatureKind.Substitution) ++
        List.replicate (sealedCount SFFeatureKind.Positioning seals)
          (some SFFeatureKind.Positioning) ∧
      (positioning = true → sealedCount SFFeatureKind.Substitution seals = 0) := by
  intro seals
  induction seals with
  | nil => intro _ _; exact ⟨rfl, fun _ => rfl⟩
  | cons u rest ih =>
    intro positioning h
    obtain ⟨k, t⟩ := u
    cases k with
    | none => simp [kindsInOrder] at h
    | some kind =>
      cases kind with
      | Substitution =>
        simp only [List.map_cons, kindsInOrder, Bool.and_eq_true, Bool.not_eq_true'] at h
        obtain ⟨ih1, _⟩ := ih false h.2
        have c1 : sealedCount SFFeatureKind.Substitution
            ((some SFFeatureKind.Substitution, t) :: rest)
            = sealedCount SFFeatureKind.Substitution rest + 1 := by
          simp [sealedCount, Nat.add_comm]
        have c2 : sealedCount SFFeatureKind.Positioning
            ((some SFFeatureKind.Substitution, t) :: rest)
            = sealedCount SFFeatureKind.Positioning rest := by
          simp [sealedCount]
        refine ⟨?_, fun hp => ?_⟩
        · rw [c1, c2, List.replicate_succ, List.cons_append, ← ih1]
          rfl
        · rw [h.1] at hp
          exact absurd hp (by decide)
      | Positioning =>
        simp only [List.map_cons, kindsInOrder] at h
        obtain ⟨ih1, ih2⟩ := ih true h
        have hz := ih2 rfl
        have c1 : sealedCount SFFeatureKind.Substitution
            ((some SFFeatureKind.Positioning, t) :: rest) = 0 := by
          simp [sealedCount, hz]
        have c2 : sealedCount SFFeatureKind.Positioning
            ((some SFFeatureKind.Positioning, t) :: rest)
            = sealedCount SFFeatureKind.Positioning rest + 1 := by
          simp [sealedCount, Nat.add_comm]
        refine ⟨?_, fun _ => c1⟩
        rw [c1, c2, List.replicate_succ, List.replicate_zero, List.nil_append]
        rw [hz, List.replicate_zero, List.nil_append] at ih1
        rw [← ih1]
        rfl

/-- Positioning kinds alone are in pattern order. -/
theorem kindsInOrder_positioning (n : Nat) (positioning : Bool) :
    kindsInOrder positioning (List.replicate n (some SFFeatureKind.Positioning)) = true := by
  induction n generalizing positioning with
  | zero => cases positioning <;> rfl
  | succ n ih =>
    rw [List.replicate_succ]
    cases positioning <;> exact ih true

/-- Substitution kinds followed by positioning kinds are in pattern order. -/
theorem kindsInOrder_replicate (m n : Nat) :
    kindsInOrder false
      (List.replicate m (some SFFeatureKind.Substitution) ++
        List.replicate n (some SFFeatureKind.Positioning)) = true := by
  induction m with
  | zero => exact kindsInOrder_positioning n false
  | succ m ih =>
    rw [List.replicate_succ, List.cons_append]
    simp only [kindsInOrder, Bool.not_false, Bool.true_and]
    exact ih

/-- Covered ranges do not run backwards. -/
theorem rangesCover_le :
    ∀ (units : List SFFeatureUnit) (s n : Nat), RangesCover s units n → s ≤ n := by
  intro units
  induction units with
  | nil => intro s n h; exact le_of_eq h
  | cons u rest ih =>
    intro s n h
    have := ih _ _ h.2
    omega

/-- The covered ranges of two lists of units, one after the other, meet at one index. -/
theorem rangesCover_split :
    ∀ (us vs : List SFFeatureUnit) (s n : Nat), RangesCover s (us ++ vs) n →
      ∃ m, RangesCover s us m ∧ RangesCover m vs n := by
  intro us
  induction us with
  | nil => intro vs s n h; exact ⟨s, rfl, h⟩
  | cons u rest ih =>
    intro vs s n h
    obtain ⟨m, h1, h2⟩ := ih vs _ n h.2
    exact ⟨m, ⟨h.1, h1⟩, h2⟩

/-- Units whose ranges cover `[s, n)` cover exactly the tags from `s` up to `n`. -/
theorem coveredTags_of_rangesCover (tags : List Nat) :
    ∀ (units : List SFFeatureUnit) (s n : Nat), RangesCover s units n →
      coveredTags tags units = (tags.drop s).take (n - s) := by
  intro units
  induction units with
  | nil =>
    intro s n h
    have : s = n := h
    subst this
    simp [coveredTags]
  | cons u rest ih =>
    intro s n h
    have hle := rangesCover_le rest _ n h.2
    have hrest := ih _ n h.2
    simp only [coveredTags]
    rw [hrest, h.1]
    have hsum : n - s = u.coveredRange.count + (n - (s + u.coveredRange.count)) := by omega
    rw [hsum, List.take_add, List.drop_drop]


/-! ## Properties of the locator -/

/-- C1: on a fresh locator with state at most limit, `SFLocatorMoveNext` returns; it returns
true iff some index in `[state, limit)` is not ignored; when true, `index` is the smallest
such index and the new state is `index + 1`; when false the new state is the limit; and
jumping to the limit makes the following move-next return false. -/
theorem SFLocatorMoveNext_scan (a : SFAlbum) (l : SFLocator)
    (hv : l._version = a._version) (hs : l._stateIndex ≤ l._limitIndex) :
    (∃ b r, SFLocatorMoveNext a l = some (b, r) ∧
      (b = true ↔ ∃ i, l._stateIndex ≤ i ∧ i < l._limitIndex ∧
        _SFIsIgnoredGlyph a l i = false) ∧
      (b = true → l._stateIndex ≤ r.index ∧ r.index < l._limitIndex ∧
        _SFIsIgnoredGlyph a l r.index = false ∧
        (∀ j, l._stateIndex ≤ j → j < r.index → _SFIsIgnoredGlyph a l j = true) ∧
        r._stateIndex = r.index + 1) ∧
      (b = false → r._stateIndex = l._limitIndex)) ∧
    (∃ lj r, SFLocatorJumpTo a l l._limitIndex = some lj ∧
      SFLocatorMoveNext a lj = some (false, r) ∧ r._stateIndex = l._limitIndex) := by
  constructor
  · refine ⟨(moveNextLoop a (l._limitIndex - l._stateIndex) l).1,
      (moveNextLoop a (l._limitIndex - l._stateIndex) l).2, ?_, ?_, ?_, ?_⟩
    · simp [SFLocatorMoveNext, hs, hv]
    · rcases moveNextLoop_spec a _ l hs (le_refl _) with ⟨hb, h1, h2, h3, _, _⟩ | ⟨hb, h1, _⟩
      · exact ⟨fun _ => ⟨_, h1, h2, h3⟩, fun _ => hb⟩
      · constructor
        · intro h; rw [hb] at h; exact absurd h (by decide)
        · rintro ⟨i, hi1, hi2, hi3⟩
          rw [h1 i hi1 hi2] at hi3
          exact absurd hi3 (by decide)
    · intro hb
      rcases moveNextLoop_spec a _ l hs (le_refl _) with ⟨_, h1, h2, h3, h4, h5⟩ | ⟨hb2, _, _⟩
      · refine ⟨h1, h2, h3, h4, ?_⟩
        rw [h5]
      · rw [hb2] at hb; exact absurd hb (by decide)
    · intro hb
      rcases moveNextLoop_spec a _ l hs (le_refl _) with ⟨hb2, _, _, _, _, _⟩ | ⟨_, _, h5⟩
      · rw [hb2] at hb; exact absurd hb (by decide)
      · rw [h5]
  · refine ⟨{ l with _stateIndex := l._limitIndex }, { l with _stateIndex := l._limitIndex },
      ?_, ?_, rfl⟩
    · simp [SFLocatorJumpTo, hv]
    · simp [SFLocatorMoveNext, hv, moveNextLoop]

/-- Witness of C1 on the sample album: the first move-next yields slot 0. -/
theorem SFLocatorMoveNext_scan_witness :
    sampleLocator._version = sampleAlbum._version ∧
    sampleLocator._stateIndex ≤ sampleLocator._limitIndex ∧
    ∃ b r, SFLocatorMoveNext sampleAlbum sampleLocator = some (b, r) ∧
      (b = true ↔ ∃ i, sampleLocator._stateIndex ≤ i ∧ i < sampleLocator._limitIndex ∧
        _SFIsIgnoredGlyph sampleAlbum sampleLocator i = false) :=
  ⟨by decide, by decide,
    match (SFLocatorMoveNext_scan sampleAlbum sampleLocator (by decide) (by decide)).1 with
    | ⟨b, r, h1, h2, _⟩ => ⟨b, r, h1, h2⟩⟩


/-- C5 (as stated, refuted): on the sample album with range `[3, 4)` the call
`SFLocatorGetAfter(0)` passes its assertions and returns 2, an index outside
`[start, limit)`, although slot 3 is the smallest non-ignored index above 0 inside the
range. -/
theorem SFLocatorGetAfter_leaves_range :
    sampleTailLocator._version = sampleAlbum._version ∧
    0 < sampleTailLocator._limitIndex ∧
    SFLocatorGetAfter sampleAlbum sampleTailLocator 0 = some 2 ∧
    ¬ (sampleTailLocator._startIndex ≤ 2) ∧
    (sampleTailLocator._startIndex ≤ 3 ∧ 3 < sampleTailLocator._limitIndex ∧
      _SFIsIgnoredGlyph sampleAlbum sampleTailLocator 3 = false) := by
  decide

/-- C5 (amended): on a fresh locator whose limit is a machine word, for every `i < limit`
the call `SFLocatorGetAfter(i)` returns; the result is the smallest non-ignored index `j`
with `i < j < limit` when one exists (and then `j` is not the sentinel, and lies in
`[start, limit)` whenever `start ≤ i + 1`), and is `SFInvalidIndex` when none exists; in
particular the result at `limit - 1` is `SFInvalidIndex`. -/
theorem SFLocatorGetAfter_least (a : SFAlbum) (l : SFLocator) (i : Nat)
    (hv : l._version = a._version) (hw : l._limitIndex < SFUIntegerSize)
    (hi : i < l._limitIndex) :
    ∃ r, SFLocatorGetAfter a l i = some r ∧
      ((∃ j, i < j ∧ j < l._limitIndex ∧ _SFIsIgnoredGlyph a l j = false) →
        r ≠ SFInvalidIndex ∧ i < r ∧ r < l._limitIndex ∧ _SFIsIgnoredGlyph a l r = false ∧
        (∀ k, i < k → k < r → _SFIsIgnoredGlyph a l k = true) ∧
        (l._startIndex ≤ i + 1 → l._startIndex ≤ r)) ∧
      ((¬ ∃ j, i < j ∧ j < l._limitIndex ∧ _SFIsIgnoredGlyph a l j = false) →
        r = SFInvalidIndex) ∧
      (i + 1 = l._limitIndex → r = SFInvalidIndex) := by
  refine ⟨getAfterLoop a l (l._limitIndex - (i + 1)) (i + 1), ?_, ?_, ?_, ?_⟩
  · simp [SFLocatorGetAfter, hi, hv]
  · rintro ⟨j, hj1, hj2, hj3⟩
    rcases getAfterLoop_spec a l _ (i + 1) (le_refl _) with ⟨h1, h2, h3, h4⟩ | ⟨_, h2⟩
    · refine ⟨?_, by omega, h2, h3, fun k hk1 hk2 => h4 k (by omega) hk2, fun _ => by omega⟩
      unfold SFInvalidIndex
      omega
    · rw [h2 j (by omega) hj2] at hj3
      exact absurd hj3 (by decide)
  · intro hno
    rcases getAfterLoop_spec a l _ (i + 1) (le_refl _) with ⟨h1, h2, h3, _⟩ | ⟨h1, _⟩
    · exact absurd ⟨_, by omega, h2, h3⟩ hno
    · exact h1
  · intro hlast
    rcases getAfterLoop_spec a l _ (i + 1) (le_refl _) with ⟨h1, h2, _, _⟩ | ⟨h1, _⟩
    · omega
    · exact h1

/-- Witness of C5 (amended) on the sample album: the slot after 0 inside `[0, 4)`. -/
theorem SFLocatorGetAfter_least_witness :
    sampleLocator._version = sampleAlbum._version ∧
    sampleLocator._limitIndex < SFUIntegerSize ∧ 0 < sampleLocator._limitIndex ∧
    ∃ r, SFLocatorGetAfter sampleAlbum sampleLocator 0 = some r ∧
      ((¬ ∃ j, 0 < j ∧ j < sampleLocator._limitIndex ∧
          _SFIsIgnoredGlyph sampleAlbum sampleLocator j = false) → r = SFInvalidIndex) :=
  ⟨by decide, by decide, by decide,
    match SFLocatorGetAfter_least sampleAlbum sampleLocator 0 (by decide) (by decide)
      (by decide) with
    | ⟨r, h1, _, h3, _⟩ => ⟨r, h1, h3⟩⟩

/-- C6: on a fresh locator whose limit is a machine word, for every `i < limit` the call
`SFLocatorGetBefore(i)` returns; the result is the largest non-ignored index `j` with
`start ≤ j < i` (hence inside `[start, limit)`, and not the sentinel) when one exists, and
is `SFInvalidIndex` when none exists, in particular when `i ≤ start` and when `i = 0`. -/
theorem SFLocatorGetBefore_greatest (a : SFAlbum) (l : SFLocator) (i : Nat)
    (hv : l._version = a._version) (hw : l._limitIndex < SFUIntegerSize)
    (hi : i < l._limitIndex) :
    ∃ r, SFLocatorGetBefore a l i = some r ∧
      ((∃ j, l._startIndex ≤ j ∧ j < i ∧ _SFIsIgnoredGlyph a l j = false) →
        r ≠ SFInvalidIndex ∧ l._startIndex ≤ r ∧ r < i ∧ r < l._limitIndex ∧
        _SFIsIgnoredGlyph a l r = false ∧
        (∀ k, r < k → k < i → _SFIsIgnoredGlyph a l k = true)) ∧
      ((¬ ∃ j, l._startIndex ≤ j ∧ j < i ∧ _SFIsIgnoredGlyph a l j = false) →
        r = SFInvalidIndex) ∧
      (i ≤ l._startIndex → r = SFInvalidIndex) ∧
      (i = 0 → r = SFInvalidIndex) := by
  have hspec := getBeforeLoop_spec a l (i + 1) i (by omega) (by omega)
  have hno : (¬ ∃ j, l._startIndex ≤ j ∧ j < i ∧ _SFIsIgnoredGlyph a l j = false) →
      getBeforeLoop a l (i + 1) i = SFInvalidIndex := by
    intro hno
    rcases hspec with ⟨h1, h2, h3, _⟩ | ⟨h1, _⟩
    · exact absurd ⟨_, h1, h2, h3⟩ hno
    · exact h1
  refine ⟨getBeforeLoop a l (i + 1) i, ?_, ?_, hno, ?_, ?_⟩
  · simp [SFLocatorGetBefore, hi, hv]
  · rintro ⟨j, hj1, hj2, hj3⟩
    rcases hspec with ⟨h1, h2, h3, h4⟩ | ⟨_, h2⟩
    · refine ⟨?_, h1, h2, by omega, h3, h4⟩
      unfold SFInvalidIndex
      omega
    · rw [h2 j hj1 hj2] at hj3
      exact absurd hj3 (by decide)
  · intro hle
    apply hno
    rintro ⟨j, hj1, hj2, _⟩
    omega
  · intro h0
    apply hno
    rintro ⟨j, _, hj2, _⟩
    omega

/-- Witness of C6 on the sample album: stepping back from slot 2 skips the mark. -/
theorem SFLocatorGetBefore_greatest_witness :
    sampleLocator._version = sampleAlbum._version ∧
    sampleLocator._limitIndex < SFUIntegerSize ∧ 2 < sampleLocator._limitIndex ∧
    ∃ r, SFLocatorGetBefore sampleAlbum sampleLocator 2 = some r ∧
      (2 ≤ sampleLocator._startIndex → r = SFInvalidIndex) :=
  ⟨by decide, by decide, by decide,
    match SFLocatorGetBefore_greatest sampleAlbum sampleLocator 2 (by decide) (by decide)
      (by decide) with
    | ⟨r, h1, _, _, h4, _⟩ => ⟨r, h1, h4⟩⟩

/-- C7: when `start + count` is at most the album's slot count (a machine word),
`SFLocatorReset(start, count)` passes its assertion, every following sequence of
`SFLocatorMoveNext` / `SFLocatorSkip` calls runs without a failed assertion, and every
index it yields lies in `[start, start + count)`. -/
theorem SFLocatorReset_yields_in_range (a : SFAlbum) (l : SFLocator) (start count : Nat)
    (calls : List SFLocatorCall)
    (hlen : start + count ≤ a.glyphCount) (hw : a.glyphCount < SFUIntegerSize) :
    ∃ l0 ys r, SFLocatorReset a l start count = some l0 ∧
      runCalls a calls l0 = some (ys, r) ∧
      ∀ i ∈ ys, start ≤ i ∧ i < start + count := by
  have hmod : (start + count) % SFUIntegerSize = start + count :=
    Nat.mod_eq_of_lt (by omega)
  have hreset : SFLocatorReset a l start count = some
      { l with _version := a._version, _startIndex := start,
               _limitIndex := (start + count) % SFUIntegerSize, _stateIndex := start,
               index := SFInvalidIndex } := by
    have h1 : start ≤ a.glyphCount := by omega
    have h2 : start ≤ (start + count) % SFUIntegerSize := by rw [hmod]; omega
    simp [SFLocatorReset, h1, h2]
  have hin : InRange a start (start + count)
      { l with _version := a._version, _startIndex := start,
               _limitIndex := (start + count) % SFUIntegerSize, _stateIndex := start,
               index := SFInvalidIndex } :=
    ⟨rfl, rfl, hmod, le_refl _, by show start ≤ start + count; omega⟩
  obtain ⟨ys, r, hr, _, hys⟩ := runCalls_inRange a start (start + count) calls _ hin
  exact ⟨_, ys, r, hreset, hr, hys⟩

/-- Witness of C7: the sample album, reset to `[1, 4)`, then skip(1), move-next,
move-next. -/
theorem SFLocatorReset_yields_in_range_witness :
    1 + 3 ≤ sampleAlbum.glyphCount ∧ sampleAlbum.glyphCount < SFUIntegerSize ∧
    ∃ l0 ys r, SFLocatorReset sampleAlbum sampleLocator 1 3 = some l0 ∧
      runCalls sampleAlbum
        [SFLocatorCall.skip 1, SFLocatorCall.moveNext, SFLocatorCall.moveNext] l0
        = some (ys, r) ∧
      ∀ i ∈ ys, 1 ≤ i ∧ i < 1 + 3 :=
  ⟨by decide, by decide,
    SFLocatorReset_yields_in_range sampleAlbum sampleLocator 1 3
      [SFLocatorCall.skip 1, SFLocatorCall.moveNext, SFLocatorCall.moveNext]
      (by decide) (by decide)⟩

/-- C8: whenever `SFLocatorMoveNext` returns true with index `i`, the bitwise AND of the
locator's packed ignore mask (unchanged by the call) with the packed mask of album slot
`i` is zero. -/
theorem SFLocatorMoveNext_filter (a : SFAlbum) (l r : SFLocator)
    (h : SFLocatorMoveNext a l = some (true, r)) :
    l._ignoreMask.full &&& (a.glyphMask r.index).full = 0 ∧
    r._ignoreMask = l._ignoreMask := by
  rcases (SFLocatorMoveNext_some a l r true h).2.2 with ⟨_, _, _, h3, _, h5⟩ | ⟨hb, _, _⟩
  · constructor
    · by_contra hne
      have : _SFIsIgnoredGlyph a l r.index = true := by
        simp [_SFIsIgnoredGlyph, hne]
      rw [this] at h3
      exact absurd h3 (by decide)
    · rw [h5]
  · exact absurd hb (by decide)

/-- Witness of C8: the first move-next on the sample album. -/
theorem SFLocatorMoveNext_filter_witness :
    SFLocatorMoveNext sampleAlbum sampleLocator = some (true, sampleMoved) ∧
    sampleLocator._ignoreMask.full &&& (sampleAlbum.glyphMask sampleMoved.index).full = 0 :=
  ⟨rfl, (SFLocatorMoveNext_filter sampleAlbum sampleLocator sampleMoved rfl).1⟩

/-- C9: of two successive successful `SFLocatorMoveNext` calls on the same locator, the
second yields a strictly greater index than the first; this holds whatever happened to the
album and to the locator in between, as long as the state was not changed (no reset,
jump-to or take-state). -/
theorem SFLocatorMoveNext_increasing (a a2 : SFAlbum) (l l1 l1b l2 : SFLocator)
    (h1 : SFLocatorMoveNext a l = some (true, l1))
    (hs : l1b._stateIndex = l1._stateIndex)
    (h2 : SFLocatorMoveNext a2 l1b = some (true, l2)) :
    l1.index < l2.index := by
  rcases (SFLocatorMoveNext_some a l l1 true h1).2.2 with ⟨_, _, _, _, _, k5⟩ | ⟨hb, _, _⟩
  · rcases (SFLocatorMoveNext_some a2 l1b l2 true h2).2.2 with
      ⟨_, m1, _, _, _, _⟩ | ⟨hb, _, _⟩
    · have hst : l1._stateIndex = l1.index + 1 := by rw [k5]
      omega
    · exact absurd hb (by decide)
  · exact absurd hb (by decide)

/-- Witness of C9: the first two move-next calls on the sample album yield 0 and 2. -/
theorem SFLocatorMoveNext_increasing_witness :
    SFLocatorMoveNext sampleAlbum sampleLocator = some (true, sampleMoved) ∧
    SFLocatorMoveNext sampleAlbum sampleMoved = some (true, sampleMovedTwice) ∧
    sampleMoved.index < sampleMovedTwice.index :=
  ⟨rfl, rfl,
    SFLocatorMoveNext_increasing sampleAlbum sampleAlbum sampleLocator sampleMoved
      sampleMoved sampleMovedTwice rfl rfl rfl⟩

/-- C10 (as stated, refuted): a locator initialised without GDEF has no mark attachment
class definition; with lookup flag `0x0100` the mark in slot 1 of the sample album is not
ignored, although the mask test fails, the flag's high byte is non-zero, the slot has the
`Mark` trait and `class_of` gives no class equal to the high byte. -/
theorem isIgnored_without_classDef :
    sampleClassLocator = { SFLocatorSetLookupFlag (SFLocatorInitialize 1 none) 0x0100 with
      _version := 0, _startIndex := 0, _limitIndex := 4, _stateIndex := 0,
      index := SFInvalidIndex } ∧
    _SFIsIgnoredGlyph sampleAlbum sampleClassLocator 1 = false ∧
    sampleClassLocator._ignoreMask.full &&& (sampleAlbum.glyphMask 1).full = 0 ∧
    sampleClassLocator.lookupFlag >>> 8 ≠ 0 ∧
    (sampleAlbum.glyphMask 1).glyphTraits &&& SFGlyphTraitMark ≠ 0 ∧
    class_of sampleClassLocator._markAttachClassDef (sampleAlbum.glyph 1)
      ≠ some (sampleClassLocator.lookupFlag >>> 8) ∧
    ¬ (_SFIsIgnoredGlyph sampleAlbum sampleClassLocator 1 = true ↔
        (sampleClassLocator._ignoreMask.full &&& (sampleAlbum.glyphMask 1).full ≠ 0 ∨
          (sampleClassLocator.lookupFlag >>> 8 ≠ 0 ∧
            (sampleAlbum.glyphMask 1).glyphTraits &&& SFGlyphTraitMark ≠ 0 ∧
            class_of sampleClassLocator._markAttachClassDef (sampleAlbum.glyph 1)
              ≠ some (sampleClassLocator.lookupFlag >>> 8)))) := by
  refine ⟨rfl, by decide, by decide, by decide, by decide, by decide, ?_⟩
  intro h
  have hr := h.mpr (Or.inr ⟨by decide, by decide, by decide⟩)
  exact absurd hr (by decide)

/-- C10 (amended): for every locator with a 16-bit lookup flag and every album index `i`,
`_SFIsIgnoredGlyph(i)` is true iff `(ignore_mask & album[i].mask) != 0`, or the lookup
flag's high byte is non-zero and the locator has a mark attachment class definition and
slot `i` has the `Mark` trait and the class the definition gives glyph `i` differs from
the high byte (no class found counts as different). -/
theorem isIgnored_iff (a : SFAlbum) (l : SFLocator) (i : Nat)
    (hflag : l.lookupFlag < 65536) :
    _SFIsIgnoredGlyph a l i = true ↔
      (l._ignoreMask.full &&& (a.glyphMask i).full ≠ 0 ∨
        (l.lookupFlag >>> 8 ≠ 0 ∧ l._markAttachClassDef.isSome = true ∧
          (a.glyphMask i).glyphTraits &&& SFGlyphTraitMark ≠ 0 ∧
          class_of l._markAttachClassDef (a.glyph i) ≠ some (l.lookupFlag >>> 8))) := by
  rw [← markAttachmentType_ne_zero_iff l.lookupFlag hflag]
  unfold _SFIsIgnoredGlyph class_of
  by_cases hm : l._ignoreMask.full &&& (a.glyphMask i).full ≠ 0
  · simp [hm]
  · by_cases hf : l.lookupFlag &&& SFLookupFlagMarkAttachmentType ≠ 0
    · cases hcd : l._markAttachClassDef with
      | none => simp [hm, hf]
      | some classDef =>
        by_cases ht : (a.glyphMask i).glyphTraits &&& SFGlyphTraitMark ≠ 0
        · cases hc : classDef (a.glyph i) with
          | none => simp [hm, hf, ht, hc]
          | some c => simp [hm, hf, ht, hc]
        · simp [hm, hf, ht]
    · simp [hm, hf]

/-- Witness of C10 (amended): the mark in slot 1 of the sample album under `IgnoreMarks`. -/
theorem isIgnored_iff_witness :
    sampleLocator.lookupFlag < 65536 ∧
    (_SFIsIgnoredGlyph sampleAlbum sampleLocator 1 = true ↔
      (sampleLocator._ignoreMask.full &&& (sampleAlbum.glyphMask 1).full ≠ 0 ∨
        (sampleLocator.lookupFlag >>> 8 ≠ 0 ∧ sampleLocator._markAttachClassDef.isSome = true ∧
          (sampleAlbum.glyphMask 1).glyphTraits &&& SFGlyphTraitMark ≠ 0 ∧
          class_of sampleLocator._markAttachClassDef (sampleAlbum.glyph 1)
            ≠ some (sampleLocator.lookupFlag >>> 8)))) :=
  ⟨by decide, isIgnored_iff sampleAlbum sampleLocator 1 (by decide)⟩

/-! ## Properties of the chained-context applier -/

/-- C2: on a fresh processor locator positioned at an index `p` below its (machine-word)
limit, `_SFApplyChainContextF3` returns true iff the subtable matches at `p` in the words
of the specification: a match with last input index `last` makes the call hand over to
`_SFApplyContextRecord` on the span `(p, last - p + 1)` and return true with whatever
processor that leaves, whatever the nested lookups did; without a match the call returns
false. -/
theorem applyChainContextF3_iff_matches
    (applyLookup : Nat → SFTextProcessor → Option SFTextProcessor)
    (p : SFTextProcessor) (cc : SFChainContextF3)
    (hv : p._locator._version = p._album._version)
    (hw : p._locator._limitIndex < SFUIntegerSize)
    (hi : p._locator.index < p._locator._limitIndex) :
    (∀ last, ChainMatchesAt p._album p._locator cc p._locator.index last →
      _SFApplyChainContextF3 applyLookup p cc =
        (_SFApplyContextRecord applyLookup p cc.contextRecord p._locator.index
          ((last - p._locator.index) + 1)).map (fun r => (true, r))) ∧
    (¬ ChainMatches p._album p._locator cc p._locator.index →
      _SFApplyChainContextF3 applyLookup p cc = some (false, p)) ∧
    (∀ b r, _SFApplyChainContextF3 applyLookup p cc = some (b, r) →
      (b = true ↔ ChainMatches p._album p._locator cc p._locator.index)) := by
  have hA : ∀ last, ChainMatchesAt p._album p._locator cc p._locator.index last →
      _SFApplyChainContextF3 applyLookup p cc =
        (_SFApplyContextRecord applyLookup p cc.contextRecord p._locator.index
          ((last - p._locator.index) + 1)).map (fun r => (true, r)) := by
    rintro last ⟨c0, rest, hin, hc0, ins, backs, aheads, hins, hlast, hbacks, haheads⟩
    have h1 := matchAfterLoop_of_steps p._album p._locator rest _ ins hins
    rw [hlast] at h1
    have h2 := matchBeforeLoop_of_steps p._album p._locator _ _ backs hbacks
    have h3 := matchAfterLoop_of_steps p._album p._locator _ _ aheads haheads
    unfold _SFApplyChainContextF3
    rw [hin]
    simp only [ne_eq, hc0, not_false_eq_true, if_true, h1, h2, h3]
    cases _SFApplyContextRecord applyLookup p cc.contextRecord p._locator.index
      ((last - p._locator.index) + 1) with
    | none => rfl
    | some r => rfl
  have hB : ¬ ChainMatches p._album p._locator cc p._locator.index →
      _SFApplyChainContextF3 applyLookup p cc = some (false, p) := by
    intro hno
    unfold _SFApplyChainContextF3
    cases hin : cc.inputRecord with
    | nil => rfl
    | cons c0 rest =>
      simp only
      by_cases hc0 : c0 (p._album.glyph p._locator.index) = SFInvalidIndex
      · simp [hc0]
      · simp only [ne_eq, hc0, not_false_eq_true, if_true]
        obtain ⟨res1, hres1, hq1⟩ :=
          matchAfterLoop_returns p._album p._locator hv rest _ hi
        rw [hres1]
        cases res1 with
        | none => rfl
        | some q =>
          simp only
          obtain ⟨res2, hres2⟩ :=
            matchBeforeLoop_returns p._album p._locator hv hw cc.backtrackRecord _ hi
          rw [hres2]
          cases res2 with
          | none => rfl
          | some q2 =>
            simp only
            obtain ⟨res3, hres3, _⟩ :=
              matchAfterLoop_returns p._album p._locator hv cc.lookaheadRecord q
                (hq1 q rfl).2
            rw [hres3]
            cases res3 with
            | none => rfl
            | some q3 =>
              exfalso
              apply hno
              obtain ⟨ins, hins, hlast⟩ :=
                steps_of_matchAfterLoop p._album p._locator rest _ q hres1
              obtain ⟨backs, hbacks⟩ :=
                steps_of_matchBeforeLoop p._album p._locator _ _ q2 hres2
              obtain ⟨aheads, haheads, _⟩ :=
                steps_of_matchAfterLoop p._album p._locator _ _ q3 hres3
              exact ⟨q, c0, rest, hin, hc0, ins, backs, aheads, hins, hlast, hbacks,
                haheads⟩
  refine ⟨hA, hB, ?_⟩
  intro b r hres
  by_cases hm : ChainMatches p._album p._locator cc p._locator.index
  · obtain ⟨last, hlast⟩ := hm
    have := hA last hlast
    rw [this] at hres
    cases hrec : _SFApplyContextRecord applyLookup p cc.contextRecord p._locator.index
      ((last - p._locator.index) + 1) with
    | none => rw [hrec] at hres; exact absurd hres (by simp)
    | some r1 =>
      rw [hrec] at hres
      have hb : true = b := by
        have := congrArg (fun o => o.map Prod.fst) hres
        simpa using this
      exact ⟨fun _ => ⟨last, hlast⟩, fun _ => hb.symm⟩
  · have := hB hm
    rw [this] at hres
    have hb : false = b := by
      have := congrArg (fun o => o.map Prod.fst) hres
      simpa using this
    constructor
    · intro h; rw [← hb] at h; exact absurd h (by decide)
    · intro h; exact absurd h hm

/-- Witness of C2: the end-to-end scenario, the outer traversal at `B` (index 2). -/
theorem applyChainContextF3_iff_matches_witness :
    sampleProcessor._locator._version = sampleProcessor._album._version ∧
    sampleProcessor._locator._limitIndex < SFUIntegerSize ∧
    sampleProcessor._locator.index < sampleProcessor._locator._limitIndex ∧
    _SFApplyChainContextF3 drainLookup sampleProcessor sampleChain
      = some (true, sampleAfterDrain) ∧
    ChainMatches sampleProcessor._album sampleProcessor._locator sampleChain
      sampleProcessor._locator.index :=
  ⟨by decide, by decide, by decide, rfl,
    ((applyChainContextF3_iff_matches drainLookup sampleProcessor sampleChain
      (by decide) (by decide) (by decide)).2.2 true sampleAfterDrain rfl).mp rfl⟩

/-- C3: for every context record and every behaviour of the nested lookups, when
`_SFApplyContextRecord` returns, the processor's locator equals the locator saved before
the call in every field except the state, and its state is the state of the span-scoped
locator left by the loop over the lookup records. -/
theorem applyContextRecord_restores
    (applyLookup : Nat → SFTextProcessor → Option SFTextProcessor)
    (p r : SFTextProcessor) (records : List SFLookupRecord) (index count : Nat)
    (h : _SFApplyContextRecord applyLookup p records index count = some r) :
    ∃ q, contextRecordLoop applyLookup index count records p = some q ∧
      r._locator = { p._locator with _stateIndex := q._locator._stateIndex } ∧
      r._locator._album = p._locator._album ∧
      r._locator._startIndex = p._locator._startIndex ∧
      r._locator._limitIndex = p._locator._limitIndex ∧
      r._locator._version = p._locator._version ∧
      r._locator.index = p._locator.index ∧
      r._locator._ignoreMask = p._locator._ignoreMask ∧
      r._locator.lookupFlag = p._locator.lookupFlag ∧
      r._locator._markAttachClassDef = p._locator._markAttachClassDef ∧
      r._locator._markGlyphSetsDef = p._locator._markGlyphSetsDef ∧
      r._locator._stateIndex = q._locator._stateIndex := by
  obtain ⟨q, hq, _, _, hr⟩ := applyContextRecord_some applyLookup p r records index count h
  subst hr
  exact ⟨q, hq, rfl, rfl, rfl, rfl, rfl, rfl, rfl, rfl, rfl, rfl, rfl⟩

/-- Witness of C3: the scenario's record on the span `[2, 4)` with a nested lookup that
runs the cursor to the end of the span. -/
theorem applyContextRecord_restores_witness :
    _SFApplyContextRecord drainLookup sampleProcessor sampleChain.contextRecord 2 2
      = some sampleAfterDrain ∧
    ∃ q, contextRecordLoop drainLookup 2 2 sampleChain.contextRecord sampleProcessor
        = some q ∧
      sampleAfterDrain._locator
        = { sampleProcessor._locator with _stateIndex := q._locator._stateIndex } :=
  ⟨rfl,
    match applyContextRecord_restores drainLookup sampleProcessor sampleAfterDrain
      sampleChain.contextRecord 2 2 rfl with
    | ⟨q, h1, h2, _⟩ => ⟨q, h1, h2⟩⟩

/-- C4: for every successful chained-context match at position `p` on a fresh locator
(outer state `p + 1` before the call, `p` below the machine-word limit), with nested
lookups that consume a glyph of the span (`_SFApplyLookup` is not in the sources: run on a
span locator with start `p` and state at least `p`, the lookup leaves the state beyond `p`,
as a lookup does that moves the cursor with `SFLocatorMoveNext` to the glyph it works on),
after `_SFApplyChainContextF3` returns true the outer locator's state is not smaller than
it was before the call, and the next `SFLocatorMoveNext` yields neither `p` nor an earlier
index. -/
theorem applyChainContextF3_state_advances
    (applyLookup : Nat → SFTextProcessor → Option SFTextProcessor)
    (p r : SFTextProcessor) (cc : SFChainContextF3)
    (hv : p._locator._version = p._album._version)
    (hw : p._locator._limitIndex < SFUIntegerSize)
    (hi : p._locator.index < p._locator._limitIndex)
    (hst : p._locator._stateIndex = p._locator.index + 1)
    (hadv : ∀ k q q1, q._locator._startIndex = p._locator.index →
      p._locator.index ≤ q._locator._stateIndex →
      p._locator.index < q._locator._limitIndex →
      applyLookup k q = some q1 → p._locator.index < q1._locator._stateIndex)
    (h : _SFApplyChainContextF3 applyLookup p cc = some (true, r)) :
    p._locator._stateIndex ≤ r._locator._stateIndex ∧
    ∀ r2, SFLocatorMoveNext r._album r._locator = some (true, r2) →
      p._locator.index < r2.index := by
  have hstate : p._locator._stateIndex ≤ r._locator._stateIndex := by
    unfold _SFApplyChainContextF3 at h
    cases hin : cc.inputRecord with
    | nil => rw [hin] at h; simp at h
    | cons c0 rest =>
      rw [hin] at h
      simp only at h
      by_cases hc0 : c0 (p._album.glyph p._locator.index) = SFInvalidIndex
      · simp [hc0] at h
      · simp only [ne_eq, hc0, not_false_eq_true, if_true] at h
        obtain ⟨res1, hres1, hq1⟩ := matchAfterLoop_returns p._album p._locator hv rest _ hi
        rw [hres1] at h
        cases res1 with
        | none => simp at h
        | some q =>
          simp only at h
          obtain ⟨hq_lo, hq_hi⟩ := hq1 q rfl
          cases hb : matchBeforeLoop p._album p._locator cc.backtrackRecord
              p._locator.index with
          | none => rw [hb] at h; simp at h
          | some res2 =>
            rw [hb] at h
            cases res2 with
            | none => simp at h
            | some q2 =>
              simp only at h
              cases ha : matchAfterLoop p._album p._locator cc.lookaheadRecord q with
              | none => rw [ha] at h; simp at h
              | some res3 =>
                rw [ha] at h
                cases res3 with
                | none => simp at h
                | some q3 =>
                  simp only at h
                  cases hrec : _SFApplyContextRecord applyLookup p cc.contextRecord
                      p._locator.index ((q - p._locator.index) + 1) with
                  | none => rw [hrec] at h; simp at h
                  | some r1 =>
                    rw [hrec] at h
                    simp only [Option.some.injEq, Prod.mk.injEq, true_and] at h
                    subst h
                    obtain ⟨q0, hloop, _, _, hr⟩ :=
                      applyContextRecord_some applyLookup p r1 _ _ _ hrec
                    have hrs : r1._locator._stateIndex = q0._locator._stateIndex := by
                      rw [hr]
                    rw [hrs]
                    by_cases hnil : cc.contextRecord = []
                    · rw [hnil] at hloop
                      simp only [contextRecordLoop, Option.some.injEq] at hloop
                      rw [← hloop]
                    · have hsum : p._locator.index + ((q - p._locator.index) + 1) = q + 1 := by
                        omega
                      have hspan : p._locator.index <
                          (p._locator.index + ((q - p._locator.index) + 1))
                            % SFUIntegerSize := by
                        rw [hsum, Nat.mod_eq_of_lt (by omega)]
                        omega
                      have := contextRecordLoop_state applyLookup _ _ hspan hadv
                        cc.contextRecord p q0 hnil hloop
                      omega
  refine ⟨hstate, ?_⟩
  intro r2 hm
  rcases (SFLocatorMoveNext_some r._album r._locator r2 true hm).2.2 with
    ⟨_, m1, _⟩ | ⟨hb, _⟩
  · omega
  · exact absurd hb (by decide)

/-- Witness of C4: the end-to-end scenario. The nested lookup moves to `B` in slot 2 and
rewrites it to `B′`; the outer state is 3 before and after the call, and the next
`SFLocatorMoveNext` yields `C` in slot 3. -/
theorem applyChainContextF3_state_advances_witness :
    sampleProcessor._locator._version = sampleProcessor._album._version ∧
    sampleProcessor._locator._limitIndex < SFUIntegerSize ∧
    sampleProcessor._locator.index < sampleProcessor._locator._limitIndex ∧
    sampleProcessor._locator._stateIndex = sampleProcessor._locator.index + 1 ∧
    _SFApplyChainContextF3 substituteLookup sampleProcessor sampleChain
      = some (true, sampleAfterSubstitute) ∧
    sampleAfterSubstitute._album.glyph 2 = 166 ∧
    sampleAfterSubstitute._locator._stateIndex = 3 ∧
    SFLocatorMoveNext sampleAfterSubstitute._album sampleAfterSubstitute._locator
      = some (true, { sampleMovedTwice with _stateIndex := 4, index := 3 }) ∧
    (sampleProcessor._locator._stateIndex ≤ sampleAfterSubstitute._locator._stateIndex ∧
      ∀ r2, SFLocatorMoveNext sampleAfterSubstitute._album sampleAfterSubstitute._locator
          = some (true, r2) → sampleProcessor._locator.index < r2.index) :=
  ⟨by decide, by decide, by decide, by decide, rfl, by decide, rfl, rfl,
    applyChainContextF3_state_advances substituteLookup sampleProcessor
      sampleAfterSubstitute sampleChain (by decide) (by decide) (by decide) (by decide)
      (by
        intro k q q1 _ hst hlim hq
        unfold substituteLookup at hq
        cases hm : SFLocatorMoveNext q._album q._locator with
        | none => rw [hm] at hq; exact absurd hq (by simp)
        | some br =>
          obtain ⟨b, l1⟩ := br
          rw [hm] at hq
          have hmv := SFLocatorMoveNext_some q._album q._locator l1 b hm
          cases b
          · simp only [Option.some.injEq] at hq
            rw [← hq]
            rcases hmv.2.2 with ⟨hb, _⟩ | ⟨_, _, h5⟩
            · exact absurd hb (by decide)
            · show sampleProcessor._locator.index < l1._stateIndex
              rw [h5]
              exact hlim
          · simp only [Option.some.injEq] at hq
            rw [← hq]
            rcases hmv.2.2 with ⟨_, m1, _, _, _, h5⟩ | ⟨hb, _⟩
            · have e3 : l1._stateIndex = l1.index + 1 := by rw [h5]
              show sampleProcessor._locator.index < l1._stateIndex
              omega
            · exact absurd hb (by decide))
      rfl⟩

/-- C11: for every lookup flag `f` and every prior locator, after
`SFLocatorSetLookupFlag(f)` the ignored-traits half of the ignore mask is exactly the
union of `Base` if `f` has `IgnoreBaseGlyphs`, `Ligature` if `f` has `IgnoreLigatures`,
`Mark` if `f` has `IgnoreMarks`, and `Removed` (always present, nothing kept from an
earlier flag); the stored lookup flag is `f`; the feature-mask half of the ignore mask
and every other field of the locator are unchanged. -/
theorem SFLocatorSetLookupFlag_traits (l : SFLocator) (f : Nat) :
    (SFLocatorSetLookupFlag l f)._ignoreMask.glyphTraits =
      ((((if f &&& SFLookupFlagIgnoreBaseGlyphs ≠ 0 then SFGlyphTraitBase else 0) |||
        (if f &&& SFLookupFlagIgnoreLigatures ≠ 0 then SFGlyphTraitLigature else 0)) |||
        (if f &&& SFLookupFlagIgnoreMarks ≠ 0 then SFGlyphTraitMark else 0)) |||
        SFGlyphTraitRemoved) ∧
    ((SFLocatorSetLookupFlag l f)._ignoreMask.glyphTraits &&& SFGlyphTraitBase ≠ 0 ↔
      f &&& SFLookupFlagIgnoreBaseGlyphs ≠ 0) ∧
    ((SFLocatorSetLookupFlag l f)._ignoreMask.glyphTraits &&& SFGlyphTraitLigature ≠ 0 ↔
      f &&& SFLookupFlagIgnoreLigatures ≠ 0) ∧
    ((SFLocatorSetLookupFlag l f)._ignoreMask.glyphTraits &&& SFGlyphTraitMark ≠ 0 ↔
      f &&& SFLookupFlagIgnoreMarks ≠ 0) ∧
    (SFLocatorSetLookupFlag l f)._ignoreMask.glyphTraits &&& SFGlyphTraitRemoved ≠ 0 ∧
    (SFLocatorSetLookupFlag l f).lookupFlag = f ∧
    (SFLocatorSetLookupFlag l f)._ignoreMask.featureMask = l._ignoreMask.featureMask ∧
    SFLocatorSetLookupFlag l f =
      { l with lookupFlag := f, _ignoreMask := (SFLocatorSetLookupFlag l f)._ignoreMask } ∧
    (SFLocatorSetLookupFlag l f)._startIndex = l._startIndex ∧
    (SFLocatorSetLookupFlag l f)._limitIndex = l._limitIndex ∧
    (SFLocatorSetLookupFlag l f)._stateIndex = l._stateIndex ∧
    (SFLocatorSetLookupFlag l f).index = l.index ∧
    (SFLocatorSetLookupFlag l f)._version = l._version := by
  have htraits : (SFLocatorSetLookupFlag l f)._ignoreMask.glyphTraits =
      ((((if f &&& SFLookupFlagIgnoreBaseGlyphs ≠ 0 then SFGlyphTraitBase else 0) |||
        (if f &&& SFLookupFlagIgnoreLigatures ≠ 0 then SFGlyphTraitLigature else 0)) |||
        (if f &&& SFLookupFlagIgnoreMarks ≠ 0 then SFGlyphTraitMark else 0)) |||
        SFGlyphTraitRemoved) := by
    unfold SFLocatorSetLookupFlag
    simp only
    split_ifs <;> (rw [glyphTraits_setGlyphTraits] <;> decide)
  refine ⟨htraits, ?_, ?_, ?_, ?_, rfl, featureMask_setGlyphTraits _ _, rfl, rfl, rfl, rfl,
    rfl, rfl⟩
  · rw [htraits]
    split_ifs <;> simp_all <;> decide
  · rw [htraits]
    split_ifs <;> simp_all <;> decide
  · rw [htraits]
    split_ifs <;> simp_all <;> decide
  · rw [htraits]
    split_ifs <;> simp_all <;> decide

/-- C12 (as stated, refuted): on the sample album the locator with range `[3, 4)` and
state 3 satisfies `start ≤ state ≤ limit`; `SFLocatorJumpTo(0)` passes its assertions and
leaves state 0, below the start. -/
theorem SFLocatorJumpTo_below_start :
    sampleTailLocator._startIndex ≤ sampleTailLocator._stateIndex ∧
    sampleTailLocator._stateIndex ≤ sampleTailLocator._limitIndex ∧
    SFLocatorJumpTo sampleAlbum sampleTailLocator 0 = some sampleJumped ∧
    SFLocatorOp.run sampleAlbum sampleTailLocator (SFLocatorOp.jumpTo 0)
      = some (sampleAlbum, sampleJumped) ∧
    ¬ (sampleJumped._startIndex ≤ sampleJumped._stateIndex) :=
  ⟨by decide, by decide, rfl, rfl, by decide⟩

/-- C12 (amended): `start ≤ state ≤ limit` holds after every accepted `SFLocatorReset`,
and is preserved by `SFLocatorMoveNext`, `SFLocatorSkip`, `SFLocatorSetFeatureMask` and
`SFLocatorSetLookupFlag` always, by `SFLocatorJumpTo` and `SFLocatorTakeState` when the
target index (the sibling's state) is not below the start, and by
`SFLocatorReserveGlyphs` when the extended limit does not wrap; the start is never
changed. -/
theorem stateInRange_invariant (a : SFAlbum) (l : SFLocator) :
    (∀ index count l0, SFLocatorReset a l index count = some l0 → StateInRange l0) ∧
    (∀ op a1 l1, StateInRange l → SFLocatorOp.KeepsRange l op →
      SFLocatorOp.run a l op = some (a1, l1) →
      StateInRange l1 ∧ l1._startIndex = l._startIndex) := by
  constructor
  · intro index count l0 h
    unfold SFLocatorReset at h
    split at h
    · rename_i hc
      simp only [Option.some.injEq] at h
      rw [← h]
      exact ⟨le_refl _, hc.2⟩
    · exact absurd h (by simp)
  · intro op a1 l1 hinv hside hrun
    obtain ⟨h1, h2⟩ := hinv
    cases op with
    | moveNext =>
      simp only [SFLocatorOp.run, Option.map_eq_some', Prod.mk.injEq] at hrun
      obtain ⟨⟨b, r⟩, hm, _, hr⟩ := hrun
      simp only at hr
      subst hr
      rcases (SFLocatorMoveNext_some a l r b hm).2.2 with ⟨_, m1, m2, _, _, h5⟩ | ⟨_, _, h5⟩
      · have e1 : r._startIndex = l._startIndex := by rw [h5]
        have e2 : r._limitIndex = l._limitIndex := by rw [h5]
        have e3 : r._stateIndex = r.index + 1 := by rw [h5]
        exact ⟨⟨by omega, by omega⟩, e1⟩
      · rw [h5]
        exact ⟨⟨by show l._startIndex ≤ l._limitIndex; omega, le_refl _⟩, rfl⟩
    | skip n =>
      simp only [SFLocatorOp.run, Option.map_eq_some', Prod.mk.injEq] at hrun
      obtain ⟨⟨b, r⟩, hs, _, hr⟩ := hrun
      simp only at hr
      subst hr
      obtain ⟨s1, _, s3, _⟩ := SFLocatorSkip_some a n l r b hs
      have s5 := SFLocatorSkip_state_le a n l r b hs h2
      exact ⟨⟨by omega, s5⟩, s1⟩
    | jumpTo i =>
      simp only [SFLocatorOp.run, Option.map_eq_some', Prod.mk.injEq] at hrun
      obtain ⟨r, hj, _, hr⟩ := hrun
      subst hr
      unfold SFLocatorJumpTo at hj
      split at hj
      · rename_i hc
        simp only [Option.some.injEq] at hj
        rw [← hj]
        exact ⟨⟨hside, hc.1⟩, rfl⟩
      · exact absurd hj (by simp)
    | takeState s =>
      simp only [SFLocatorOp.run, Option.map_eq_some', Prod.mk.injEq] at hrun
      obtain ⟨r, hj, _, hr⟩ := hrun
      subst hr
      unfold SFLocatorTakeState at hj
      split at hj
      · rename_i hc
        simp only [Option.some.injEq] at hj
        rw [← hj]
        exact ⟨⟨hside, hc.2⟩, rfl⟩
      · exact absurd hj (by simp)
    | reserveGlyphs n =>
      simp only [SFLocatorOp.run] at hrun
      unfold SFLocatorReserveGlyphs at hrun
      split at hrun
      · simp only [Option.some.injEq, Prod.mk.injEq] at hrun
        rw [← hrun.2]
        have hside1 : l._limitIndex + n < SFUIntegerSize := hside
        refine ⟨⟨h1, ?_⟩, rfl⟩
        show l._stateIndex ≤ (l._limitIndex + n) % SFUIntegerSize
        rw [Nat.mod_eq_of_lt hside1]
        omega
      · exact absurd hrun (by simp)
    | setFeatureMask m =>
      simp only [SFLocatorOp.run, Option.some.injEq, Prod.mk.injEq] at hrun
      rw [← hrun.2]
      exact ⟨⟨h1, h2⟩, rfl⟩
    | setLookupFlag f =>
      simp only [SFLocatorOp.run, Option.some.injEq, Prod.mk.injEq] at hrun
      rw [← hrun.2]
      exact ⟨⟨h1, h2⟩, rfl⟩

/-- Witness of C12 (amended): a jump to the limit on the locator with range `[3, 4)`. -/
theorem stateInRange_invariant_witness :
    StateInRange sampleTailLocator ∧
    SFLocatorOp.KeepsRange sampleTailLocator (SFLocatorOp.jumpTo 4) ∧
    SFLocatorOp.run sampleAlbum sampleTailLocator (SFLocatorOp.jumpTo 4)
      = some (sampleAlbum, { sampleTailLocator with _stateIndex := 4 }) ∧
    StateInRange { sampleTailLocator with _stateIndex := 4 } :=
  ⟨⟨by decide, by decide⟩, by show 3 ≤ 4; decide, rfl,
    ((stateInRange_invariant sampleAlbum sampleTailLocator).2 (SFLocatorOp.jumpTo 4)
      sampleAlbum { sampleTailLocator with _stateIndex := 4 }
      ⟨by decide, by decide⟩ (by show 3 ≤ 4; decide) rfl).1⟩

/-- C13 (the code at the failing input): in the end-to-end scenario with a nested lookup
that reserves one glyph on the span locator, `_SFApplyChainContextF3` returns true and the
restored locator keeps version 0 and limit 4 while the album has version 1 and 5 slots;
the next `SFLocatorMoveNext` of the outer loop fails its version assertion. -/
theorem applyContextRecord_leaves_stale_locator :
    sampleProcessor._locator._version = sampleProcessor._album._version ∧
    (_SFApplyChainContextF3 reserveLookup sampleProcessor sampleChain).map
      (fun r => (r.1, r.2._locator._version, r.2._album._version, r.2._locator._limitIndex,
        r.2._album.glyphCount, (SFLocatorMoveNext r.2._album r.2._locator).isNone))
      = some (true, 0, 1, 4, 5, true) := by
  decide

/-- C14 (as stated, refuted): on a locator whose cached version (7) differs from the
album's (0), `SFLocatorTakeState` passes its assertions and changes the state from 0 to 1,
and `SFLocatorSkip(0)` returns true without any assertion. -/
theorem SFLocatorTakeState_on_stale :
    sampleStale._version ≠ sampleAlbum._version ∧
    SFLocatorTakeState sampleStale sampleMoved
      = some { sampleStale with _stateIndex := 1 } ∧
    sampleStale._stateIndex ≠ 1 ∧
    SFLocatorSkip sampleAlbum 0 sampleStale = some (true, sampleStale) :=
  ⟨by decide, rfl, by decide, rfl⟩

/-- C14 (amended): on a locator whose cached version differs from the album's version,
`SFLocatorMoveNext`, `SFLocatorSkip` with a count of at least one, `SFLocatorJumpTo`,
`SFLocatorGetAfter`, `SFLocatorGetBefore` and `SFLocatorReserveGlyphs` fail their
assertion, so that nothing is modified; `SFLocatorSkip(0)` returns true and leaves the
locator unchanged; `SFLocatorTakeState` does not look at the version: it copies the
sibling's state whenever both locators belong to the same album and the sibling's state
is at most the limit. -/
theorem stale_locator_operations (a : SFAlbum) (l : SFLocator)
    (hstale : l._version ≠ a._version) :
    SFLocatorMoveNext a l = none ∧
    (∀ n, SFLocatorSkip a (n + 1) l = none) ∧
    SFLocatorSkip a 0 l = some (true, l) ∧
    (∀ i, SFLocatorJumpTo a l i = none) ∧
    (∀ i, SFLocatorGetAfter a l i = none) ∧
    (∀ i, SFLocatorGetBefore a l i = none) ∧
    (∀ n, SFLocatorReserveGlyphs a l n = none) ∧
    (∀ s, l._album = s._album → s._stateIndex ≤ l._limitIndex →
      SFLocatorTakeState l s = some { l with _stateIndex := s._stateIndex }) ∧
    (∀ s, ¬ (l._album = s._album ∧ s._stateIndex ≤ l._limitIndex) →
      SFLocatorTakeState l s = none) := by
  have hm : SFLocatorMoveNext a l = none := by simp [SFLocatorMoveNext, hstale]
  refine ⟨hm, ?_, rfl, ?_, ?_, ?_, ?_, ?_, ?_⟩
  · intro n
    simp [SFLocatorSkip, hm]
  · intro i
    simp [SFLocatorJumpTo, hstale]
  · intro i
    simp [SFLocatorGetAfter, hstale]
  · intro i
    simp [SFLocatorGetBefore, hstale]
  · intro n
    simp [SFLocatorReserveGlyphs, hstale]
  · intro s h1 h2
    unfold SFLocatorTakeState
    rw [if_pos ⟨h1, h2⟩]
  · intro s h
    unfold SFLocatorTakeState
    rw [if_neg h]

/-- Witness of C14 (amended): the stale sample locator. -/
theorem stale_locator_operations_witness :
    sampleStale._version ≠ sampleAlbum._version ∧
    SFLocatorMoveNext sampleAlbum sampleStale = none ∧
    (∀ i, SFLocatorJumpTo sampleAlbum sampleStale i = none) :=
  ⟨by decide,
    (stale_locator_operations sampleAlbum sampleStale (by decide)).1,
    (stale_locator_operations sampleAlbum sampleStale (by decide)).2.2.2.1⟩

/-- C15 (as stated, refuted): on the sample album with 4 slots, `SFLocatorReset(0, 10)`
passes its assertion although `0 + 10` exceeds the slot count, and the limit 10 lies
beyond the album. -/
theorem SFLocatorReset_beyond_album :
    sampleAlbum.glyphCount = 4 ∧
    SFLocatorReset sampleAlbum sampleLocator 0 10
      = some { sampleLocator with _limitIndex := 10 } ∧
    ¬ (0 + 10 ≤ sampleAlbum.glyphCount) :=
  ⟨rfl, rfl, by decide⟩

/-- C15 (amended): for machine words `start` and `count`, `SFLocatorReset(start, count)`
passes its assertion iff `start` is at most the album's glyph count and `start + count`
does not overflow; after every accepted reset the range is `[start, start + count)` with
the state at the start, no index, and the album's version; when moreover
`start + count` is at most the glyph count, the limit is at most the album length and
every index in `[start, limit)` is a valid album slot. -/
theorem SFLocatorReset_accepts_iff (a : SFAlbum) (l : SFLocator) (start count : Nat)
    (hs : start < SFUIntegerSize) (hc : count < SFUIntegerSize) :
    ((∃ l0, SFLocatorReset a l start count = some l0) ↔
      (start ≤ a.glyphCount ∧ start + count < SFUIntegerSize)) ∧
    (∀ l0, SFLocatorReset a l start count = some l0 →
      l0._startIndex = start ∧ l0._limitIndex = start + count ∧ l0._stateIndex = start ∧
      l0.index = SFInvalidIndex ∧ l0._version = a._version ∧
      (start + count ≤ a.glyphCount →
        l0._limitIndex ≤ a.glyphCount ∧
        ∀ i, l0._startIndex ≤ i → i < l0._limitIndex → i < a.glyphCount)) := by
  have hiff := le_add_mod_iff start count hs hc
  constructor
  · constructor
    · rintro ⟨l0, h⟩
      unfold SFLocatorReset at h
      split at h
      · rename_i hcond
        exact ⟨hcond.1, hiff.mp hcond.2⟩
      · exact absurd h (by simp)
    · rintro ⟨h1, h2⟩
      have hcond : start ≤ a.glyphCount ∧ start ≤ (start + count) % SFUIntegerSize :=
        ⟨h1, hiff.mpr h2⟩
      unfold SFLocatorReset
      rw [if_pos hcond]
      exact ⟨_, rfl⟩
  · intro l0 h
    unfold SFLocatorReset at h
    split at h
    · rename_i hcond
      have hno := hiff.mp hcond.2
      simp only [Option.some.injEq] at h
      rw [← h]
      have hlim : (start + count) % SFUIntegerSize = start + count := Nat.mod_eq_of_lt hno
      refine ⟨rfl, hlim, rfl, rfl, rfl, ?_⟩
      intro hle
      refine ⟨by show (start + count) % SFUIntegerSize ≤ a.glyphCount; omega, ?_⟩
      intro i _ hi
      have : i < (start + count) % SFUIntegerSize := hi
      omega
    · exact absurd h (by simp)

/-- Witness of C15 (amended): the reset of the sample locator to `[1, 4)`. -/
theorem SFLocatorReset_accepts_iff_witness :
    1 < SFUIntegerSize ∧ 3 < SFUIntegerSize ∧
    ((∃ l0, SFLocatorReset sampleAlbum sampleLocator 1 3 = some l0) ↔
      (1 ≤ sampleAlbum.glyphCount ∧ 1 + 3 < SFUIntegerSize)) :=
  ⟨by decide, by decide,
    (SFLocatorReset_accepts_iff sampleAlbum sampleLocator 1 3 (by decide) (by decide)).1⟩

/-- C16: whenever `_SFApplyChainContextF3` returns false, the processor (album and
locator with all their fields) is exactly as before the call, whatever the nested lookups
would do; with input count 0 the call returns false, and no coverage is consulted. -/
theorem applyChainContextF3_notMatched_unchanged
    (applyLookup : Nat → SFTextProcessor → Option SFTextProcessor)
    (p : SFTextProcessor) (cc : SFChainContextF3) :
    (∀ r, _SFApplyChainContextF3 applyLookup p cc = some (false, r) → r = p) ∧
    (cc.inputRecord = [] → _SFApplyChainContextF3 applyLookup p cc = some (false, p)) := by
  constructor
  · intro r h
    unfold _SFApplyChainContextF3 at h
    cases hin : cc.inputRecord with
    | nil =>
      rw [hin] at h
      simp only [Option.some.injEq, Prod.mk.injEq, true_and] at h
      exact h.symm
    | cons c0 rest =>
      rw [hin] at h
      simp only at h
      by_cases hc0 : c0 (p._album.glyph p._locator.index) = SFInvalidIndex
      · simp only [ne_eq, hc0, not_true_eq_false, if_false, Option.some.injEq, Prod.mk.injEq,
          true_and] at h
        exact h.symm
      · simp only [ne_eq, hc0, not_false_eq_true, if_true] at h
        cases h1 : matchAfterLoop p._album p._locator rest p._locator.index with
        | none => rw [h1] at h; exact absurd h (by simp)
        | some res1 =>
          rw [h1] at h
          cases res1 with
          | none =>
            simp only [Option.some.injEq, Prod.mk.injEq, true_and] at h
            exact h.symm
          | some q =>
            simp only at h
            cases h2 : matchBeforeLoop p._album p._locator cc.backtrackRecord
                p._locator.index with
            | none => rw [h2] at h; exact absurd h (by simp)
            | some res2 =>
              rw [h2] at h
              cases res2 with
              | none =>
                simp only [Option.some.injEq, Prod.mk.injEq, true_and] at h
                exact h.symm
              | some q2 =>
                simp only at h
                cases h3 : matchAfterLoop p._album p._locator cc.lookaheadRecord q with
                | none => rw [h3] at h; exact absurd h (by simp)
                | some res3 =>
                  rw [h3] at h
                  cases res3 with
                  | none =>
                    simp only [Option.some.injEq, Prod.mk.injEq, true_and] at h
                    exact h.symm
                  | some q3 =>
                    simp only at h
                    cases h4 : _SFApplyContextRecord applyLookup p cc.contextRecord
                        p._locator.index ((q - p._locator.index) + 1) with
                    | none => rw [h4] at h; exact absurd h (by simp)
                    | some r1 =>
                      rw [h4] at h
                      simp at h
  · intro hin
    unfold _SFApplyChainContextF3
    rw [hin]

/-- Witness of C16: the scenario's subtable while the outer traversal visits `A`, which the
first input coverage does not cover. -/
theorem applyChainContextF3_notMatched_unchanged_witness :
    _SFApplyChainContextF3 reserveLookup sampleProcessorAtA sampleChain
      = some (false, sampleProcessorAtA) ∧
    ∀ r, _SFApplyChainContextF3 reserveLookup sampleProcessorAtA sampleChain
      = some (false, r) → r = sampleProcessorAtA :=
  ⟨rfl,
    (applyChainContextF3_notMatched_unchanged reserveLookup sampleProcessorAtA
      sampleChain).1⟩

/-- C19: for every extension subtable, `_SFApplyExtensionSubtable` with format 1 returns
exactly what the inner applier selected by the processor's feature kind returns for the
inner lookup type read from the subtable and the view at the extension offset relative to
the extension subtable; for every other format it returns false and leaves the processor
as it was, whatever the appliers are. -/
theorem applyExtensionSubtable_dispatch
    (applySubstitution applyPositioning :
      SFTextProcessor → Nat → Nat → Option (Bool × SFTextProcessor))
    (p : SFTextProcessor) (ext : SFExtension) :
    (ext.format = 1 → p._featureKind = SFFeatureKind.Substitution →
      _SFApplyExtensionSubtable applySubstitution applyPositioning p ext
        = applySubstitution p ext.lookupType (ext.address + ext.extensionOffset)) ∧
    (ext.format = 1 → p._featureKind = SFFeatureKind.Positioning →
      _SFApplyExtensionSubtable applySubstitution applyPositioning p ext
        = applyPositioning p ext.lookupType (ext.address + ext.extensionOffset)) ∧
    (ext.format ≠ 1 →
      _SFApplyExtensionSubtable applySubstitution applyPositioning p ext
        = some (false, p)) := by
  refine ⟨?_, ?_, ?_⟩
  · intro hf hk
    simp [_SFApplyExtensionSubtable, hf, hk, SFData_Subdata]
  · intro hf hk
    simp [_SFApplyExtensionSubtable, hf, hk, SFData_Subdata]
  · intro hf
    simp [_SFApplyExtensionSubtable, hf]

/-- Witness of C19: a format-1 extension at address 100 with inner lookup type 4 and
offset 8, on a substitution processor, with an applier that reports its subtable
address as applied only at 108. -/
theorem applyExtensionSubtable_dispatch_witness :
    ({ address := 100, format := 1, lookupType := 4, extensionOffset := 8 } :
      SFExtension).format = 1 ∧
    sampleProcessor._featureKind = SFFeatureKind.Substitution ∧
    _SFApplyExtensionSubtable
      (fun q lookupType inner => some (decide (lookupType = 4 ∧ inner = 108), q))
      (fun _ _ _ => none) sampleProcessor
      { address := 100, format := 1, lookupType := 4, extensionOffset := 8 }
      = some (true, sampleProcessor) :=
  ⟨rfl, rfl,
    (applyExtensionSubtable_dispatch
      (fun q lookupType inner => some (decide (lookupType = 4 ∧ inner = 108), q))
      (fun _ _ _ => none) sampleProcessor
      { address := 100, format := 1, lookupType := 4, extensionOffset := 8 }).1 rfl rfl⟩

/-- C20: for every locator and every `n`, `SFLocatorSkip(n)` does what up to `n` calls of
`SFLocatorMoveNext`, stopped at the first failure, do: it returns true with locator `r`
iff `n` successive calls succeed and lead to `r`; it returns false with locator `r` iff
fewer than `n` calls succeed and the next one returns false leaving `r`; it fails an
assertion iff the first call that does not succeed fails one; and `skip(0)` returns true
leaving the locator unchanged. -/
theorem SFLocatorSkip_refines_moveNext (a : SFAlbum) (n : Nat) (l : SFLocator) :
    (∀ r, SFLocatorSkip a n l = some (true, r) ↔ MoveNextChain a n l r) ∧
    (∀ r, SFLocatorSkip a n l = some (false, r) ↔
      ∃ k m, k < n ∧ MoveNextChain a k l m ∧ SFLocatorMoveNext a m = some (false, r)) ∧
    (SFLocatorSkip a n l = none ↔
      ∃ k m, k < n ∧ MoveNextChain a k l m ∧ SFLocatorMoveNext a m = none) ∧
    SFLocatorSkip a 0 l = some (true, l) :=
  ⟨(SFLocatorSkip_outcomes a n l).1, (SFLocatorSkip_outcomes a n l).2.1,
    (SFLocatorSkip_outcomes a n l).2.2, rfl⟩

/-- Witness of C20: `skip(2)` on the sample locator is the two successful move-next calls
that yield 0 and 2. -/
theorem SFLocatorSkip_refines_moveNext_witness :
    SFLocatorSkip sampleAlbum 2 sampleLocator = some (true, sampleMovedTwice) ∧
    MoveNextChain sampleAlbum 2 sampleLocator sampleMovedTwice :=
  ⟨rfl,
    ((SFLocatorSkip_refines_moveNext sampleAlbum 2 sampleLocator).1 sampleMovedTwice).mp
      rfl⟩

/-! ## Properties of the pattern builder -/

/-- C17: for every sequence of `add_feature` / `add_lookup` calls on an empty accumulator
that is sealed by `make_feature_unit`, with lookup indexes in any order and with
repetitions, the unit that is appended has a strictly ascending `lookup_indexes` whose
values are exactly the lookup indexes added for the features of the unit. -/
theorem makeFeatureUnit_lookupIndexes (b : SFPatternBuilder) (calls : List SFFeatureCall)
    (hopen : b._features = []) :
    ∃ u, (SFPatternBuilderMakeFeatureUnit (runFeatureCalls calls b))._pattern.featureUnits
        = b._pattern.featureUnits ++ [u] ∧
      u.lookupIndexes.Pairwise (fun x y => x < y) ∧
      ∀ x, x ∈ u.lookupIndexes ↔ x ∈ addedLookups false calls := by
  obtain ⟨h1, _, h3⟩ := runFeatureCalls_spec calls b false
    ⟨fun h => absurd h (by decide), fun h => absurd hopen h⟩
  obtain ⟨k1, k2⟩ := insertAll_spec (allLookups (runFeatureCalls calls b)._features) []
    List.Pairwise.nil
  refine ⟨{ lookupIndexes := unionLookups (runFeatureCalls calls b)._features,
             coveredRange :=
               { start := (runFeatureCalls calls b)._pattern.featureTags.length,
                 count := (runFeatureCalls calls b)._features.length },
             featureMask := unionMask (runFeatureCalls calls b)._features }, ?_, k1, ?_⟩
  · show (runFeatureCalls calls b)._pattern.featureUnits ++ [_] = _
    rw [h1]
  · intro x
    show x ∈ insertAll (allLookups (runFeatureCalls calls b)._features) [] ↔ _
    rw [k2 x, h3 x, hopen]
    simp [allLookups]

/-- Witness of C17: the test with an index collision in the feature unit; lookups
7, 3, 5, 1, 0 and 2, 1, 4, 7, 6 give 0, 1, 2, 3, 4, 5, 6, 7. -/
theorem makeFeatureUnit_lookupIndexes_witness :
    sampleBuilder._features = [] ∧
    (SFPatternBuilderMakeFeatureUnit
      (runFeatureCalls callsLookupCollision sampleBuilder))._pattern.featureUnits
      = [{ lookupIndexes := [0, 1, 2, 3, 4, 5, 6, 7]
           coveredRange := { start := 0, count := 2 }
           featureMask := 0 }] ∧
    ∃ u, (SFPatternBuilderMakeFeatureUnit
        (runFeatureCalls callsLookupCollision sampleBuilder))._pattern.featureUnits
        = sampleBuilder._pattern.featureUnits ++ [u] ∧
      u.lookupIndexes.Pairwise (fun x y => x < y) ∧
      ∀ x, x ∈ u.lookupIndexes ↔ x ∈ addedLookups false callsLookupCollision :=
  ⟨rfl, by decide, makeFeatureUnit_lookupIndexes sampleBuilder callsLookupCollision rfl⟩

/-- C18 (as stated, refuted). First part: a run that seals a positioning unit before a
substitution unit gives the tags `dist`, `ccmp`, the unit ranges `(0, 1)`, `(1, 1)` and
the counts (1, 1): the first unit of the pattern was sealed under Positioning and covers
the positioning tag, so the units in order are not the GSUB units followed by the GPOS
units. Second part: a run that seals a unit without `begin_features` gives one tag and
one unit with counts (0, 0): the pattern has more units than `gsub + gpos`, and the GSUB and
GPOS units together cover no tag. -/
theorem builder_units_out_of_order :
    ((runBuilder callsPositioningFirst (SFPatternBuilderInitialize SFPatternCreate)).map
        (fun b => (b._pattern.featureTags,
          b._pattern.featureUnits.map (fun u => u.coveredRange),
          b._pattern.gsub, b._pattern.gpos))
        = some ([SFTagMake 'd' 'i' 's' 't', SFTagMake 'c' 'c' 'm' 'p'],
            [{ start := 0, count := 1 }, { start := 1, count := 1 }], 1, 1) ∧
      sealedUnits callsPositioningFirst none []
        = [(some SFFeatureKind.Positioning, [SFTagMake 'd' 'i' 's' 't']),
           (some SFFeatureKind.Substitution, [SFTagMake 'c' 'c' 'm' 'p'])] ∧
      (sealedUnits callsPositioningFirst none []).map Prod.fst
        ≠ List.replicate 1 (some SFFeatureKind.Substitution) ++
          List.replicate 1 (some SFFeatureKind.Positioning)) ∧
    ((runBuilder callsWithoutKind (SFPatternBuilderInitialize SFPatternCreate)).map
        (fun b => (b._pattern.featureTags,
          b._pattern.featureUnits.map (fun u => u.coveredRange),
          b._pattern.gsub, b._pattern.gpos))
        = some ([SFTagMake 'c' 'c' 'm' 'p'], [{ start := 0, count := 1 }], 0, 0) ∧
      sealedUnits callsWithoutKind none [] = [(none, [SFTagMake 'c' 'c' 'm' 'p'])] ∧
      (runBuilder callsWithoutKind (SFPatternBuilderInitialize SFPatternCreate)).map
        (fun b => decide
          (b._pattern.featureUnits.length = b._pattern.gsub + b._pattern.gpos))
        = some false) := by
  decide

/-- C18 (amended): for every pattern produced by the builder from an empty pattern (any
sequence of builder calls whose preconditions hold, followed by `build`), the covered
ranges of its feature units, in the order the units were sealed, are adjacent and
non-overlapping, start at 0 and end at the number of feature tags; the feature tags are
the tags of the sealed units in insertion order; each unit's count is the number of
features added since the previous seal; and `gsub` / `gpos` are the numbers of units
sealed under each kind. The units in order are the GSUB units followed by the GPOS units,
`gsub` and `gpos` of them, exactly when every unit was sealed under a kind and no
substitution unit after a positioning unit; then the pattern has `gsub + gpos` units, the
ranges of the first `gsub` units cover a prefix of the feature tags and the ranges of the
other units cover the remainder. Without any call the pattern has no tags, no units and
counts (0, 0). -/
theorem builder_units_partition (calls : List SFBuilderCall) :
    (∀ b, runBuilder calls (SFPatternBuilderInitialize SFPatternCreate) = some b →
      RangesCover 0 (SFPatternBuilderBuild b)._pattern.featureUnits
        (SFPatternBuilderBuild b)._pattern.featureTags.length ∧
      (SFPatternBuilderBuild b)._pattern.featureTags
        = sealedTags (sealedUnits calls none []) ∧
      (SFPatternBuilderBuild b)._pattern.featureUnits.map (fun u => u.coveredRange.count)
        = (sealedUnits calls none []).map (fun s => s.2.length) ∧
      (SFPatternBuilderBuild b)._pattern.gsub
        = sealedCount SFFeatureKind.Substitution (sealedUnits calls none []) ∧
      (SFPatternBuilderBuild b)._pattern.gpos
        = sealedCount SFFeatureKind.Positioning (sealedUnits calls none []) ∧
      (kindsInOrder false ((sealedUnits calls none []).map Prod.fst) = true ↔
        (sealedUnits calls none []).map Prod.fst =
          List.replicate (SFPatternBuilderBuild b)._pattern.gsub
            (some SFFeatureKind.Substitution) ++
          List.replicate (SFPatternBuilderBuild b)._pattern.gpos
            (some SFFeatureKind.Positioning)) ∧
      (kindsInOrder false ((sealedUnits calls none []).map Prod.fst) = true →
        (SFPatternBuilderBuild b)._pattern.featureUnits.length
          = (SFPatternBuilderBuild b)._pattern.gsub + (SFPatternBuilderBuild b)._pattern.gpos ∧
        ∃ n,
          RangesCover 0
            ((SFPatternBuilderBuild b)._pattern.featureUnits.take
              (SFPatternBuilderBuild b)._pattern.gsub) n ∧
          RangesCover n
            ((SFPatternBuilderBuild b)._pattern.featureUnits.drop
              (SFPatternBuilderBuild b)._pattern.gsub)
            (SFPatternBuilderBuild b)._pattern.featureTags.length ∧
          coveredTags (SFPatternBuilderBuild b)._pattern.featureTags
              ((SFPatternBuilderBuild b)._pattern.featureUnits.take
                (SFPatternBuilderBuild b)._pattern.gsub)
            = (SFPatternBuilderBuild b)._pattern.featureTags.take n ∧
          coveredTags (SFPatternBuilderBuild b)._pattern.featureTags
              ((SFPatternBuilderBuild b)._pattern.featureUnits.drop
                (SFPatternBuilderBuild b)._pattern.gsub)
            = (SFPatternBuilderBuild b)._pattern.featureTags.drop n)) ∧
    ((SFPatternBuilderBuild (SFPatternBuilderInitialize SFPatternCreate))._pattern.featureTags
        = [] ∧
      (SFPatternBuilderBuild (SFPatternBuilderInitialize SFPatternCreate))._pattern.featureUnits
        = [] ∧
      (SFPatternBuilderBuild (SFPatternBuilderInitialize SFPatternCreate))._pattern.gsub = 0 ∧
      (SFPatternBuilderBuild (SFPatternBuilderInitialize SFPatternCreate))._pattern.gpos = 0) := by
  refine ⟨?_, rfl, rfl, rfl, rfl⟩
  intro b h
  obtain ⟨units, k1, k2, k3, k4, k5, k6⟩ :=
    runBuilder_units calls (SFPatternBuilderInitialize SFPatternCreate) b h
  have e1 : (SFPatternBuilderBuild b)._pattern.featureUnits = units := by
    show b._pattern.featureUnits = units
    rw [k1]; rfl
  have e2 : (SFPatternBuilderBuild b)._pattern.featureTags
      = sealedTags (sealedUnits calls none []) := by
    show b._pattern.featureTags = _
    rw [k2]; rfl
  have e3 : (SFPatternBuilderBuild b)._pattern.gsub
      = sealedCount SFFeatureKind.Substitution (sealedUnits calls none []) := by
    show b._gsubCount = _
    rw [k5]
    exact Nat.zero_add _
  have e4 : (SFPatternBuilderBuild b)._pattern.gpos
      = sealedCount SFFeatureKind.Positioning (sealedUnits calls none []) := by
    show b._gposCount = _
    rw [k6]
    exact Nat.zero_add _
  have e5 : RangesCover 0 units (SFPatternBuilderBuild b)._pattern.featureTags.length := k4
  have k3a : units.map (fun u => u.coveredRange.count)
      = (sealedUnits calls none []).map (fun s => s.2.length) := k3
  have hfwd : kindsInOrder false ((sealedUnits calls none []).map Prod.fst) = true →
      (sealedUnits calls none []).map Prod.fst =
        List.replicate (SFPatternBuilderBuild b)._pattern.gsub
          (some SFFeatureKind.Substitution) ++
        List.replicate (SFPatternBuilderBuild b)._pattern.gpos
          (some SFFeatureKind.Positioning) := by
    intro hord
    rw [e3, e4]
    exact (kinds_of_kindsInOrder _ false hord).1
  refine ⟨?_, e2, ?_, e3, e4, ⟨hfwd, ?_⟩, ?_⟩
  · rw [e1]
    exact e5
  · rw [e1]
    exact k3a
  · intro hk
    rw [hk]
    exact kindsInOrder_replicate _ _
  · intro hord
    have hlen : units.length
        = (SFPatternBuilderBuild b)._pattern.gsub + (SFPatternBuilderBuild b)._pattern.gpos := by
      have h1 := congrArg List.length k3a
      have h2 := congrArg List.length (hfwd hord)
      simp only [List.length_map, List.length_append, List.length_replicate] at h1 h2
      omega
    rw [e1]
    refine ⟨hlen, ?_⟩
    have hsplit : RangesCover 0
        (units.take (SFPatternBuilderBuild b)._pattern.gsub ++
          units.drop (SFPatternBuilderBuild b)._pattern.gsub)
        (SFPatternBuilderBuild b)._pattern.featureTags.length := by
      rw [List.take_append_drop]
      exact e5
    obtain ⟨n, c1, c2⟩ := rangesCover_split _ _ _ _ hsplit
    refine ⟨n, c1, c2, ?_, ?_⟩
    · rw [coveredTags_of_rangesCover _ _ _ _ c1]
      simp
    · rw [coveredTags_of_rangesCover _ _ _ _ c2]
      apply List.take_of_length_le
      simp

/-- Witness of C18 (amended): the calls of `testSimultaneousFeatures` give the pattern the
test expects: six tags, one GSUB unit covering `(0, 3)` and one GPOS unit covering
`(3, 3)`, both with mask 7, counts (1, 1); the units were sealed in pattern order, the
first unit covers the first three tags and the second unit the other three. -/
theorem builder_units_partition_witness :
    runBuilder callsSimultaneousFeatures (SFPatternBuilderInitialize SFPatternCreate)
      = some sampleBuilt ∧
    (SFPatternBuilderBuild sampleBuilt)._pattern =
      { font := 0
        featureTags := [SFTagMake 'c' 'c' 'm' 'p', SFTagMake 'l' 'i' 'g' 'a',
          SFTagMake 'c' 'l' 'i' 'g', SFTagMake 'd' 'i' 's' 't', SFTagMake 'k' 'e' 'r' 'n',
          SFTagMake 'm' 'a' 'r' 'k']
        featureUnits :=
          [{ lookupIndexes := [], coveredRange := { start := 0, count := 3 },
             featureMask := 7 },
           { lookupIndexes := [], coveredRange := { start := 3, count := 3 },
             featureMask := 7 }]
        gsub := 1
        gpos := 1
        scriptTag := 0
        languageTag := 0
        defaultDirection := SFTextDirection.LeftToRight } ∧
    kindsInOrder false ((sealedUnits callsSimultaneousFeatures none []).map Prod.fst) = true ∧
    coveredTags (SFPatternBuilderBuild sampleBuilt)._pattern.featureTags
        ((SFPatternBuilderBuild sampleBuilt)._pattern.featureUnits.take 1)
      = [SFTagMake 'c' 'c' 'm' 'p', SFTagMake 'l' 'i' 'g' 'a', SFTagMake 'c' 'l' 'i' 'g'] ∧
    RangesCover 0 (SFPatternBuilderBuild sampleBuilt)._pattern.featureUnits
      (SFPatternBuilderBuild sampleBuilt)._pattern.featureTags.length ∧
    (SFPatternBuilderBuild sampleBuilt)._pattern.featureUnits.length
      = (SFPatternBuilderBuild sampleBuilt)._pattern.gsub
        + (SFPatternBuilderBuild sampleBuilt)._pattern.gpos :=
  ⟨by decide, by decide, by decide, by decide,
    ((builder_units_partition callsSimultaneousFeatures).1 sampleBuilt (by decide)).1,
    (((builder_units_partition callsSimultaneousFeatures).1 sampleBuilt
      (by decide)).2.2.2.2.2.2 (by decide)).1⟩

/-! ## Look-ahead and traversal -/

/-- C25: on a locator whose limit is a machine word, if `SFLocatorMoveNext` has just
returned true with index `i`, then `SFLocatorGetAfter(i)` returns, the next
`SFLocatorMoveNext` returns, and the look-ahead is the index that move-next yields when it
returns true, and the sentinel exactly when it returns false. -/
theorem SFLocatorGetAfter_agrees_with_moveNext (a : SFAlbum) (l l1 : SFLocator)
    (hw : l._limitIndex < SFUIntegerSize)
    (h : SFLocatorMoveNext a l = some (true, l1)) :
    ∃ g b l2, SFLocatorGetAfter a l1 l1.index = some g ∧
      SFLocatorMoveNext a l1 = some (b, l2) ∧
      (b = true → g = l2.index) ∧
      (g = SFInvalidIndex ↔ b = false) := by
  obtain ⟨hs, hv, hcase⟩ := SFLocatorMoveNext_some a l l1 true h
  rcases hcase with ⟨_, m1, m2, _, _, m5⟩ | ⟨hb, _, _⟩
  · have e1 : l1._limitIndex = l._limitIndex := by rw [m5]
    have e2 : l1._stateIndex = l1.index + 1 := by rw [m5]
    have e3 : l1._version = a._version := by rw [m5]; exact hv
    have hcongr : ∀ k, _SFIsIgnoredGlyph a l1 k = _SFIsIgnoredGlyph a l k := by
      intro k; rw [m5]; rfl
    obtain ⟨g, hg⟩ := SFLocatorGetAfter_returns a l1 l1.index e3 (by omega)
    obtain ⟨b, l2, hm2⟩ := SFLocatorMoveNext_returns a l1 e3 (by omega)
    refine ⟨g, b, l2, hg, hm2, ?_, ?_⟩
    · intro hb
      rw [hb] at hm2
      rcases (SFLocatorMoveNext_some a l1 l2 true hm2).2.2 with
        ⟨_, n1, n2, n3, n4, _⟩ | ⟨hb2, _, _⟩
      · by_cases hgi : g = SFInvalidIndex
        · rw [hgi] at hg
          have := SFLocatorGetAfter_sentinel a l1 l1.index (by omega) hg l2.index
            (by omega) n2
          rw [this] at n3
          exact absurd n3 (by decide)
        · obtain ⟨g1, g2, g3, g4⟩ := SFLocatorGetAfter_real a l1 l1.index g hg hgi
          by_contra hne
          rcases Nat.lt_or_gt_of_ne hne with hlt | hgt
          · have := n4 g (by omega) hlt
            rw [this] at g3
            exact absurd g3 (by decide)
          · have := g4 l2.index (by omega) hgt
            rw [this] at n3
            exact absurd n3 (by decide)
      · exact absurd hb2 (by decide)
    · constructor
      · intro hgi
        rw [hgi] at hg
        cases b with
        | false => rfl
        | true =>
          rcases (SFLocatorMoveNext_some a l1 l2 true hm2).2.2 with
            ⟨_, n1, n2, n3, _, _⟩ | ⟨hb2, _, _⟩
          · have := SFLocatorGetAfter_sentinel a l1 l1.index (by omega) hg l2.index
              (by omega) n2
            rw [this] at n3
            exact absurd n3 (by decide)
          · exact absurd hb2 (by decide)
      · intro hb
        rw [hb] at hm2
        rcases (SFLocatorMoveNext_some a l1 l2 false hm2).2.2 with
          ⟨hb2, _⟩ | ⟨_, n1, _⟩
        · exact absurd hb2 (by decide)
        · by_contra hgi
          obtain ⟨g1, g2, g3, _⟩ := SFLocatorGetAfter_real a l1 l1.index g hg hgi
          have := n1 g (by omega) g2
          rw [this] at g3
          exact absurd g3 (by decide)
  · exact absurd hb (by decide)

/-- Witness of C25: after the first move-next on the sample album (index 0) the look-ahead
and the next move-next both give 2. -/
theorem SFLocatorGetAfter_agrees_with_moveNext_witness :
    sampleLocator._limitIndex < SFUIntegerSize ∧
    SFLocatorMoveNext sampleAlbum sampleLocator = some (true, sampleMoved) ∧
    SFLocatorGetAfter sampleAlbum sampleMoved sampleMoved.index = some 2 ∧
    ∃ g b l2, SFLocatorGetAfter sampleAlbum sampleMoved sampleMoved.index = some g ∧
      SFLocatorMoveNext sampleAlbum sampleMoved = some (b, l2) ∧
      (b = true → g = l2.index) ∧
      (g = SFInvalidIndex ↔ b = false) :=
  ⟨by decide, rfl, by decide,
    SFLocatorGetAfter_agrees_with_moveNext sampleAlbum sampleLocator sampleMoved
      (by decide) rfl⟩

/-- C26: on a fresh locator whose limit is a machine word, for every non-ignored index
`i` in `[start, limit)`: if `SFLocatorGetAfter(i)` is a real index `j` then
`SFLocatorGetBefore(j) = i`, and if `SFLocatorGetBefore(i)` is a real index `h` then
`SFLocatorGetAfter(h) = i`. -/
theorem SFLocatorGetBefore_inverts_getAfter (a : SFAlbum) (l : SFLocator) (i : Nat)
    (hv : l._version = a._version) (hw : l._limitIndex < SFUIntegerSize)
    (hstart : l._startIndex ≤ i) (hi : i < l._limitIndex)
    (hign : _SFIsIgnoredGlyph a l i = false) :
    (∀ j, SFLocatorGetAfter a l i = some j → j ≠ SFInvalidIndex →
      SFLocatorGetBefore a l j = some i) ∧
    (∀ h, SFLocatorGetBefore a l i = some h → h ≠ SFInvalidIndex →
      SFLocatorGetAfter a l h = some i) := by
  have hiw : i ≠ SFInvalidIndex := by
    unfold SFInvalidIndex
    omega
  constructor
  · intro j hj hjr
    obtain ⟨j1, j2, j3, j4⟩ := SFLocatorGetAfter_real a l i j hj hjr
    obtain ⟨r, hr⟩ := SFLocatorGetBefore_returns a l j hv j2
    by_cases hrr : r = SFInvalidIndex
    · exfalso
      rw [hrr] at hr
      unfold SFLocatorGetBefore at hr
      split at hr
      · have hloop : getBeforeLoop a l (j + 1) j = SFInvalidIndex := by simpa using hr
        rcases getBeforeLoop_spec a l (j + 1) j (by omega) (by omega) with
          ⟨_, h2, _, _⟩ | ⟨_, h2⟩
        · rw [hloop] at h2
          unfold SFInvalidIndex at h2
          omega
        · have := h2 i hstart j1
          rw [this] at hign
          exact absurd hign (by decide)
      · exact absurd hr (by simp)
    · obtain ⟨r1, r2, r3, r4⟩ := SFLocatorGetBefore_real a l j r hw hr hrr
      have hri : r = i := by
        by_contra hne
        rcases Nat.lt_or_gt_of_ne hne with hlt | hgt
        · have := r4 i hlt j1
          rw [this] at hign
          exact absurd hign (by decide)
        · have := j4 r hgt r2
          rw [this] at r3
          exact absurd r3 (by decide)
      rw [hr, hri]
  · intro h hh hhr
    obtain ⟨h1, h2, h3, h4⟩ := SFLocatorGetBefore_real a l i h hw hh hhr
    obtain ⟨r, hr⟩ := SFLocatorGetAfter_returns a l h hv (by omega)
    by_cases hrr : r = SFInvalidIndex
    · exfalso
      rw [hrr] at hr
      have := SFLocatorGetAfter_sentinel a l h hw hr i h2 hi
      rw [this] at hign
      exact absurd hign (by decide)
    · obtain ⟨r1, r2, r3, r4⟩ := SFLocatorGetAfter_real a l h r hr hrr
      have hri : r = i := by
        by_contra hne
        rcases Nat.lt_or_gt_of_ne hne with hlt | hgt
        · have := h4 r r1 hlt
          rw [this] at r3
          exact absurd r3 (by decide)
        · have := r4 i h2 hgt
          rw [this] at hign
          exact absurd hign (by decide)
      rw [hr, hri]

/-- Witness of C26: on the sample album the look-ahead from 0 is 2 and the look-behind
from 2 is 0 (the mark in slot 1 is skipped both ways). -/
theorem SFLocatorGetBefore_inverts_getAfter_witness :
    sampleLocator._version = sampleAlbum._version ∧
    sampleLocator._limitIndex < SFUIntegerSize ∧
    sampleLocator._startIndex ≤ 0 ∧ 0 < sampleLocator._limitIndex ∧
    _SFIsIgnoredGlyph sampleAlbum sampleLocator 0 = false ∧
    SFLocatorGetAfter sampleAlbum sampleLocator 0 = some 2 ∧
    SFLocatorGetBefore sampleAlbum sampleLocator 2 = some 0 :=
  ⟨by decide, by decide, by decide, by decide, by decide, by decide,
    (SFLocatorGetBefore_inverts_getAfter sampleAlbum sampleLocator 0 (by decide) (by decide)
      (by decide) (by decide) (by decide)).1 2 (by decide) (by decide)⟩

/-- C21: `SFLocatorGetAfter` and `SFLocatorGetBefore` are pure queries: for every album,
locator and index argument, the calls with the state passed along fail or return exactly
as `SFLocatorGetAfter` / `SFLocatorGetBefore` do, and when they return, the album and the
locator (with every field) are the ones given to the call. -/
theorem SFLocatorGetAfter_getBefore_pure (a : SFAlbum) (l : SFLocator) (i : Nat) :
    SFLocatorGetAfterState (a, l) i = (SFLocatorGetAfter a l i).map (fun r => (r, (a, l))) ∧
    SFLocatorGetBeforeState (a, l) i
      = (SFLocatorGetBefore a l i).map (fun r => (r, (a, l))) ∧
    (∀ r s, SFLocatorGetAfterState (a, l) i = some (r, s) → s = (a, l)) ∧
    (∀ r s, SFLocatorGetBeforeState (a, l) i = some (r, s) → s = (a, l)) := by
  have h1 : SFLocatorGetAfterState (a, l) i
      = (SFLocatorGetAfter a l i).map (fun r => (r, (a, l))) := by
    unfold SFLocatorGetAfterState SFLocatorGetAfter
    by_cases hc : i < l._limitIndex ∧ l._version = a._version
    · rw [if_pos hc, if_pos hc, getAfterLoopState_eq]
      rfl
    · rw [if_neg hc, if_neg hc]
      rfl
  have h2 : SFLocatorGetBeforeState (a, l) i
      = (SFLocatorGetBefore a l i).map (fun r => (r, (a, l))) := by
    unfold SFLocatorGetBeforeState SFLocatorGetBefore
    by_cases hc : i < l._limitIndex ∧ l._version = a._version
    · rw [if_pos hc, if_pos hc, getBeforeLoopState_eq]
      rfl
    · rw [if_neg hc, if_neg hc]
      rfl
  refine ⟨h1, h2, ?_, ?_⟩
  · intro r s h
    rw [h1] at h
    cases hq : SFLocatorGetAfter a l i with
    | none => rw [hq] at h; exact absurd h (by simp)
    | some q =>
      rw [hq] at h
      simp only [Option.map_some', Option.some.injEq, Prod.mk.injEq] at h
      exact h.2.symm
  · intro r s h
    rw [h2] at h
    cases hq : SFLocatorGetBefore a l i with
    | none => rw [hq] at h; exact absurd h (by simp)
    | some q =>
      rw [hq] at h
      simp only [Option.map_some', Option.some.injEq, Prod.mk.injEq] at h
      exact h.2.symm

/-- Witness of C21: the look-ahead from slot 0 of the sample album returns 2 and the state
it was given. -/
theorem SFLocatorGetAfter_getBefore_pure_witness :
    SFLocatorGetAfterState (sampleAlbum, sampleLocator) 0
      = some (2, (sampleAlbum, sampleLocator)) ∧
    ∀ r s, SFLocatorGetAfterState (sampleAlbum, sampleLocator) 0 = some (r, s) →
      s = (sampleAlbum, sampleLocator) :=
  ⟨rfl, (SFLocatorGetAfter_getBefore_pure sampleAlbum sampleLocator 0).2.2.1⟩

/-- C24 (the code at the failing input): on a locator initialised with a GDEF of version 1.2 (the mark
glyph sets definition is available) and lookup flag `UseMarkFilteringSet`, the mark in
slot 1 of the sample album is not ignored: the look-ahead from 0 returns it and
`SFLocatorMoveNext` yields it. -/
theorem isIgnored_ignores_markFilteringSet :
    sampleSetLocator._markGlyphSetsDef = some 200 ∧
    sampleSetLocator.lookupFlag &&& SFLookupFlagUseMarkFilteringSet ≠ 0 ∧
    (sampleAlbum.glyphMask 1).glyphTraits &&& SFGlyphTraitMark ≠ 0 ∧
    _SFIsIgnoredGlyph sampleAlbum sampleSetLocator 1 = false ∧
    SFLocatorGetAfter sampleAlbum sampleSetLocator 0 = some 1 ∧
    SFLocatorGetBefore sampleAlbum sampleSetLocator 2 = some 1 ∧
    SFLocatorMoveNext sampleAlbum sampleSetLocator
      = some (true, { sampleSetLocator with _stateIndex := 2, index := 1 }) :=
  ⟨rfl, by decide, by decide, by decide, by decide, by decide, rfl⟩

/-- The ignore predicate has no mark filtering set rule: for every album, locator and
index it is the same whatever the mark glyph sets definition of the locator is, and the
same after `SFLocatorSetLookupFlag` with and without the bit `UseMarkFilteringSet` in the
flag. -/
theorem isIgnored_independent_of_markGlyphSets (a : SFAlbum) (l : SFLocator) (i f : Nat)
    (sets : Option Nat) :
    _SFIsIgnoredGlyph a { l with _markGlyphSetsDef := sets } i = _SFIsIgnoredGlyph a l i ∧
    _SFIsIgnoredGlyph a (SFLocatorSetLookupFlag l (f ||| SFLookupFlagUseMarkFilteringSet)) i
      = _SFIsIgnoredGlyph a (SFLocatorSetLookupFlag l f) i := by
  refine ⟨rfl, ?_⟩
  obtain ⟨b1, b2, b3, b4, b5⟩ := useMarkFilteringSet_bits f
  unfold _SFIsIgnoredGlyph SFLocatorSetLookupFlag
  simp only [b1, b2, b3, b4, b5]

/-! ## Lookup records and the matched input positions -/

/-- C22 (as stated, refuted). First part: in the scenario (input positions 2 and 3, so
`I = 2`) a record with sequence index 2 finds two non-ignored glyphs in the span `[2, 4)`:
the skip succeeds and the nested lookup is invoked, but the next move-next returns false,
there is no input glyph `i_2`. Second part: with input positions 0, 2, 3 under
`IgnoreMarks`, a first nested lookup that sets lookup flag 0 leaves that flag on the
locator; for the second record `skip(2)` then counts the mark in slot 1 and stops with
state 2, so that the next move-next under the outer filter yields 2, not `i_2 = 3`. -/
theorem contextRecord_sequenceIndex_mismatch :
    (StepsAfter sampleAlbum sampleMovedTwice [coverageOf 67] 2 [3] ∧
      SFLocatorReset sampleAlbum sampleMovedTwice 2 2 = some sampleSpan ∧
      SFLocatorSkip sampleAlbum 2 sampleSpan
        = some (true, { sampleSpan with _stateIndex := 4, index := 3 }) ∧
      SFLocatorMoveNext sampleAlbum { sampleSpan with _stateIndex := 4, index := 3 }
        = some (false, { sampleSpan with _stateIndex := 4, index := 3 }) ∧
      contextRecordLoop abortLookup 2 2 [{ sequenceIndex := 2, lookupListIndex := 0 }]
        sampleProcessor = none ∧
      (contextRecordLoop abortLookup 2 2 [{ sequenceIndex := 3, lookupListIndex := 0 }]
        sampleProcessor).isSome = true) ∧
    (StepsAfter sampleAlbum sampleMoved [coverageOf 66, coverageOf 67] 0 [2, 3] ∧
      (contextRecordLoop zeroFlagLookup 0 4
          [{ sequenceIndex := 0, lookupListIndex := 0 }] sampleProcessorAtA).bind
        (fun q1 => (SFLocatorReset q1._album q1._locator 0 4).bind
          (fun l0 => (SFLocatorSkip q1._album 2 l0).bind
            (fun r => (SFLocatorMoveNext q1._album
                { r.2 with _ignoreMask := sampleMoved._ignoreMask,
                           lookupFlag := sampleMoved.lookupFlag }).map
              (fun r2 => (q1._locator.lookupFlag, r.1, r.2._stateIndex, r2.1, r2.2.index)))))
        = some (0, true, 2, true, 2)) := by
  refine ⟨⟨?_, rfl, rfl, rfl, rfl, by decide⟩, ?_, by decide⟩
  · exact ⟨3, [], rfl, by decide, by decide, by decide, rfl⟩
  · exact ⟨2, [3], rfl, by decide, by decide, by decide,
      ⟨3, [], rfl, by decide, by decide, by decide, rfl⟩⟩

/-- C22 (amended): let `p :: ins` be the input positions of a successful match (found by
look-ahead from the non-ignored position `p` under the outer filter). For a lookup record
`(s, k)` that is processed while the processor's locator carries the outer filter (the
first record, and a later one when the earlier nested lookups left the filter and the
ignored slots as they were): the span reset is accepted; the nested lookup `k` is invoked
iff `s` is at most the number of input positions; when it is invoked the locator has range
exactly `[p, last + 1)`; its next move-next yields the input position `i_s` when `s` is
less than the number of positions, and returns false when `s` equals it. -/
theorem contextRecord_invokes_at_position
    (applyLookup : Nat → SFTextProcessor → Option SFTextProcessor)
    (p q : SFTextProcessor) (cs : List SFCoverage) (ins : List Nat)
    (record : SFLookupRecord) (rest : List SFLookupRecord)
    (hv : p._locator._version = p._album._version)
    (hw : p._locator._limitIndex < SFUIntegerSize)
    (hi : p._locator.index < p._locator._limitIndex)
    (hign : _SFIsIgnoredGlyph p._album p._locator p._locator.index = false)
    (hsteps : StepsAfter p._album p._locator cs p._locator.index ins)
    (hq : ∀ k, _SFIsIgnoredGlyph q._album q._locator k
      = _SFIsIgnoredGlyph p._album p._locator k)
    (hcount : p._locator.index ≤ q._album.glyphCount) :
    (record.sequenceIndex ≤ (p._locator.index :: ins).length →
      ∃ ls, ls._startIndex = p._locator.index ∧
        ls._limitIndex = ins.getLastD p._locator.index + 1 ∧
        contextRecordLoop applyLookup p._locator.index
            ((ins.getLastD p._locator.index - p._locator.index) + 1) (record :: rest) q
          = (applyLookup record.lookupListIndex { q with _locator := ls }).bind
              (contextRecordLoop applyLookup p._locator.index
                ((ins.getLastD p._locator.index - p._locator.index) + 1) rest) ∧
        (record.sequenceIndex < (p._locator.index :: ins).length →
          SFLocatorMoveNext q._album ls = some (true,
            { ls with
              _stateIndex := (p._locator.index :: ins).getD record.sequenceIndex 0 + 1
              index := (p._locator.index :: ins).getD record.sequenceIndex 0 })) ∧
        (record.sequenceIndex = (p._locator.index :: ins).length →
          SFLocatorMoveNext q._album ls
            = some (false, { ls with _stateIndex := ls._limitIndex }))) ∧
    ((p._locator.index :: ins).length < record.sequenceIndex →
      ∃ ls, contextRecordLoop applyLookup p._locator.index
            ((ins.getLastD p._locator.index - p._locator.index) + 1) (record :: rest) q
          = contextRecordLoop applyLookup p._locator.index
              ((ins.getLastD p._locator.index - p._locator.index) + 1) rest
              { q with _locator := ls }) := by
  obtain ⟨l0, hreset, v0, s0, b0, e0, q0⟩ :=
    span_reset p._album p._locator q._album q._locator cs ins hv hw hi hsteps hcount
  obtain ⟨k1, k2, k3⟩ := span_skip_from p._album p._locator q._album l0 cs ins hign hsteps
    v0 s0 b0 e0 (fun k => by rw [q0 k, hq k])
  have hloop : ∀ ls, SFLocatorSkip q._album record.sequenceIndex l0 = some (true, ls) →
      contextRecordLoop applyLookup p._locator.index
          ((ins.getLastD p._locator.index - p._locator.index) + 1) (record :: rest) q
        = (applyLookup record.lookupListIndex { q with _locator := ls }).bind
            (contextRecordLoop applyLookup p._locator.index
              ((ins.getLastD p._locator.index - p._locator.index) + 1) rest) := by
    intro ls hs
    simp only [contextRecordLoop, hreset, hs]
    cases applyLookup record.lookupListIndex { q with _locator := ls } with
    | none => rfl
    | some q1 => rfl
  constructor
  · intro hle
    rcases Nat.lt_or_eq_of_le hle with hlt | heq
    · obtain ⟨ls, h1, h2, h3, h4⟩ := k1 record.sequenceIndex hlt
      exact ⟨ls, h2, h3, hloop ls h1, fun _ => h4, fun h => absurd h (by omega)⟩
    · obtain ⟨ls, h1, h2, h3, h4⟩ := k2
      rw [← heq] at h1
      exact ⟨ls, h2, h3, hloop ls h1, fun h => absurd h (by omega), fun _ => h4⟩
  · intro hgt
    obtain ⟨ls, h1⟩ := k3 record.sequenceIndex hgt
    exact ⟨ls, by simp only [contextRecordLoop, hreset, h1]⟩

/-- Witness of C22 (amended): the first record `(0, 0)` of the scenario on the span
`[2, 4)`; the nested lookup is invoked on a locator with that range. -/
theorem contextRecord_invokes_at_position_witness :
    sampleProcessor._locator._version = sampleProcessor._album._version ∧
    sampleProcessor._locator._limitIndex < SFUIntegerSize ∧
    sampleProcessor._locator.index < sampleProcessor._locator._limitIndex ∧
    _SFIsIgnoredGlyph sampleProcessor._album sampleProcessor._locator
      sampleProcessor._locator.index = false ∧
    StepsAfter sampleProcessor._album sampleProcessor._locator [coverageOf 67]
      sampleProcessor._locator.index [3] ∧
    sampleProcessor._locator.index ≤ sampleProcessor._album.glyphCount ∧
    ∃ ls : SFLocator, ls._startIndex = 2 ∧ ls._limitIndex = 4 ∧
      contextRecordLoop drainLookup 2 2 [{ sequenceIndex := 0, lookupListIndex := 0 }]
          sampleProcessor
        = (drainLookup 0 { sampleProcessor with _locator := ls }).bind
            (contextRecordLoop drainLookup 2 2 []) :=
  ⟨by decide, by decide, by decide, by decide,
    ⟨3, [], rfl, by decide, by decide, by decide, rfl⟩, by decide,
    match (contextRecord_invokes_at_position drainLookup sampleProcessor sampleProcessor
      [coverageOf 67] [3] { sequenceIndex := 0, lookupListIndex := 0 } []
      (by decide) (by decide) (by decide) (by decide)
      ⟨3, [], rfl, by decide, by decide, by decide, rfl⟩ (fun _ => rfl) (by decide)).1
      (by decide) with
    | ⟨ls, h1, h2, h3, _⟩ => ⟨ls, h1, h2, h3⟩⟩

/-- C23: when the processor's locator is fresh, its index lies in `[start, limit)` and the
limit is at most the album's glyph count (a machine word), the matching phase of
`_SFApplyChainContextF3` violates no assertion, for all subtable contents and counts: the
forward and backward loops always return, which means that every `SFLocatorGetAfter` /
`SFLocatorGetBefore` call received an index below the limit; a look-ahead or look-behind
that runs off the range gives `NotMatched`; and the call either returns false, or there is
a match whose span `(p, last - p + 1)` is accepted by `SFLocatorReset`, lies inside the
outer `[start, limit)`, and is handed to `_SFApplyContextRecord`. -/
theorem applyChainContextF3_matching_safe
    (applyLookup : Nat → SFTextProcessor → Option SFTextProcessor)
    (p : SFTextProcessor) (cc : SFChainContextF3)
    (hv : p._locator._version = p._album._version)
    (hstart : p._locator._startIndex ≤ p._locator.index)
    (hi : p._locator.index < p._locator._limitIndex)
    (hlen : p._locator._limitIndex ≤ p._album.glyphCount)
    (hwa : p._album.glyphCount < SFUIntegerSize) :
    (∀ cs cur, cur < p._locator._limitIndex →
      ∃ res, matchAfterLoop p._album p._locator cs cur = some res ∧
        ∀ q, res = some q → cur ≤ q ∧ q < p._locator._limitIndex) ∧
    (∀ cs cur, cur < p._locator._limitIndex →
      ∃ res, matchBeforeLoop p._album p._locator cs cur = some res) ∧
    (∀ c cs cur, SFLocatorGetAfter p._album p._locator cur = some SFInvalidIndex →
      matchAfterLoop p._album p._locator (c :: cs) cur = some none) ∧
    (∀ c cs cur, SFLocatorGetBefore p._album p._locator cur = some SFInvalidIndex →
      matchBeforeLoop p._album p._locator (c :: cs) cur = some none) ∧
    (_SFApplyChainContextF3 applyLookup p cc = some (false, p) ∨
      ∃ last l0, ChainMatchesAt p._album p._locator cc p._locator.index last ∧
        SFLocatorReset p._album p._locator p._locator.index
          ((last - p._locator.index) + 1) = some l0 ∧
        l0._startIndex = p._locator.index ∧ l0._limitIndex = last + 1 ∧
        p._locator._startIndex ≤ l0._startIndex ∧
        l0._limitIndex ≤ p._locator._limitIndex ∧
        _SFApplyChainContextF3 applyLookup p cc =
          (_SFApplyContextRecord applyLookup p cc.contextRecord p._locator.index
            ((last - p._locator.index) + 1)).map (fun r => (true, r))) := by
  have hw : p._locator._limitIndex < SFUIntegerSize := by omega
  refine ⟨?_, ?_, ?_, ?_, ?_⟩
  · intro cs cur hcur
    exact matchAfterLoop_returns p._album p._locator hv cs cur hcur
  · intro cs cur hcur
    exact matchBeforeLoop_returns p._album p._locator hv hw cs cur hcur
  · intro c cs cur h
    simp [matchAfterLoop, h]
  · intro c cs cur h
    simp [matchBeforeLoop, h]
  · by_cases hm : ChainMatches p._album p._locator cc p._locator.index
    · right
      obtain ⟨last, hlast⟩ := hm
      have hmatch := hlast
      obtain ⟨c0, rest, _, _, ins, _, _, hins, hl, _, _⟩ := hlast
      obtain ⟨l0, hreset, _, _, b0, e0, _⟩ :=
        span_reset p._album p._locator p._album p._locator rest ins hv hw hi hins
          (by omega)
      have hlt := steps_last_lt p._album p._locator hv rest _ ins hins hi
      rw [hl] at hreset e0 hlt
      exact ⟨last, l0, hmatch, hreset, b0, e0, by rw [b0]; exact hstart, by rw [e0]; omega,
        applyChainContextF3_of_matches applyLookup p cc last hmatch⟩
    · left
      exact applyChainContextF3_of_not_matches applyLookup p cc hv hw hi hm

/-- Witness of C23: the scenario, the outer traversal at `B`; the match hands the span
`(2, 2)` to the reset. -/
theorem applyChainContextF3_matching_safe_witness :
    sampleProcessor._locator._version = sampleProcessor._album._version ∧
    sampleProcessor._locator._startIndex ≤ sampleProcessor._locator.index ∧
    sampleProcessor._locator.index < sampleProcessor._locator._limitIndex ∧
    sampleProcessor._locator._limitIndex ≤ sampleProcessor._album.glyphCount ∧
    sampleProcessor._album.glyphCount < SFUIntegerSize ∧
    SFLocatorReset sampleProcessor._album sampleProcessor._locator 2 2 = some sampleSpan ∧
    ∀ cs cur, cur < sampleProcessor._locator._limitIndex →
      ∃ res, matchBeforeLoop sampleProcessor._album sampleProcessor._locator cs cur
        = some res :=
  ⟨by decide, by decide, by decide, by decide, by decide, rfl,
    (applyChainContextF3_matching_safe drainLookup sampleProcessor sampleChain
      (by decide) (by decide) (by decide) (by decide) (by decide)).2.1⟩

end SheenFigure
